import Mathlib

/-!
# DailyHub: the persistent store, the generic list manager and the widgets

A shallow embedding of `script.js`: `Utils.saveToStorage`, `Utils.loadFromStorage`,
`Utils.escapeHtml`, `Utils.setupFilterButtons`, `AppState.save`, `EventBus`, `BaseManager`
(`add`, `delete`, `update`, `render`), `TodoTracker`, `BookmarkManager.addBookmark`,
`ProjectManager.filterItems`, `NotesManager`, `QuotesManager`, `ExpenseTracker`,
`PomodoroTimer`, `Analytics.updateTaskStats`, `GoalsTracker`, `WaterTracker`,
`ReadingList.updateProgress` and `WeatherManager.renderForecast`.

Values are the JSON values, `NaN` and the two infinities.  A JavaScript object is the
ordered list of its own properties; the members that the `listeners` object of `EventBus`
inherits from `Object.prototype` are named in `objectPrototypeKeys`.  The browser (JSON
codec, `localStorage`, `confirm`, the id generator, the clock, the interval timers and the
rounding of floating point) is a parameter of the operations that use it; `binary64` is
the rounding of the doubles, which the numbers of JavaScript are.  An operation on a
collection returns `none` where the property it works on is not an array or a callback
stops with a `TypeError`.
-/

namespace DailyHub

/-! ## Values -/

/-- The values of the script: the JSON values, which `JSON.parse` produces and the widgets
put in their records, and the numbers that are not JSON: `NaN`, `Infinity` and
`-Infinity`.  A finite number is a rational: the finite doubles are among them. -/
inductive JVal where
  | null : JVal
  | bool (b : Bool) : JVal
  | num (n : ℚ) : JVal
  | nan : JVal
  | inf (negative : Bool) : JVal
  | str (s : String) : JVal
  | arr (xs : List JVal) : JVal
  | obj (fields : List (String × JVal)) : JVal

/-- A JavaScript object: its own enumerable properties in insertion order. -/
abbrev Record := List (String × JVal)

/-- A managed collection: an array of records. -/
abbrev Collection := List Record

mutual
/-- Equality of JSON values is decidable. -/
def JVal.decEq : (a b : JVal) → Decidable (a = b)
  | .null, .null => isTrue rfl
  | .nan, .nan => isTrue rfl
  | .bool a, .bool b =>
    if h : a = b then isTrue (by rw [h]) else isFalse (by intro e; cases e; exact h rfl)
  | .num a, .num b =>
    if h : a = b then isTrue (by rw [h]) else isFalse (by intro e; cases e; exact h rfl)
  | .inf a, .inf b =>
    if h : a = b then isTrue (by rw [h]) else isFalse (by intro e; cases e; exact h rfl)
  | .str a, .str b =>
    if h : a = b then isTrue (by rw [h]) else isFalse (by intro e; cases e; exact h rfl)
  | .arr xs, .arr ys =>
    match JVal.decEqList xs ys with
    | isTrue h => isTrue (by rw [h])
    | isFalse h => isFalse (by intro e; cases e; exact h rfl)
  | .obj xs, .obj ys =>
    match JVal.decEqFields xs ys with
    | isTrue h => isTrue (by rw [h])
    | isFalse h => isFalse (by intro e; cases e; exact h rfl)
  | .null, .bool _ => isFalse (fun e => JVal.noConfusion e)
  | .null, .num _ => isFalse (fun e => JVal.noConfusion e)
  | .null, .nan => isFalse (fun e => JVal.noConfusion e)
  | .null, .inf _ => isFalse (fun e => JVal.noConfusion e)
  | .null, .str _ => isFalse (fun e => JVal.noConfusion e)
  | .null, .arr _ => isFalse (fun e => JVal.noConfusion e)
  | .null, .obj _ => isFalse (fun e => JVal.noConfusion e)
  | .bool _, .null => isFalse (fun e => JVal.noConfusion e)
  | .bool _, .num _ => isFalse (fun e => JVal.noConfusion e)
  | .bool _, .nan => isFalse (fun e => JVal.noConfusion e)
  | .bool _, .inf _ => isFalse (fun e => JVal.noConfusion e)
  | .bool _, .str _ => isFalse (fun e => JVal.noConfusion e)
  | .bool _, .arr _ => isFalse (fun e => JVal.noConfusion e)
  | .bool _, .obj _ => isFalse (fun e => JVal.noConfusion e)
  | .num _, .null => isFalse (fun e => JVal.noConfusion e)
  | .num _, .bool _ => isFalse (fun e => JVal.noConfusion e)
  | .num _, .nan => isFalse (fun e => JVal.noConfusion e)
  | .num _, .inf _ => isFalse (fun e => JVal.noConfusion e)
  | .num _, .str _ => isFalse (fun e => JVal.noConfusion e)
  | .num _, .arr _ => isFalse (fun e => JVal.noConfusion e)
  | .num _, .obj _ => isFalse (fun e => JVal.noConfusion e)
  | .nan, .null => isFalse (fun e => JVal.noConfusion e)
  | .nan, .bool _ => isFalse (fun e => JVal.noConfusion e)
  | .nan, .num _ => isFalse (fun e => JVal.noConfusion e)
  | .nan, .inf _ => isFalse (fun e => JVal.noConfusion e)
  | .nan, .str _ => isFalse (fun e => JVal.noConfusion e)
  | .nan, .arr _ => isFalse (fun e => JVal.noConfusion e)
  | .nan, .obj _ => isFalse (fun e => JVal.noConfusion e)
  | .inf _, .null => isFalse (fun e => JVal.noConfusion e)
  | .inf _, .bool _ => isFalse (fun e => JVal.noConfusion e)
  | .inf _, .num _ => isFalse (fun e => JVal.noConfusion e)
  | .inf _, .nan => isFalse (fun e => JVal.noConfusion e)
  | .inf _, .str _ => isFalse (fun e => JVal.noConfusion e)
  | .inf _, .arr _ => isFalse (fun e => JVal.noConfusion e)
  | .inf _, .obj _ => isFalse (fun e => JVal.noConfusion e)
  | .str _, .null => isFalse (fun e => JVal.noConfusion e)
  | .str _, .bool _ => isFalse (fun e => JVal.noConfusion e)
  | .str _, .num _ => isFalse (fun e => JVal.noConfusion e)
  | .str _, .nan => isFalse (fun e => JVal.noConfusion e)
  | .str _, .inf _ => isFalse (fun e => JVal.noConfusion e)
  | .str _, .arr _ => isFalse (fun e => JVal.noConfusion e)
  | .str _, .obj _ => isFalse (fun e => JVal.noConfusion e)
  | .arr _, .null => isFalse (fun e => JVal.noConfusion e)
  | .arr _, .bool _ => isFalse (fun e => JVal.noConfusion e)
  | .arr _, .num _ => isFalse (fun e => JVal.noConfusion e)
  | .arr _, .nan => isFalse (fun e => JVal.noConfusion e)
  | .arr _, .inf _ => isFalse (fun e => JVal.noConfusion e)
  | .arr _, .str _ => isFalse (fun e => JVal.noConfusion e)
  | .arr _, .obj _ => isFalse (fun e => JVal.noConfusion e)
  | .obj _, .null => isFalse (fun e => JVal.noConfusion e)
  | .obj _, .bool _ => isFalse (fun e => JVal.noConfusion e)
  | .obj _, .num _ => isFalse (fun e => JVal.noConfusion e)
  | .obj _, .nan => isFalse (fun e => JVal.noConfusion e)
  | .obj _, .inf _ => isFalse (fun e => JVal.noConfusion e)
  | .obj _, .str _ => isFalse (fun e => JVal.noConfusion e)
  | .obj _, .arr _ => isFalse (fun e => JVal.noConfusion e)
/-- Equality of arrays is decidable. -/
def JVal.decEqList : (a b : List JVal) → Decidable (a = b)
  | [], [] => isTrue rfl
  | [], _ :: _ => isFalse (by intro e; cases e)
  | _ :: _, [] => isFalse (by intro e; cases e)
  | x :: xs, y :: ys =>
    match JVal.decEq x y, JVal.decEqList xs ys with
    | isTrue h, isTrue h2 => isTrue (by rw [h, h2])
    | isFalse h, _ => isFalse (by intro e; cases e; exact h rfl)
    | _, isFalse h => isFalse (by intro e; cases e; exact h rfl)
/-- Equality of property lists is decidable. -/
def JVal.decEqFields : (a b : List (String × JVal)) → Decidable (a = b)
  | [], [] => isTrue rfl
  | [], _ :: _ => isFalse (by intro e; cases e)
  | _ :: _, [] => isFalse (by intro e; cases e)
  | (k, x) :: xs, (l, y) :: ys =>
    if hk : k = l then
      match JVal.decEq x y, JVal.decEqFields xs ys with
      | isTrue h, isTrue h2 => isTrue (by rw [hk, h, h2])
      | isFalse h, _ => isFalse (by intro e; cases e; exact h rfl)
      | _, isFalse h => isFalse (by intro e; cases e; exact h rfl)
    else isFalse (by intro e; cases e; exact hk rfl)
end

instance : DecidableEq JVal := JVal.decEq

/-- The array holding the records of a collection. -/
def ofCollection (c : Collection) : JVal := .arr (c.map .obj)

/-- Property read `r[k]`; `none` is `undefined`. -/
def getProp : Record → String → Option JVal
  | [], _ => none
  | (k', v) :: rest, k => if k' = k then some v else getProp rest k

/-- Property write `r[k] = v`: an existing property keeps its place, a new one goes last. -/
def setProp : Record → String → JVal → Record
  | [], k, v => [(k, v)]
  | (k', v') :: rest, k, v =>
    if k' = k then (k, v) :: rest else (k', v') :: setProp rest k v

/-- `Object.assign(target, source)`: every property of `source`, in order, written to
`target`. -/
def objectAssign (target source : Record) : Record :=
  source.foldl (fun t kv => setProp t kv.1 kv.2) target

/-- JavaScript truthiness of a property value (`none` is `undefined`). -/
def truthy : Option JVal → Bool
  | none => false
  | some .null => false
  | some (.bool b) => b
  | some (.num n) => n != 0
  | some .nan => false
  | some (.inf _) => true
  | some (.str s) => s != ""
  | some (.arr _) => true
  | some (.obj _) => true

/-! ## The browser -/

/-- The contents of `localStorage`. -/
abbrev Store := List (String × String)

/-- What the script takes from the browser: the JSON codec, the two ways `localStorage`
fails and the rounding of its arithmetic. -/
structure Host where
  /-- `JSON.stringify`. -/
  stringify : JVal → String
  /-- `JSON.parse`; `none` when it throws a `SyntaxError`. -/
  parse : String → Option JVal
  /-- Access to `localStorage` is denied: every call on it throws. -/
  storageDenied : Bool
  /-- Whether writing `text` under `key` exceeds the quota: `setItem` then throws. -/
  quotaExceeded : Store → String → String → Bool
  /-- The number an arithmetic operation returns for the exact result `x`: the rounding of
  binary floating point.  The identity is exact arithmetic. -/
  fl : ℚ → ℚ := fun x => x

/-- A value is JSON-serialisable: its JSON text is not empty and parses back to it. -/
def Host.Serialisable (h : Host) (v : JVal) : Prop :=
  h.stringify v ≠ "" ∧ h.parse (h.stringify v) = some v

instance (h : Host) (v : JVal) : Decidable (h.Serialisable v) := by
  unfold Host.Serialisable; exact inferInstance

/-- The text stored under `key`, `none` when there is none. -/
def Store.lookup : Store → String → Option String
  | [], _ => none
  | (k', v) :: rest, k => if k' = k then some v else Store.lookup rest k

/-- The store with `text` under `key`. -/
def Store.insert : Store → String → String → Store
  | [], k, v => [(k, v)]
  | (k', v') :: rest, k, v =>
    if k' = k then (k, v) :: rest else (k', v') :: Store.insert rest k v

/-- `localStorage.setItem(key, text)`; `none` when it throws. -/
def Host.setItem (h : Host) (st : Store) (key text : String) : Option Store :=
  if h.storageDenied || h.quotaExceeded st key text then none
  else some (Store.insert st key text)

/-- `localStorage.getItem(key)`; `none` when it throws, `some none` for `null`. -/
def Host.getItem (h : Host) (st : Store) (key : String) : Option (Option String) :=
  if h.storageDenied then none else some (Store.lookup st key)

/-! ## Utils -/

/-- `Utils.saveToStorage(key, value)`: the `catch` block is empty, a failed write leaves
the store as it was. -/
def Utils.saveToStorage (h : Host) (st : Store) (key : String) (value : JVal) : Store :=
  match h.setItem st key (h.stringify value) with
  | some st' => st'
  | none => st

/-- `Utils.loadFromStorage(key, defaultValue)`. -/
def Utils.loadFromStorage (h : Host) (st : Store) (key : String) (defaultValue : JVal) :
    JVal :=
  match h.getItem st key with
  | none => defaultValue
  | some none => defaultValue
  | some (some item) =>
    if item = "" then defaultValue
    else
      match h.parse item with
      | some v => v
      | none => defaultValue

/-! ## AppState, the event bus and rendering -/

/-- The `AppState` object: its data properties in declaration order. -/
abbrev AppState := Record

/-- What an operation does besides changing `AppState` and the store. -/
inductive Effect where
  | save : Effect
  | render (stateKey : String) : Effect
  | emit (event : String) : Effect
  | toast (message kind : String) : Effect
  deriving DecidableEq, Repr

/-- The state of the page: `AppState`, `localStorage` and the effects so far, oldest
first. -/
structure World where
  app : AppState
  store : Store
  log : List Effect
  deriving DecidableEq

/-- The writes of `AppState.save`, one property after the other. -/
def AppState.saveEntries (h : Host) : Store → List (String × JVal) → Store
  | st, [] => st
  | st, (key, value) :: rest =>
    AppState.saveEntries h (if key ≠ "save" then Utils.saveToStorage h st key value else st)
      rest

/-- `AppState.save()`: `Object.keys(this).forEach(key => ...)`. -/
def AppState.save (h : Host) (w : World) : World :=
  { w with store := AppState.saveEntries h w.store w.app, log := w.log ++ [Effect.save] }

/-- `EventBus.emit(event)` as seen from the publisher: the one subscriber of the script
recomputes the statistics shown on the page, so only the call is recorded. -/
def EventBus.emit (event : String) (w : World) : World :=
  { w with log := w.log ++ [Effect.emit event] }

/-- `render()` of the manager or widget that owns `stateKey`: it reads the collection and
writes to the page; the page is outside the model, so only the call is recorded. -/
def BaseManager.render (stateKey : String) (w : World) : World :=
  { w with log := w.log ++ [Effect.render stateKey] }

/-- `Utils.showToast(message, type)`. -/
def Utils.showToast (message kind : String) (w : World) : World :=
  { w with log := w.log ++ [Effect.toast message kind] }

/-! ## BaseManager -/

/-- The array `AppState[key]`; `none` when the property is not an array (`push`, `filter`
and `find` are then not functions). -/
def AppState.arrayAt (app : AppState) (key : String) : Option (List JVal) :=
  match getProp app key with
  | some (.arr xs) => some xs
  | _ => none

/-- The getter `items` of a manager: `AppState[this.stateKey]`. -/
def BaseManager.items (app : AppState) (stateKey : String) : Option (List JVal) :=
  AppState.arrayAt app stateKey

/-- `item.id === id` for a string `id`; `none` when reading `item.id` throws, which it
does on `null`.  A value that is not an object has no `id`. -/
def idIs (item : JVal) (id : String) : Option Bool :=
  match item with
  | .null => none
  | .obj r => some (decide (getProp r "id" = some (.str id)))
  | _ => some false

/-- `items.filter(item => item.id !== id)`; `none` when the callback throws. -/
def filterOutId : List JVal → String → Option (List JVal)
  | [], _ => some []
  | x :: xs, id =>
    match idIs x id, filterOutId xs id with
    | some b, some ys => some (if b then ys else x :: ys)
    | _, _ => none

/-- `items.find(item => item.id === id)` followed by an in-place change `f` of the record
found: `none` when the callback throws, `some none` when nothing is found, else the
array with the first match changed. -/
def mutateFound (f : Record → Record) : List JVal → String → Option (Option (List JVal))
  | [], _ => some none
  | x :: xs, id =>
    match x with
    | .null => none
    | .obj r =>
      if getProp r "id" = some (.str id) then some (some (.obj (f r) :: xs))
      else (mutateFound f xs id).map (Option.map (fun ys => .obj r :: ys))
    | _ => (mutateFound f xs id).map (Option.map (fun ys => x :: ys))

/-- `BaseManager.add(item)`; `newId` is what `Utils.generateId()` returns and `now` what
`new Date().toISOString()` returns. -/
def BaseManager.add (h : Host) (stateKey newId now : String) (item : Record) (w : World) :
    Option World :=
  let item1 := setProp item "id" (.str newId)
  let item2 := setProp item1 "createdAt" (.str now)
  match BaseManager.items w.app stateKey with
  | none => none
  | some xs =>
    let w1 := { w with app := setProp w.app stateKey (.arr (xs ++ [.obj item2])) }
    some (EventBus.emit "dataChanged" (BaseManager.render stateKey (AppState.save h w1)))

/-- `BaseManager.delete(id)`; `confirmed` is the answer to `confirm('Delete this item?')`. -/
def BaseManager.delete (h : Host) (stateKey : String) (confirmed : Bool) (id : String)
    (w : World) : Option World :=
  if !confirmed then some w
  else
    match (BaseManager.items w.app stateKey).bind (fun xs => filterOutId xs id) with
    | none => none
    | some ys =>
      let w1 := AppState.save h { w with app := setProp w.app stateKey (.arr ys) }
      some (EventBus.emit "dataChanged" (BaseManager.render stateKey w1))

/-- `BaseManager.update(id, updates)`. -/
def BaseManager.update (h : Host) (stateKey id : String) (updates : Record) (w : World) :
    Option World :=
  match (BaseManager.items w.app stateKey).bind
      (fun xs => mutateFound (fun r => objectAssign r updates) xs id) with
  | none => none
  | some none => some w
  | some (some ys) =>
    let w1 := { w with app := setProp w.app stateKey (.arr ys) }
    some (EventBus.emit "dataChanged" (BaseManager.render stateKey (AppState.save h w1)))

/-! ## The widgets built on it -/

/-- `TodoTracker.toggleTodo(id)`. -/
def TodoTracker.toggleTodo (h : Host) (id : String) (w : World) : Option World :=
  match (BaseManager.items w.app "todos").bind
      (fun xs => mutateFound
        (fun todo => setProp todo "completed" (.bool (!truthy (getProp todo "completed"))))
        xs id) with
  | none => none
  | some none => some w
  | some (some ys) =>
    let w1 := { w with app := setProp w.app "todos" (.arr ys) }
    some (EventBus.emit "dataChanged" (BaseManager.render "todos" (AppState.save h w1)))

/-- `NotesManager.addNote()`; `title` and `content` are the trimmed values of the two
inputs of the page. -/
def NotesManager.addNote (h : Host) (newId now title content : String) (w : World) :
    Option World :=
  if title = "" ∧ content = "" then
    some (Utils.showToast "Please enter a title or content" "warning" w)
  else
    let newNote : Record :=
      [("id", .str newId), ("title", .str (if title = "" then "Untitled Note" else title)),
        ("content", .str content), ("createdAt", .str now)]
    match BaseManager.items w.app "notes" with
    | none => none
    | some xs =>
      let w1 := AppState.save h { w with app := setProp w.app "notes" (.arr (.obj newNote :: xs)) }
      let w2 := Utils.showToast "Note saved successfully!" "success" w1
      some (EventBus.emit "dataChanged" (BaseManager.render "notes" w2))

/-- `NotesManager.delete(id)`: `super.delete(id)`, then a toast. -/
def NotesManager.delete (h : Host) (confirmed : Bool) (id : String) (w : World) :
    Option World :=
  (BaseManager.delete h "notes" confirmed id w).map (Utils.showToast "Note deleted" "info")

/-- `ExpenseTracker.deleteExpense(expenseId)`; `confirmed` is the answer to
`confirm('Delete this expense?')`. -/
def ExpenseTracker.deleteExpense (h : Host) (confirmed : Bool) (expenseId : String)
    (w : World) : Option World :=
  if !confirmed then some w
  else
    match (AppState.arrayAt w.app "expenses").bind (fun xs => filterOutId xs expenseId) with
    | none => none
    | some ys =>
      let w1 := AppState.save h { w with app := setProp w.app "expenses" (.arr ys) }
      some (EventBus.emit "dataChanged" (BaseManager.render "expenses" w1))

/-- `ExpenseTracker.clearAllExpenses()`; `confirmed` is the answer to
`confirm('Are you sure? This cannot be undone.')`. -/
def ExpenseTracker.clearAllExpenses (h : Host) (confirmed : Bool) (w : World) : World :=
  if confirmed then
    let w1 := AppState.save h { w with app := setProp w.app "expenses" (.arr []) }
    EventBus.emit "dataChanged" (BaseManager.render "expenses" w1)
  else w

/-- What a reload of the page reads for `stateKey`:
`Utils.loadFromStorage(stateKey, [])`. -/
def AppState.reload (h : Host) (st : Store) (stateKey : String) : JVal :=
  Utils.loadFromStorage h st stateKey (.arr [])

/-! ## AppState at page load and a widget with a state of its own -/

/-- The `AppState` literal: every property is read from the store when the script starts;
`today` is `new Date().toDateString()`. -/
def AppState.load (h : Host) (st : Store) (today : String) : AppState :=
  [("habits", Utils.loadFromStorage h st "habits" (.arr [])),
    ("expenses", Utils.loadFromStorage h st "expenses" (.arr [])),
    ("todos", Utils.loadFromStorage h st "todos" (.arr [])),
    ("bookmarks", Utils.loadFromStorage h st "bookmarks" (.arr [])),
    ("projects", Utils.loadFromStorage h st "projects" (.arr [])),
    ("notes", Utils.loadFromStorage h st "notes" (.arr [])),
    ("favoriteQuotes", Utils.loadFromStorage h st "favoriteQuotes" (.arr [])),
    ("focusSessionsCompleted", Utils.loadFromStorage h st "focusSessionsCompleted" (.num 0)),
    ("goals", Utils.loadFromStorage h st "goals" (.arr [])),
    ("waterIntake", Utils.loadFromStorage h st "waterIntake"
      (.obj [("cups", .num 0), ("dailyGoal", .num 8), ("lastReset", .str today)])),
    ("timeTracking", Utils.loadFromStorage h st "timeTracking" (.arr [])),
    ("readingList", Utils.loadFromStorage h st "readingList" (.arr [])),
    ("importantDates", Utils.loadFromStorage h st "importantDates" (.arr []))]

/-- `GoalsTracker.init()`: what the widget puts in `this.state.goals`. -/
def GoalsTracker.init (h : Host) (st : Store) : JVal :=
  Utils.loadFromStorage h st "goals" (.arr [])

/-- `GoalsTracker.save()`. -/
def GoalsTracker.save (h : Host) (goals : List JVal) (st : Store) : Store :=
  Utils.saveToStorage h st "goals" (.arr goals)

/-- `GoalsTracker.addGoal()` on the goals of `this.state` and the store; `text` is the
trimmed value of the input and `today` is `new Date().toDateString()`.  The toast and the
rendering are left out. -/
def GoalsTracker.addGoal (h : Host) (newId today text : String) (goals : List JVal)
    (st : Store) : List JVal × Store :=
  if text = "" then (goals, st)
  else
    let goals1 := goals ++ [.obj [("id", .str newId), ("text", .str text),
      ("completed", .bool false), ("date", .str today)]]
    (goals1, GoalsTracker.save h goals1 st)

/-! ## EventBus with its listeners -/

/-- What a call of a subscriber leaves behind: the state it works on, and whether the
call returned or threw. -/
inductive Outcome (σ : Type) where
  | returned (s : σ) : Outcome σ
  | threw (s : σ) : Outcome σ
  deriving DecidableEq

/-- A subscriber: called with the payload (`none` is `undefined`) on a state `σ`. -/
abbrev Handler (σ : Type) := Option JVal → σ → Outcome σ

/-- `EventBus.listeners`: the own properties of the object, the event names, each with
its callbacks in subscription order. -/
abbrev Listeners (σ : Type) := List (String × List (Handler σ))

/-- The names that a plain object, which `listeners` is, inherits from
`Object.prototype`.  For such a name `listeners[name]` is a function of the prototype
(for `__proto__` the prototype itself) unless an own property hides it: a truthy value
that has neither `push` nor `forEach`. -/
def objectPrototypeKeys : List String :=
  ["constructor", "__defineGetter__", "__defineSetter__", "hasOwnProperty",
    "__lookupGetter__", "__lookupSetter__", "isPrototypeOf", "propertyIsEnumerable",
    "toString", "valueOf", "__proto__", "toLocaleString"]

/-- `EventBus.on(event, callback)`; `none` when it throws a `TypeError`: under an
inherited name `this.listeners[event]` is truthy, no array is made, and `push` is not a
function. -/
def EventBus.on {σ : Type} : Listeners σ → String → Handler σ → Option (Listeners σ)
  | [], event, callback =>
    if event ∈ objectPrototypeKeys then none else some [(event, [callback])]
  | (e, cbs) :: rest, event, callback =>
    if e = event then some ((e, cbs ++ [callback]) :: rest)
    else (EventBus.on rest event callback).map (fun rest1 => (e, cbs) :: rest1)

/-- `this.listeners[event] || []` as the receiver of `forEach`; `none` when it is an
inherited member of `Object.prototype`, which has no `forEach`. -/
def EventBus.callbacks {σ : Type} : Listeners σ → String → Option (List (Handler σ))
  | [], event => if event ∈ objectPrototypeKeys then none else some []
  | (e, cbs) :: rest, event => if e = event then some cbs else EventBus.callbacks rest event

/-- `callbacks.forEach(callback => callback(data))`: a callback that throws ends the
loop, the exception leaves `forEach`. -/
def EventBus.forEach {σ : Type} : List (Handler σ) → Option JVal → σ → Outcome σ
  | [], _, s => .returned s
  | callback :: rest, data, s =>
    match callback data s with
    | .returned s1 => EventBus.forEach rest data s1
    | .threw s1 => .threw s1

/-- `EventBus.emit(event, data)` with the listeners subscribed so far, on the state the
subscribers work on.  Under an inherited name the call of `forEach` throws before any
callback has run. -/
def EventBus.emitTo {σ : Type} (listeners : Listeners σ) (event : String)
    (data : Option JVal) (s : σ) : Outcome σ :=
  match EventBus.callbacks listeners event with
  | none => .threw s
  | some callbacks => EventBus.forEach callbacks data s

/-- The listeners after `on(e1, h1); …; on(en, hn)` on a fresh `EventBus`; `none` when one
of the calls throws. -/
def EventBus.subscribeAll {σ : Type} (subscriptions : List (String × Handler σ)) :
    Option (Listeners σ) :=
  subscriptions.foldl
    (fun listeners sub => listeners.bind (fun ls => EventBus.on ls sub.1 sub.2)) (some [])

/-- The calls made so far: which subscriber, with which payload. -/
abbrev Calls := List (String × Option JVal)

/-- A subscriber that notes its call and returns. -/
def noting (name : String) : Handler Calls :=
  fun data calls => .returned (calls ++ [(name, data)])

/-- A subscriber that notes its call and throws. -/
def failing (name : String) : Handler Calls :=
  fun data calls => .threw (calls ++ [(name, data)])

/-! ## Filters and rendering -/

/-- The managers of the script: the four subclasses of `BaseManager`. -/
inductive ManagerKind where
  | todos : ManagerKind
  | bookmarks : ManagerKind
  | projects : ManagerKind
  | notes : ManagerKind
  deriving DecidableEq, Repr

/-- The filter fields a `BaseManager` keeps. -/
structure Manager where
  kind : ManagerKind
  currentFilter : String
  currentStatusFilter : String
  deriving DecidableEq, Repr

/-- The manager as its constructor leaves it: both filters are `'all'`. -/
def Manager.new (kind : ManagerKind) : Manager :=
  { kind := kind, currentFilter := "all", currentStatusFilter := "all" }

/-- The attribute a manager passes to `Utils.setupFilterButtons` in its `init`: the
default `'data-filter'` for `TodoTracker`, `'data-status'` for `ProjectManager`; the
other two have no filter buttons. -/
def ManagerKind.filterAttr : ManagerKind → Option String
  | .todos => some "data-filter"
  | .projects => some "data-status"
  | .bookmarks => none
  | .notes => none

/-- The click listener that `Utils.setupFilterButtons(buttons, manager, filterAttr)` puts
on a button whose attribute `filterAttr` is `value`: it sets one of the two filters (the
call of `render` that follows is `BaseManager.renderItems`). -/
def Utils.setupFilterButtons (filterAttr value : String) (m : Manager) : Manager :=
  if filterAttr = "data-filter" then { m with currentFilter := value }
  else { m with currentStatusFilter := value }

/-- The states of a manager the script can reach: the constructor, then clicks on the
filter buttons set up in `init`. -/
inductive Manager.Reachable : Manager → Prop where
  | new (kind : ManagerKind) : Manager.Reachable (Manager.new kind)
  | click (m : Manager) (filterAttr value : String) :
      Manager.Reachable m → m.kind.filterAttr = some filterAttr →
      Manager.Reachable (Utils.setupFilterButtons filterAttr value m)

/-- `TodoTracker.filterItems(items)`. -/
def TodoTracker.filterItems (currentFilter : String) (items : Collection) : Collection :=
  if currentFilter = "active" then items.filter (fun t => !truthy (getProp t "completed"))
  else if currentFilter = "completed" then
    items.filter (fun t => truthy (getProp t "completed"))
  else items

/-- `ProjectManager.filterItems(items)`: what it returns and what it leaves in the array
it was given; `sorted` is what `items.sort(byDeadline)` makes of an array, in place. -/
def ProjectManager.filterItems (sorted : Collection → Collection)
    (currentStatusFilter : String) (items : Collection) : Collection × Collection :=
  if currentStatusFilter ≠ "all" then
    (items.filter (fun p => decide (getProp p "status" = some (.str currentStatusFilter))),
      items)
  else (sorted items, sorted items)

/-- `this.filterItems(items)` of a manager: the override of its class, or the default
that returns `items`.  The result and the array afterwards. -/
def Manager.filterItems (sorted : Collection → Collection) (m : Manager)
    (items : Collection) : Collection × Collection :=
  match m.kind with
  | .todos => (TodoTracker.filterItems m.currentFilter items, items)
  | .projects => ProjectManager.filterItems sorted m.currentStatusFilter items
  | .bookmarks => (items, items)
  | .notes => (items, items)

/-- `BaseManager.render()` on the records of the collection: the sequence of items handed
to `renderItem`, and the collection afterwards.  `container` tells whether the page has
the container element. -/
def BaseManager.renderItems (sorted : Collection → Collection) (m : Manager)
    (container : Bool) (items : Collection) : Collection × Collection :=
  if !container then ([], items)
  else if m.currentFilter ≠ "all" then Manager.filterItems sorted m items
  else (items, items)

/-! ## Numbers: statistics and expenses -/

/-- `Math.round(x)`: the nearest integer, a tie goes up. -/
def mathRound (x : ℚ) : ℤ := ⌊x + 1 / 2⌋

/-- What `Analytics.updateTaskStats` writes to the page. -/
structure TaskStats where
  totalTasks : Nat
  completedTasks : Nat
  completionRate : ℤ

/-- `Analytics.updateTaskStats()` on the tasks of `AppState.todos`. -/
def Analytics.updateTaskStats (h : Host) (todos : Collection) : TaskStats :=
  let totalTasks := todos.length
  let completedTasks := (todos.filter (fun t => truthy (getProp t "completed"))).length
  { totalTasks := totalTasks
    completedTasks := completedTasks
    completionRate :=
      if totalTasks > 0 then
        mathRound (h.fl (h.fl ((completedTasks : ℚ) / (totalTasks : ℚ)) * 100))
      else 0 }

/-- The nearest integer to `y`, a tie goes to the even one: the rounding of the
significand of a double. -/
def roundHalfEven (y : ℚ) : ℤ :=
  if y - ⌊y⌋ < 1 / 2 then ⌊y⌋
  else if 1 / 2 < y - ⌊y⌋ then ⌊y⌋ + 1
  else if ⌊y⌋ % 2 = 0 then ⌊y⌋ else ⌊y⌋ + 1

/-- The distance between neighbouring doubles at `x`: with `2 ^ e ≤ |x| < 2 ^ (e + 1)`
it is `2 ^ (e - 52)`, a significand of 53 bits, and below `2 ^ (-1022)`, where the
doubles are subnormal, it is `2 ^ (-1074)`. -/
def ulp (x : ℚ) : ℚ := 2 ^ (max (Int.log 2 |x|) (-1022) - 52)

/-- The rounding of IEEE 754 double precision, which the numbers of JavaScript have:
the multiple of `ulp x` nearest to the exact result `x`, a tie goes to the even
significand.  The exponent is not bounded above here; `Host.number` tells a result
beyond the largest double apart. -/
def binary64 (x : ℚ) : ℚ := roundHalfEven (x / ulp x) * ulp x

/-- The magnitude from which a result, rounded with no bound on the exponent, is no
double any more: the largest double is `2 ^ 1024 - 2 ^ 971`. -/
def doubleLimit : ℚ := 2 ^ 1024

/-- The number an arithmetic operation returns for the exact result `x`: the rounded
result, and `Infinity` or `-Infinity` when that is beyond the largest double. -/
def Host.number (h : Host) (x : ℚ) : JVal :=
  if doubleLimit ≤ |h.fl x| then .inf (decide (h.fl x < 0)) else .num (h.fl x)

/-- `x + y` for two numbers. -/
def Host.plus (h : Host) : JVal → JVal → JVal
  | .num x, .num y => h.number (x + y)
  | .inf s, .num _ => .inf s
  | .num _, .inf t => .inf t
  | .inf s, .inf t => if s = t then .inf s else .nan
  | _, _ => .nan

/-- The amount `ExpenseTracker.addExpense` stores: `Math.round(amount * 100) / 100`.
`Math.round` of a finite double is a whole number, of `Infinity` it is `Infinity`, and
`Infinity / 100` is `Infinity`. -/
def ExpenseTracker.roundedAmount (h : Host) (amount : ℚ) : JVal :=
  match h.number (amount * 100) with
  | .num product => h.number ((mathRound product : ℚ) / 100)
  | other => other

/-- `ExpenseTracker.addExpense()`; `name` is the trimmed name, `amount` the value of
`amountStr ? parseFloat(amountStr) : NaN` with `none` for `NaN`, `category` the selected
category and `now` is `new Date().toISOString()`. -/
def ExpenseTracker.addExpense (h : Host) (newId now name : String) (amount : Option ℚ)
    (category : String) (w : World) : Option World :=
  match amount with
  | none => some (Utils.showToast "Please enter valid expense details" "error" w)
  | some a =>
    if name = "" ∨ a ≤ 0 then
      some (Utils.showToast "Please enter valid expense details" "error" w)
    else
      let expense : Record :=
        [("id", .str newId), ("name", .str name),
          ("amount", ExpenseTracker.roundedAmount h a), ("category", .str category),
          ("date", .str now)]
      match AppState.arrayAt w.app "expenses" with
      | none => none
      | some xs =>
        let w1 := AppState.save h
          { w with app := (setProp w.app "expenses" (.arr (xs ++ [.obj expense]))) }
        some (EventBus.emit "dataChanged" (BaseManager.render "expenses" w1))

/-- The operand `e.amount` of `sum + e.amount`, as the number that is added: `undefined`
counts as `NaN`, `null` as 0, `true` as 1.  It is `none` when no number is added: reading
`e.amount` throws on `null`, and with a string, an array or an object `+` concatenates
texts. -/
def amountOf : JVal → Option JVal
  | .null => none
  | .obj r =>
    match getProp r "amount" with
    | none => some .nan
    | some .null => some (.num 0)
    | some (.bool b) => some (.num (if b then 1 else 0))
    | some (.num a) => some (.num a)
    | some .nan => some .nan
    | some (.inf s) => some (.inf s)
    | some (.str _) => none
    | some (.arr _) => none
    | some (.obj _) => none
  | _ => some .nan

/-- `expenses.reduce((sum, e) => sum + e.amount, sum0)` for a number `sum0`; `none` when
the result is no number: the callback throws or the sum has become a text. -/
def ExpenseTracker.sumFrom (h : Host) : JVal → List JVal → Option JVal
  | sum, [] => some sum
  | sum, e :: rest =>
    match amountOf e with
    | some a => ExpenseTracker.sumFrom h (h.plus sum a) rest
    | none => none

/-- The total of `ExpenseTracker.updateTotal()`. -/
def ExpenseTracker.updateTotal (h : Host) (expenses : List JVal) : Option JVal :=
  ExpenseTracker.sumFrom h (.num 0) expenses

/-! ## Bookmarks -/

/-- `BookmarkManager.addBookmark()`; `title` and `url` are the trimmed values of the
inputs, `category` the selected category and `urlParses url` tells whether `new URL(url)`
returns. -/
def BookmarkManager.addBookmark (h : Host) (urlParses : String → Bool)
    (newId now title url category : String) (w : World) : Option World :=
  if title = "" ∨ url = "" then
    some (Utils.showToast "Please enter both title and URL" "error" w)
  else if !urlParses url then some (Utils.showToast "Please enter a valid URL" "error" w)
  else
    BaseManager.add h "bookmarks" newId now
      [("title", .str title), ("url", .str url), ("category", .str category)] w

/-! ## Favorite quotes -/

/-- A quote of `QuotesManager.quotes`. -/
structure Quote where
  text : String
  author : String
  deriving DecidableEq, Repr

/-- `favoriteQuotes.some(q => q.text === text)` for a string `text`; `none` when reading
`q.text` throws, which it does on `null`. -/
def someText : List JVal → String → Option Bool
  | [], _ => some false
  | q :: rest, text =>
    match q with
    | .null => none
    | .obj r => if getProp r "text" = some (.str text) then some true else someText rest text
    | _ => someText rest text

/-- `QuotesManager.addToFavorites()`; `currentQuote` is `null` or one of the quotes. -/
def QuotesManager.addToFavorites (h : Host) (newId : String) (currentQuote : Option Quote)
    (w : World) : Option World :=
  match currentQuote with
  | none => some w
  | some quote =>
    match AppState.arrayAt w.app "favoriteQuotes" with
    | none => none
    | some xs =>
      match someText xs quote.text with
      | none => none
      | some true => some (Utils.showToast "Already in favorites!" "warning" w)
      | some false =>
        let favorite : Record :=
          [("id", .str newId), ("text", .str quote.text), ("author", .str quote.author)]
        let w1 := AppState.save h
          { w with app := (setProp w.app "favoriteQuotes" (.arr (xs ++ [.obj favorite]))) }
        some (BaseManager.render "favoriteQuotes"
          (Utils.showToast "Added to favorites!" "success" w1))

/-- `QuotesManager.removeFromFavorites(quoteId)`. -/
def QuotesManager.removeFromFavorites (h : Host) (quoteId : String) (w : World) :
    Option World :=
  match (AppState.arrayAt w.app "favoriteQuotes").bind (fun xs => filterOutId xs quoteId) with
  | none => none
  | some ys =>
    let w1 := AppState.save h { w with app := (setProp w.app "favoriteQuotes" (.arr ys)) }
    some (BaseManager.render "favoriteQuotes" w1)

/-! ## Escaping -/

/-- The entry of `map` for a character that `/[&<>"']/g` matches, the character itself
otherwise. -/
def escapeChar (c : Char) : List Char :=
  if c = '&' then ['&', 'a', 'm', 'p', ';']
  else if c = '<' then ['&', 'l', 't', ';']
  else if c = '>' then ['&', 'g', 't', ';']
  else if c = '"' then ['&', 'q', 'u', 'o', 't', ';']
  else if c = '\'' then ['&', '#', '0', '3', '9', ';']
  else [c]

/-- `text.replace(/[&<>"']/g, char => map[char])` on the characters of the text. -/
def escapeChars : List Char → List Char
  | [] => []
  | c :: rest => escapeChar c ++ escapeChars rest

/-- `Utils.escapeHtml(text)` for a string `text`. -/
def Utils.escapeHtml (text : String) : String := String.mk (escapeChars text.data)

/-- What follows the `&` in the five entities. -/
def entityTails : List (List Char) :=
  [['a', 'm', 'p', ';'], ['l', 't', ';'], ['g', 't', ';'], ['q', 'u', 'o', 't', ';'],
    ['#', '0', '3', '9', ';']]

/-- Every `&` of a text is followed by the rest of one of the five entities. -/
def ampersandsBeginEntities : List Char → Bool
  | [] => true
  | c :: rest =>
    (c != '&' || entityTails.any (fun tail => tail.isPrefixOf rest))
      && ampersandsBeginEntities rest

/-! ## Water intake -/

/-- `WaterTracker.save()`. -/
def WaterTracker.save (h : Host) (state : Record) (st : Store) : Store :=
  Utils.saveToStorage h st "waterIntake" (.obj state)

/-- `WaterTracker.init()`: the state of the widget and the store afterwards; `today` is
`new Date().toDateString()`.  `none` when what is loaded is not an object.  The rendering
is left out. -/
def WaterTracker.init (h : Host) (today : String) (st : Store) : Option (Record × Store) :=
  match Utils.loadFromStorage h st "waterIntake"
      (.obj [("cups", .num 0), ("dailyGoal", .num 8), ("lastReset", .str today)]) with
  | .obj state =>
    if getProp state "lastReset" ≠ some (.str today) then
      let state1 := setProp (setProp state "cups" (.num 0)) "lastReset" (.str today)
      some (state1, WaterTracker.save h state1 st)
    else some (state, st)
  | _ => none

/-- `WaterTracker.addWater()` on the state of the widget and the store; `none` when
`cups` or `dailyGoal` is not a number.  The rendering and the toast are left out. -/
def WaterTracker.addWater (h : Host) (state : Record) (st : Store) :
    Option (Record × Store) :=
  match getProp state "cups", getProp state "dailyGoal" with
  | some (.num cups), some (.num dailyGoal) =>
    if cups < dailyGoal then
      let state1 := setProp state "cups" (.num (h.fl (cups + 1)))
      some (state1, WaterTracker.save h state1 st)
    else some (state, st)
  | _, _ => none

/-- `WaterTracker.reset()`. -/
def WaterTracker.reset (h : Host) (state : Record) (st : Store) : Record × Store :=
  (setProp state "cups" (.num 0), WaterTracker.save h (setProp state "cups" (.num 0)) st)

/-! ## Reading list -/

/-- `Math.min(100, Math.max(0, parseInt(progress)))`; `parsed` is what `parseInt` returns,
`none` for `NaN`, which `Math.max` and `Math.min` hand on. -/
def ReadingList.clampedProgress (parsed : Option ℤ) : JVal :=
  match parsed with
  | none => .nan
  | some p => .num ((min 100 (max 0 p) : ℤ) : ℚ)

/-- `ReadingList.save()`. -/
def ReadingList.save (h : Host) (books : List JVal) (st : Store) : Store :=
  Utils.saveToStorage h st "books" (.arr books)

/-- `ReadingList.updateProgress(id, progress)` on the books of `this.state` and the store;
`parsed` is `parseInt(progress)`.  `none` when reading `b.id` throws.  The rendering is
left out. -/
def ReadingList.updateProgress (h : Host) (id : String) (parsed : Option ℤ)
    (books : List JVal) (st : Store) : Option (List JVal × Store) :=
  match mutateFound (fun book => setProp book "progress" (ReadingList.clampedProgress parsed))
      books id with
  | none => none
  | some none => some (books, st)
  | some (some books1) => some (books1, ReadingList.save h books1 st)

/-! ## Weather forecast -/

/-- The `daily` object of the forecast: its four arrays. -/
structure Daily where
  time : List String
  weathercode : List ℚ
  temperature_2m_max : List ℚ
  temperature_2m_min : List ℚ

/-- What one turn of the loop reads at an index; `none` is `undefined`. -/
structure ForecastDay where
  time : Option String
  code : Option ℚ
  maxTemp : Option ℚ
  minTemp : Option ℚ
  deriving DecidableEq

/-- The values of `i` in `for (let i = 1; i <= limit; i++)` with
`limit = Math.min(5, daily.time.length)`. -/
def WeatherManager.forecastIndices (daily : Daily) : List Nat :=
  (List.range (min 5 daily.time.length)).map (fun i => i + 1)

/-- The entries `daily.time[i]`, `daily.weathercode[i]`, `daily.temperature_2m_max[i]` and
`daily.temperature_2m_min[i]`. -/
def WeatherManager.readDay (daily : Daily) (i : Nat) : ForecastDay :=
  { time := daily.time[i]?
    code := daily.weathercode[i]?
    maxTemp := daily.temperature_2m_max[i]?
    minTemp := daily.temperature_2m_min[i]? }

/-- The turns of the loop of `renderForecast` for the given indices: the days rendered,
`none` when `maxTemp.toFixed(0)` throws because `maxTemp` is `undefined`. -/
def WeatherManager.renderDays (daily : Daily) : List Nat → Option (List ForecastDay)
  | [] => some []
  | i :: rest =>
    match (WeatherManager.readDay daily i).maxTemp with
    | none => none
    | some _ =>
      match WeatherManager.renderDays daily rest with
      | none => none
      | some days => some (WeatherManager.readDay daily i :: days)

/-- `WeatherManager.renderForecast(daily)` with the container on the page. -/
def WeatherManager.renderForecast (daily : Daily) : Option (List ForecastDay) :=
  WeatherManager.renderDays daily (WeatherManager.forecastIndices daily)

/-! ## Pomodoro timer -/

/-- The fields of `PomodoroTimer` together with the interval timers of the browser: `live`
holds the handles of the intervals that have been set and not cleared, `nextHandle` is the
handle the next `setInterval` returns. -/
structure Pomodoro where
  totalSeconds : ℚ
  remainingSeconds : ℚ
  timerInterval : Option Nat
  isRunning : Bool
  isWorkSession : Bool
  live : List Nat
  nextHandle : Nat
  deriving DecidableEq

/-- The object literal `PomodoroTimer` on a page on which no interval is set. -/
def PomodoroTimer.initial : Pomodoro :=
  { totalSeconds := 0, remainingSeconds := 0, timerInterval := none, isRunning := false,
    isWorkSession := true, live := [], nextHandle := 1 }

/-- `clearInterval(handle)`: the interval with that handle is live no longer; `null` and a
handle that is not live clear nothing. -/
def clearInterval (handle : Option Nat) (live : List Nat) : List Nat :=
  match handle with
  | none => live
  | some id => live.filter (fun other => decide (other ≠ id))

/-- `PomodoroTimer.reset()`; `work` is what `getWorkDuration()` returns. -/
def PomodoroTimer.reset (work : ℚ) (p : Pomodoro) : Pomodoro :=
  { p with
    live := clearInterval p.timerInterval p.live
    isRunning := false
    isWorkSession := true
    totalSeconds := work
    remainingSeconds := work }

/-- `PomodoroTimer.start()`: the interval it sets is live from now on. -/
def PomodoroTimer.start (work : ℚ) (p : Pomodoro) : Pomodoro :=
  if p.isRunning then p
  else
    let p1 := if p.remainingSeconds = 0 then PomodoroTimer.reset work p else p
    { p1 with
      isRunning := true
      timerInterval := some p1.nextHandle
      live := p1.live ++ [p1.nextHandle]
      nextHandle := p1.nextHandle + 1 }

/-- `PomodoroTimer.pause()`. -/
def PomodoroTimer.pause (p : Pomodoro) : Pomodoro :=
  if !p.isRunning then p
  else { p with isRunning := false, live := clearInterval p.timerInterval p.live }

/-- `PomodoroTimer.switchSession()`; `work` and `brk` are what `getWorkDuration()` and
`getBreakDuration()` return.  `none` when `AppState.focusSessionsCompleted` is not a
number. -/
def PomodoroTimer.switchSession (h : Host) (work brk : ℚ) (p : Pomodoro) (w : World) :
    Option (Pomodoro × World) :=
  let p1 : Pomodoro :=
    { p with
      isWorkSession := !p.isWorkSession
      totalSeconds := if !p.isWorkSession then work else brk
      remainingSeconds := if !p.isWorkSession then work else brk }
  if !p1.isWorkSession then
    match getProp w.app "focusSessionsCompleted" with
    | some (.num n) =>
      let w1 := AppState.save h
        { w with app := (setProp w.app "focusSessionsCompleted" (.num (h.fl (n + 1)))) }
      let w2 := EventBus.emit "dataChanged"
        (Utils.showToast "Great work! Focus session completed! 🎉" "success" w1)
      some (PomodoroTimer.start work p1, w2)
    | _ => none
  else some (PomodoroTimer.start work p1, w)

/-- The callback that `start` gave to `setInterval`, called for the interval `handle`: an
interval that has been cleared calls nothing. -/
def PomodoroTimer.tick (h : Host) (work brk : ℚ) (handle : Nat) (p : Pomodoro) (w : World) :
    Option (Pomodoro × World) :=
  if handle ∈ p.live then
    if p.remainingSeconds > 0 then
      let p1 : Pomodoro := { p with remainingSeconds := h.fl (p.remainingSeconds - 1) }
      if p1.remainingSeconds = 0 then PomodoroTimer.switchSession h work brk p1 w
      else some (p1, w)
    else some (p, w)
  else some (p, w)

/-- What happens to the timer: a click on one of the three buttons, a tick of an interval,
a call of `switchSession`. -/
inductive PomodoroOp where
  | start : PomodoroOp
  | pause : PomodoroOp
  | reset : PomodoroOp
  | tick (handle : Nat) : PomodoroOp
  | switchSession : PomodoroOp
  deriving DecidableEq, Repr

/-- One operation on the timer and the page; `work` and `brk` are the durations the page
gives at that moment. -/
def PomodoroTimer.step (h : Host) (work brk : ℚ) (op : PomodoroOp) (p : Pomodoro)
    (w : World) : Option (Pomodoro × World) :=
  match op with
  | .start => some (PomodoroTimer.start work p, w)
  | .pause => some (PomodoroTimer.pause p, w)
  | .reset => some (PomodoroTimer.reset work p, w)
  | .tick handle => PomodoroTimer.tick h work brk handle p w
  | .switchSession => PomodoroTimer.switchSession h work brk p w

/-- The states of the timer and the page that the operations reach from the object
literal. -/
inductive PomodoroTimer.Reachable (h : Host) : Pomodoro × World → Prop where
  | initial (w : World) : PomodoroTimer.Reachable h (PomodoroTimer.initial, w)
  | step (work brk : ℚ) (op : PomodoroOp) (s s' : Pomodoro × World) :
      PomodoroTimer.Reachable h s → PomodoroTimer.step h work brk op s.1 s.2 = some s' →
      PomodoroTimer.Reachable h s'

/-- The operation ends a work session: `switchSession` in a work session, or the tick of
a live interval that brings the countdown of a work session to 0. -/
def PomodoroTimer.endsWorkSession (h : Host) (op : PomodoroOp) (p : Pomodoro) : Prop :=
  match op with
  | .switchSession => p.isWorkSession = true
  | .tick handle =>
    handle ∈ p.live ∧ p.remainingSeconds > 0 ∧ h.fl (p.remainingSeconds - 1) = 0 ∧
      p.isWorkSession = true
  | _ => False

/-! ## A browser and a page to run the operations on -/

/-- A browser whose storage works and whose codec knows the JSON texts of `[]` and
`null`. -/
def plainHost : Host where
  stringify := fun v => if v = .arr [] then "[]" else "null"
  parse := fun s => if s = "[]" then some (.arr []) else if s = "null" then some .null else none
  storageDenied := false
  quotaExceeded := fun _ _ _ => false

/-- The browser `plainHost` with the arithmetic of doubles. -/
def doubleHost : Host := { plainHost with fl := binary64 }

/-- A browser whose storage is full: every write exceeds the quota. -/
def fullHost : Host := { plainHost with quotaExceeded := fun _ _ _ => true }

/-- A task that is still open. -/
def taskA : Record :=
  [("text", .str "Write spec"), ("completed", .bool false), ("id", .str "a"),
    ("createdAt", .str "2024-01-01T09:00:00.000Z")]

/-- A task that is done. -/
def taskB : Record :=
  [("text", .str "Review"), ("completed", .bool true), ("id", .str "b"),
    ("createdAt", .str "2024-01-02T09:00:00.000Z")]

/-- The two tasks of `demoWorld`. -/
def demoTodos : Collection := [taskA, taskB]

/-- A page with one expense, two tasks and one note, and nothing stored yet. -/
def demoWorld : World where
  app := [("expenses", .arr [.obj [("id", .str "e1"), ("name", .str "Coffee")]]),
    ("todos", ofCollection demoTodos),
    ("notes", .arr [.obj [("id", .str "n1"), ("title", .str "Ideas")]])]
  store := []
  log := []

/-- The expenses of `ledgerWorld`: a coffee for 2.50 and a tea for 1.25. -/
def ledgerExpenses : List JVal :=
  [.obj [("id", .str "e1"), ("name", .str "Coffee"), ("amount", .num (5 / 2)),
      ("category", .str "Food"), ("date", .str "2024-01-01T09:00:00.000Z")],
    .obj [("id", .str "e2"), ("name", .str "Tea"), ("amount", .num (5 / 4)),
      ("category", .str "Food"), ("date", .str "2024-01-02T09:00:00.000Z")]]

/-- A page with two expenses and nothing stored yet. -/
def ledgerWorld : World where
  app := [("expenses", .arr ledgerExpenses), ("todos", .arr [])]
  store := []
  log := []

/-- Two tasks that carry the same id. -/
def twinTodos : Collection :=
  [[("text", .str "first"), ("id", .str "a")], [("text", .str "second"), ("id", .str "a")]]

/-- A page whose task list is `twinTodos`. -/
def twinWorld : World where
  app := [("todos", ofCollection twinTodos)]
  store := []
  log := []

/-- A browser whose storage has no room left for the tasks: a write under `'todos'`
exceeds the quota, every other write goes through. -/
def pickyHost : Host := { plainHost with quotaExceeded := fun _ key _ => decide (key = "todos") }

/-- A browser that denies access to the storage. -/
def deniedHost : Host := { plainHost with storageDenied := true }

/-- The collection of `stateKey` is persisted: the store holds its JSON text under
`stateKey`, and a reload reads the collection back when it is JSON-serialisable. -/
def Persisted (h : Host) (stateKey : String) (w : World) : Prop :=
  ∃ ys, BaseManager.items w.app stateKey = some ys ∧
    Store.lookup w.store stateKey = some (h.stringify (.arr ys)) ∧
    (h.Serialisable (.arr ys) → AppState.reload h w.store stateKey = .arr ys)

/-- Whether the browser accepts the write that `AppState.save` makes under `key`, when the
save starts from the store `st` and walks the properties `entries`: the `setItem` of
that one property does not throw, at the store the properties before it have left.  The
property `save` is skipped, so nothing is written under it. -/
def AppState.writeAccepted (h : Host) : Store → List (String × JVal) → String → Bool
  | _, [], _ => false
  | st, (k, v) :: rest, key =>
    if k = key then decide (k ≠ "save") && (h.setItem st k (h.stringify v)).isSome
    else
      AppState.writeAccepted h (if k ≠ "save" then Utils.saveToStorage h st k v else st) rest
        key

/-- A page that has just been loaded with nothing stored. -/
def freshWorld : World where
  app := AppState.load plainHost [] "Mon Jan 01 2024"
  store := []
  log := []

/-- The goal that `GoalsTracker.addGoal` makes of the text `'Run'`. -/
def goalRun : JVal :=
  .obj [("id", .str "g1"), ("text", .str "Run"), ("completed", .bool false),
    ("date", .str "Mon Jan 01 2024")]

/-- The store after `GoalsTracker.addGoal` on the fresh page. -/
def goalStore : Store :=
  (GoalsTracker.addGoal plainHost "g1" "Mon Jan 01 2024" "Run" [] freshWorld.store).2

/-- A project in planning. -/
def projectPlanned : Record :=
  [("name", .str "Garden"), ("status", .str "Planning"), ("id", .str "p1")]

/-- A project that is completed. -/
def projectDone : Record :=
  [("name", .str "Website"), ("status", .str "Completed"), ("id", .str "p2")]

/-- The two projects of the examples. -/
def demoProjects : Collection := [projectPlanned, projectDone]

/-- A stand-in for `new URL(url)` in the examples: it accepts the texts that begin with
`https://`. -/
def httpsOnly (url : String) : Bool := "https://".data.isPrefixOf url.data

/-- Two favorite quotes with distinct texts. -/
def demoFavorites : Collection :=
  [[("id", .str "q1"), ("text", .str "Keep going."), ("author", .str "Sam Levenson")],
    [("id", .str "q2"), ("text", .str "Begin."), ("author", .str "Tony Robbins")]]

/-- A page whose favorite quotes are `demoFavorites`. -/
def quotesWorld : World where
  app := [("todos", .arr []), ("favoriteQuotes", ofCollection demoFavorites)]
  store := []
  log := []

/-- The water state of the day before: the goal of 8 cups was reached. -/
def waterYesterday : Record :=
  [("cups", .num 8), ("dailyGoal", .num 8), ("lastReset", .str "Sun Dec 31 2023")]

/-- The JSON text of `waterYesterday`. -/
def waterYesterdayText : String :=
  "\x7b\"cups\":8,\"dailyGoal\":8,\"lastReset\":\"Sun Dec 31 2023\"\x7d"

/-- A browser whose codec also reads the text of `waterYesterday`. -/
def diaryHost : Host :=
  { plainHost with
    parse := fun s =>
      if s = waterYesterdayText then some (.obj waterYesterday) else plainHost.parse s }

/-- The browser `diaryHost` with its storage full. -/
def fullDiaryHost : Host := { diaryHost with quotaExceeded := fun _ _ _ => true }

/-- A book of the reading list. -/
def demoBook : Record :=
  [("id", .str "b1"), ("title", .str "Dune"), ("author", .str "Frank Herbert"),
    ("progress", .num 40)]

/-- A forecast of three days. -/
def threeDays : Daily where
  time := ["2024-01-01", "2024-01-02", "2024-01-03"]
  weathercode := [0, 3, 61]
  temperature_2m_max := [5, 7, 4]
  temperature_2m_min := [0, 1, 2]

/-- At most one interval is live, and one is live only while the timer is running: it is
then the one `timerInterval` names. -/
def PomodoroTimer.OneLiveInterval (p : Pomodoro) : Prop :=
  (p.isRunning = true → ∃ handle, p.live = [handle] ∧ p.timerInterval = some handle) ∧
  (p.isRunning = false → p.live = [])

/-- A page whose focus-session count is 2. -/
def focusWorld : World where
  app := [("todos", .arr []), ("focusSessionsCompleted", .num 2)]
  store := []
  log := []

end DailyHub

/-! ## Properties of objects and stores -/

namespace DailyHub

theorem getProp_setProp_same (r : Record) (k : String) (v : JVal) :
    getProp (setProp r k v) k = some v := by
  induction r with
  | nil => simp [setProp, getProp]
  | cons e rest ih =>
    obtain ⟨k', v'⟩ := e
    by_cases hk : k' = k
    · simp [setProp, getProp, hk]
    · simp [setProp, getProp, hk, ih]

theorem getProp_setProp_other (r : Record) (k k' : String) (v : JVal) (hne : k' ≠ k) :
    getProp (setProp r k v) k' = getProp r k' := by
  induction r with
  | nil => simp [setProp, getProp, hne.symm]
  | cons e rest ih =>
    obtain ⟨k0, v0⟩ := e
    by_cases hk : k0 = k
    · subst hk
      simp [setProp, getProp, hne.symm]
    · by_cases hk' : k0 = k'
      · subst hk'
        simp [setProp, getProp, hk]
      · simp [setProp, getProp, hk, hk', ih]

theorem setProp_of_getProp (r : Record) (k : String) (v : JVal)
    (hget : getProp r k = some v) : setProp r k v = r := by
  induction r with
  | nil => simp [getProp] at hget
  | cons e rest ih =>
    obtain ⟨k0, v0⟩ := e
    by_cases hk : k0 = k
    · subst hk
      simp [getProp] at hget
      simp [setProp, hget]
    · simp [getProp, hk] at hget
      simp [setProp, hk, ih hget]

theorem items_setProp (app : AppState) (key : String) (xs : List JVal) :
    BaseManager.items (setProp app key (.arr xs)) key = some xs := by
  simp [BaseManager.items, AppState.arrayAt, getProp_setProp_same]

theorem items_eq_some {app : AppState} {key : String} {xs : List JVal}
    (hitems : BaseManager.items app key = some xs) : getProp app key = some (.arr xs) := by
  unfold BaseManager.items AppState.arrayAt at hitems
  split at hitems
  · simp_all
  · simp at hitems

theorem filterOutId_records (L : Collection) (id : String) :
    filterOutId (L.map .obj) id
      = some ((L.filter (fun r => decide (getProp r "id" ≠ some (.str id)))).map .obj) := by
  induction L with
  | nil => simp [filterOutId]
  | cons r rest ih =>
    by_cases hr : getProp r "id" = some (.str id)
    · simp [filterOutId, idIs, ih, hr]
    · simp [filterOutId, idIs, ih, hr]

theorem mutateFound_absent (f : Record → Record) (L : Collection) (id : String)
    (habs : ∀ r ∈ L, getProp r "id" ≠ some (.str id)) :
    mutateFound f (L.map .obj) id = some none := by
  induction L with
  | nil => simp [mutateFound]
  | cons r rest ih =>
    have hr : getProp r "id" ≠ some (.str id) := habs r (List.mem_cons_self _ _)
    have hrest := ih (fun x hx => habs x (List.mem_cons_of_mem _ hx))
    simp [mutateFound, hr, hrest]

theorem mutateFound_first (f : Record → Record) (pre post : Collection) (r : Record)
    (id : String) (hpre : ∀ x ∈ pre, getProp x "id" ≠ some (.str id))
    (hr : getProp r "id" = some (.str id)) :
    mutateFound f ((pre ++ r :: post).map .obj) id
      = some (some ((pre ++ f r :: post).map .obj)) := by
  induction pre with
  | nil => simp [mutateFound, hr]
  | cons x rest ih =>
    have hx : getProp x "id" ≠ some (.str id) := hpre x (List.mem_cons_self _ _)
    have hrest := ih (fun y hy => hpre y (List.mem_cons_of_mem _ hy))
    show mutateFound f (.obj x :: (rest ++ r :: post).map .obj) id = _
    rw [mutateFound]
    simp only [hx, if_false, hrest]
    rfl

theorem filter_of_absent (L : Collection) (id : String)
    (habs : ∀ r ∈ L, getProp r "id" ≠ some (.str id)) :
    L.filter (fun r => decide (getProp r "id" ≠ some (.str id))) = L := by
  apply List.filter_eq_self.mpr
  intro r hr
  simpa using habs r hr

end DailyHub

/-! ## BaseManager: add and delete -/

namespace DailyHub

theorem filter_length_of_unique (L : Collection) (id : String)
    (hdistinct : L.Pairwise (fun a b => getProp a "id" ≠ getProp b "id"))
    (hpresent : ∃ r ∈ L, getProp r "id" = some (.str id)) :
    (L.filter (fun r => decide (getProp r "id" ≠ some (.str id)))).length + 1 = L.length := by
  induction L with
  | nil => simp at hpresent
  | cons a rest ih =>
    rw [List.pairwise_cons] at hdistinct
    by_cases ha : getProp a "id" = some (.str id)
    · have hrest : ∀ r ∈ rest, getProp r "id" ≠ some (.str id) := by
        intro r hr hrid
        exact hdistinct.1 r hr (ha.trans hrid.symm)
      rw [List.filter_cons_of_neg (by simp [ha]), filter_of_absent rest id hrest]
      simp
    · have hp : ∃ r ∈ rest, getProp r "id" = some (.str id) := by
        obtain ⟨r, hr, hrid⟩ := hpresent
        rcases List.mem_cons.mp hr with rfl | hr
        · exact absurd hrid ha
        · exact ⟨r, hr, hrid⟩
      rw [List.filter_cons_of_pos (by simp [ha]), List.length_cons, ih hdistinct.2 hp]
      simp

/-- C1: `BaseManager.add` accepts every candidate `C`; on a collection `L` it leaves `L`
followed by exactly one new record, whose `id` and `createdAt` are the generated values
and whose other fields are those of `C`, so the length grows by one. -/
theorem BaseManager_add_appends (h : Host) (stateKey newId now : String) (C : Record)
    (L : Collection) (w : World)
    (hitems : BaseManager.items w.app stateKey = some (L.map .obj)) :
    ∃ w' R, BaseManager.add h stateKey newId now C w = some w' ∧
      BaseManager.items w'.app stateKey = some ((L ++ [R]).map .obj) ∧
      (L ++ [R]).length = L.length + 1 ∧
      getProp R "id" = some (.str newId) ∧
      getProp R "createdAt" = some (.str now) ∧
      ∀ f, f ≠ "id" → f ≠ "createdAt" → getProp R f = getProp C f := by
  refine ⟨EventBus.emit "dataChanged" (BaseManager.render stateKey (AppState.save h
      { w with app := setProp w.app stateKey (.arr (L.map .obj ++
        [.obj (setProp (setProp C "id" (.str newId)) "createdAt" (.str now))])) })),
    setProp (setProp C "id" (.str newId)) "createdAt" (.str now), ?_, ?_, ?_, ?_, ?_, ?_⟩
  · simp only [BaseManager.add, hitems]
  · simp [EventBus.emit, BaseManager.render, AppState.save, items_setProp]
  · simp
  · rw [getProp_setProp_other _ _ _ _ (by decide), getProp_setProp_same]
  · exact getProp_setProp_same _ _ _
  · intro f hid hcreated
    rw [getProp_setProp_other _ _ _ _ hcreated, getProp_setProp_other _ _ _ _ hid]

theorem BaseManager_add_appends_witness :
    BaseManager.items demoWorld.app "todos" = some (demoTodos.map .obj) ∧
    ∃ w' R, BaseManager.add plainHost "todos" "c" "2024-01-01T00:00:00.000Z"
        [("text", .str "Ship"), ("completed", .bool false)] demoWorld = some w' ∧
      BaseManager.items w'.app "todos" = some ((demoTodos ++ [R]).map .obj) ∧
      (demoTodos ++ [R]).length = demoTodos.length + 1 ∧
      getProp R "id" = some (.str "c") ∧
      getProp R "createdAt" = some (.str "2024-01-01T00:00:00.000Z") ∧
      ∀ f, f ≠ "id" → f ≠ "createdAt" →
        getProp R f = getProp [("text", .str "Ship"), ("completed", .bool false)] f :=
  ⟨by decide, BaseManager_add_appends plainHost "todos" "c" "2024-01-01T00:00:00.000Z"
    [("text", .str "Ship"), ("completed", .bool false)] demoTodos demoWorld (by decide)⟩

/-- C2: a confirmed `BaseManager.delete(id)` on a collection with pairwise distinct ids
that holds `id` leaves exactly one record fewer, no record with that id, and every other
record in its original order. -/
theorem BaseManager_delete_removes (h : Host) (stateKey id : String) (L : Collection)
    (w : World) (hitems : BaseManager.items w.app stateKey = some (L.map .obj))
    (hdistinct : L.Pairwise (fun a b => getProp a "id" ≠ getProp b "id"))
    (hpresent : ∃ r ∈ L, getProp r "id" = some (.str id)) :
    ∃ w' L', BaseManager.delete h stateKey true id w = some w' ∧
      BaseManager.items w'.app stateKey = some (L'.map .obj) ∧
      L'.length + 1 = L.length ∧
      (∀ r ∈ L', getProp r "id" ≠ some (.str id)) ∧
      L' = L.filter (fun r => decide (getProp r "id" ≠ some (.str id))) ∧
      L'.Sublist L := by
  refine ⟨EventBus.emit "dataChanged" (BaseManager.render stateKey (AppState.save h
      { w with app := (setProp w.app stateKey
        (.arr ((L.filter (fun r => decide (getProp r "id" ≠ some (.str id)))).map .obj))) })),
    L.filter (fun r => decide (getProp r "id" ≠ some (.str id))), ?_, ?_, ?_, ?_, rfl,
    List.filter_sublist L⟩
  · simp only [BaseManager.delete, hitems, Option.bind, filterOutId_records]
    rfl
  · simp [EventBus.emit, BaseManager.render, AppState.save, items_setProp]
  · exact filter_length_of_unique L id hdistinct hpresent
  · intro r hr
    simpa using (List.mem_filter.mp hr).2

theorem BaseManager_delete_removes_witness :
    BaseManager.items demoWorld.app "todos" = some (demoTodos.map .obj) ∧
    demoTodos.Pairwise (fun a b => getProp a "id" ≠ getProp b "id") ∧
    (∃ r ∈ demoTodos, getProp r "id" = some (.str "a")) ∧
    ∃ w' L', BaseManager.delete plainHost "todos" true "a" demoWorld = some w' ∧
      BaseManager.items w'.app "todos" = some (L'.map .obj) ∧
      L'.length + 1 = demoTodos.length ∧
      (∀ r ∈ L', getProp r "id" ≠ some (.str "a")) ∧
      L' = demoTodos.filter (fun r => decide (getProp r "id" ≠ some (.str "a"))) ∧
      L'.Sublist demoTodos :=
  ⟨by decide, by decide, by decide,
    BaseManager_delete_removes plainHost "todos" "a" demoTodos demoWorld (by decide)
      (by decide) (by decide)⟩

end DailyHub

/-! ## BaseManager: update -/

namespace DailyHub

theorem split_at_first_id (L : Collection) (id : String) :
    (∀ r ∈ L, getProp r "id" ≠ some (.str id)) ∨
    ∃ pre r post, L = pre ++ r :: post ∧ (∀ x ∈ pre, getProp x "id" ≠ some (.str id)) ∧
      getProp r "id" = some (.str id) := by
  induction L with
  | nil => left; simp
  | cons a rest ih =>
    by_cases ha : getProp a "id" = some (.str id)
    · right
      exact ⟨[], a, rest, rfl, by simp, ha⟩
    · rcases ih with habs | ⟨pre, r, post, hsplit, hpre, hr⟩
      · left
        intro r hr
        rcases List.mem_cons.mp hr with rfl | hr
        · exact ha
        · exact habs r hr
      · right
        refine ⟨a :: pre, r, post, by simp [hsplit], ?_, hr⟩
        intro x hx
        rcases List.mem_cons.mp hx with rfl | hx
        · exact ha
        · exact hpre x hx

theorem getProp_objectAssign_other (updates r : Record) (k : String)
    (hk : ∀ kv ∈ updates, kv.1 ≠ k) : getProp (objectAssign r updates) k = getProp r k := by
  induction updates generalizing r with
  | nil => rfl
  | cons kv rest ih =>
    have hrest := ih (setProp r kv.1 kv.2) (fun e he => hk e (List.mem_cons_of_mem _ he))
    have hkv : k ≠ kv.1 := fun e => hk kv (List.mem_cons_self _ _) e.symm
    simp only [objectAssign, List.foldl_cons] at hrest ⊢
    rw [hrest, getProp_setProp_other _ _ _ _ hkv]

theorem update_of_first (h : Host) (stateKey id : String) (updates : Record)
    (pre post : Collection) (R : Record) (w : World)
    (hitems : BaseManager.items w.app stateKey = some ((pre ++ R :: post).map .obj))
    (hid : getProp R "id" = some (.str id))
    (hfirst : ∀ x ∈ pre, getProp x "id" ≠ some (.str id)) :
    ∃ w', BaseManager.update h stateKey id updates w = some w' ∧
      BaseManager.items w'.app stateKey
        = some ((pre ++ objectAssign R updates :: post).map .obj) := by
  refine ⟨EventBus.emit "dataChanged" (BaseManager.render stateKey (AppState.save h
      { w with app := (setProp w.app stateKey
        (.arr ((pre ++ objectAssign R updates :: post).map .obj))) })), ?_, ?_⟩
  · simp only [BaseManager.update, hitems, Option.bind,
      mutateFound_first (fun r => objectAssign r updates) pre post R id hfirst hid]
  · simp [EventBus.emit, BaseManager.render, AppState.save, items_setProp]

theorem update_of_absent (h : Host) (stateKey id : String) (updates : Record)
    (L : Collection) (w : World)
    (hitems : BaseManager.items w.app stateKey = some (L.map .obj))
    (habs : ∀ r ∈ L, getProp r "id" ≠ some (.str id)) :
    BaseManager.update h stateKey id updates w = some w := by
  simp only [BaseManager.update, hitems, Option.bind,
    mutateFound_absent (fun r => objectAssign r updates) L id habs]

/-- C3, with the first record that carries `R.id` changed where a second one is meant:
on the tasks `twinTodos`, `update('a', {text: 'done'})` aimed at the second task changes
the first one and leaves the second as it was. -/
theorem BaseManager_update_twin_ids :
    [("text", JVal.str "second"), ("id", JVal.str "a")] ∈ twinTodos ∧
    ∃ w', BaseManager.update plainHost "todos" "a" [("text", .str "done")] twinWorld = some w' ∧
      BaseManager.items w'.app "todos"
        = some [.obj [("text", .str "done"), ("id", .str "a")],
            .obj [("text", .str "second"), ("id", .str "a")]] ∧
      getProp [("text", JVal.str "second"), ("id", JVal.str "a")] "text" ≠ some (.str "done") ∧
      [("text", JVal.str "done"), ("id", JVal.str "a")] ∉ twinTodos := by
  refine ⟨by decide, _, rfl, by decide, by decide, by decide⟩

/-- C3 (amended): for a record `R` of a collection such that no record before it carries
its id, `update(R.id, {f: v})` with a domain field `f` sets `f` to `v` in `R`, leaves every
other field of `R` (so `id` and `createdAt`) and every other record as they were, and
keeps order and length. -/
theorem BaseManager_update_changes_one_field (h : Host) (stateKey id f : String) (v : JVal)
    (pre post : Collection) (R : Record) (w : World)
    (hitems : BaseManager.items w.app stateKey = some ((pre ++ R :: post).map .obj))
    (hid : getProp R "id" = some (.str id))
    (hfirst : ∀ x ∈ pre, getProp x "id" ≠ some (.str id))
    (hf : f ≠ "id") (hf' : f ≠ "createdAt") :
    ∃ w' R', BaseManager.update h stateKey id [(f, v)] w = some w' ∧
      BaseManager.items w'.app stateKey = some ((pre ++ R' :: post).map .obj) ∧
      getProp R' f = some v ∧
      (∀ g, g ≠ f → getProp R' g = getProp R g) ∧
      getProp R' "id" = getProp R "id" ∧
      getProp R' "createdAt" = getProp R "createdAt" ∧
      (pre ++ R' :: post).length = (pre ++ R :: post).length := by
  obtain ⟨w', hw', hitems'⟩ := update_of_first h stateKey id [(f, v)] pre post R w hitems hid hfirst
  refine ⟨w', setProp R f v, hw', hitems', getProp_setProp_same _ _ _, ?_, ?_, ?_, by simp⟩
  · intro g hg
    exact getProp_setProp_other _ _ _ _ hg
  · exact getProp_setProp_other _ _ _ _ (Ne.symm hf)
  · exact getProp_setProp_other _ _ _ _ (Ne.symm hf')

theorem BaseManager_update_changes_one_field_witness :
    BaseManager.items demoWorld.app "todos" = some (([] ++ taskA :: [taskB]).map .obj) ∧
    getProp taskA "id" = some (.str "a") ∧
    ∃ w' R', BaseManager.update plainHost "todos" "a" [("text", .str "Write proof")] demoWorld
        = some w' ∧
      BaseManager.items w'.app "todos" = some (([] ++ R' :: [taskB]).map .obj) ∧
      getProp R' "text" = some (.str "Write proof") ∧
      (∀ g, g ≠ "text" → getProp R' g = getProp taskA g) ∧
      getProp R' "id" = getProp taskA "id" ∧
      getProp R' "createdAt" = getProp taskA "createdAt" ∧
      ([] ++ R' :: [taskB]).length = ([] ++ taskA :: [taskB]).length :=
  ⟨by decide, by decide,
    BaseManager_update_changes_one_field plainHost "todos" "a" "text" (.str "Write proof")
      [] [taskB] taskA demoWorld (by decide) (by decide) (by decide) (by decide) (by decide)⟩

end DailyHub

/-! ## Missing records, declined deletions, record identity -/

namespace DailyHub

/-- C4: for an id that no record of the collection carries, `BaseManager.update` returns
and changes nothing at all, and a confirmed `BaseManager.delete` returns and leaves
`AppState`, hence the collection, as it was. -/
theorem missing_id_is_noop (h : Host) (stateKey id : String) (updates : Record)
    (L : Collection) (w : World)
    (hitems : BaseManager.items w.app stateKey = some (L.map .obj))
    (habs : ∀ r ∈ L, getProp r "id" ≠ some (.str id)) :
    BaseManager.update h stateKey id updates w = some w ∧
    ∃ w', BaseManager.delete h stateKey true id w = some w' ∧ w'.app = w.app ∧
      BaseManager.items w'.app stateKey = some (L.map .obj) := by
  refine ⟨update_of_absent h stateKey id updates L w hitems habs, ?_⟩
  have happ : setProp w.app stateKey (.arr (L.map .obj)) = w.app :=
    setProp_of_getProp _ _ _ (items_eq_some hitems)
  refine ⟨EventBus.emit "dataChanged" (BaseManager.render stateKey (AppState.save h
      { w with app := (setProp w.app stateKey (.arr (L.map .obj))) })), ?_, ?_, ?_⟩
  · simp only [BaseManager.delete, hitems, Option.bind, filterOutId_records,
      filter_of_absent L id habs]
    rfl
  · simp [EventBus.emit, BaseManager.render, AppState.save, happ]
  · simp [EventBus.emit, BaseManager.render, AppState.save, items_setProp]

theorem missing_id_is_noop_witness :
    BaseManager.items demoWorld.app "todos" = some (demoTodos.map .obj) ∧
    (∀ r ∈ demoTodos, getProp r "id" ≠ some (.str "gone")) ∧
    BaseManager.update plainHost "todos" "gone" [("text", .str "x")] demoWorld
      = some demoWorld ∧
    ∃ w', BaseManager.delete plainHost "todos" true "gone" demoWorld = some w' ∧
      w'.app = demoWorld.app ∧
      BaseManager.items w'.app "todos" = some (demoTodos.map .obj) :=
  ⟨by decide, by decide,
    missing_id_is_noop plainHost "todos" "gone" [("text", .str "x")] demoTodos demoWorld
      (by decide) (by decide)⟩

/-- C5: when the confirmation is declined, `BaseManager.delete`,
`ExpenseTracker.deleteExpense` and `ExpenseTracker.clearAllExpenses` return the page as
it was: the collection, the store and the list of effects (no save, no render, no
`dataChanged`) are unchanged. -/
theorem declined_delete_changes_nothing (h : Host) (stateKey id : String) (w : World) :
    BaseManager.delete h stateKey false id w = some w ∧
    ExpenseTracker.deleteExpense h false id w = some w ∧
    ExpenseTracker.clearAllExpenses h false w = w := by
  refine ⟨?_, ?_, ?_⟩
  · simp [BaseManager.delete]
  · simp [ExpenseTracker.deleteExpense]
  · simp [ExpenseTracker.clearAllExpenses]

/-- C6, an update that carries `id` and `createdAt`: after
`update('a', {id: 'z', createdAt: 'never'})` the task `taskA` has the id `'z'` and the
creation time `'never'`. -/
theorem BaseManager_update_overwrites_identity :
    getProp taskA "id" = some (.str "a") ∧
    getProp taskA "createdAt" = some (.str "2024-01-01T09:00:00.000Z") ∧
    ∃ w' R', BaseManager.update plainHost "todos" "a"
        [("id", .str "z"), ("createdAt", .str "never")] demoWorld = some w' ∧
      BaseManager.items w'.app "todos" = some [.obj R', .obj taskB] ∧
      getProp R' "text" = getProp taskA "text" ∧
      getProp R' "id" = some (.str "z") ∧
      getProp R' "createdAt" = some (.str "never") := by
  refine ⟨by decide, by decide, _, _, rfl, rfl, by decide, by decide, by decide⟩

/-- C6 (amended): for every `partialFields` that carries neither an `id` nor a
`createdAt` key, `BaseManager.update` leaves the `id` and the `createdAt` of every record
of the collection as they were. -/
theorem BaseManager_update_keeps_identity (h : Host) (stateKey id : String)
    (updates : Record) (L : Collection) (w : World)
    (hitems : BaseManager.items w.app stateKey = some (L.map .obj))
    (hkeys : ∀ kv ∈ updates, kv.1 ≠ "id" ∧ kv.1 ≠ "createdAt") :
    ∃ (w' : World) (L' : Collection), BaseManager.update h stateKey id updates w = some w' ∧
      BaseManager.items w'.app stateKey = some (L'.map .obj) ∧
      L'.map (fun r => getProp r "id") = L.map (fun r => getProp r "id") ∧
      L'.map (fun r => getProp r "createdAt") = L.map (fun r => getProp r "createdAt") := by
  rcases split_at_first_id L id with habs | ⟨pre, R, post, hsplit, hpre, hR⟩
  · exact ⟨w, L, update_of_absent h stateKey id updates L w hitems habs, hitems, rfl, rfl⟩
  · subst hsplit
    obtain ⟨w', hw', hitems'⟩ := update_of_first h stateKey id updates pre post R w hitems hR hpre
    refine ⟨w', pre ++ objectAssign R updates :: post, hw', hitems', ?_, ?_⟩
    · simp [getProp_objectAssign_other updates R "id" (fun kv hkv => (hkeys kv hkv).1)]
    · simp [getProp_objectAssign_other updates R "createdAt" (fun kv hkv => (hkeys kv hkv).2)]

theorem BaseManager_update_keeps_identity_witness :
    BaseManager.items demoWorld.app "todos" = some (demoTodos.map .obj) ∧
    (∀ kv ∈ [("text", JVal.str "Write proof"), ("completed", JVal.bool true)],
      kv.1 ≠ "id" ∧ kv.1 ≠ "createdAt") ∧
    ∃ (w' : World) (L' : Collection), BaseManager.update plainHost "todos" "a"
        [("text", .str "Write proof"), ("completed", .bool true)] demoWorld = some w' ∧
      BaseManager.items w'.app "todos" = some (L'.map .obj) ∧
      L'.map (fun r => getProp r "id") = demoTodos.map (fun r => getProp r "id") ∧
      L'.map (fun r => getProp r "createdAt")
        = demoTodos.map (fun r => getProp r "createdAt") :=
  ⟨by decide, by decide,
    BaseManager_update_keeps_identity plainHost "todos" "a"
      [("text", .str "Write proof"), ("completed", .bool true)] demoTodos demoWorld
      (by decide) (by decide)⟩

end DailyHub

/-! ## The persistent store -/

namespace DailyHub

theorem lookup_insert_same (st : Store) (k text : String) :
    Store.lookup (Store.insert st k text) k = some text := by
  induction st with
  | nil => simp [Store.insert, Store.lookup]
  | cons e rest ih =>
    obtain ⟨k0, t0⟩ := e
    by_cases hk : k0 = k
    · simp [Store.insert, Store.lookup, hk]
    · simp [Store.insert, Store.lookup, hk, ih]

theorem lookup_insert_other (st : Store) (k k' text : String) (hne : k' ≠ k) :
    Store.lookup (Store.insert st k text) k' = Store.lookup st k' := by
  induction st with
  | nil => simp [Store.insert, Store.lookup, hne.symm]
  | cons e rest ih =>
    obtain ⟨k0, t0⟩ := e
    by_cases hk : k0 = k
    · subst hk
      simp [Store.insert, Store.lookup, hne.symm]
    · by_cases hk' : k0 = k'
      · subst hk'
        simp [Store.insert, Store.lookup, hk]
      · simp [Store.insert, Store.lookup, hk, hk', ih]

theorem setItem_ne_none {h : Host} {st : Store} {k text : String}
    (hok : h.setItem st k text ≠ none) :
    h.storageDenied = false ∧ h.setItem st k text = some (Store.insert st k text) := by
  unfold Host.setItem at hok ⊢
  by_cases hthrow : (h.storageDenied || h.quotaExceeded st k text) = true
  · simp [hthrow] at hok
  · rw [if_neg hthrow]
    simp only [Bool.or_eq_true, not_or, Bool.not_eq_true] at hthrow
    exact ⟨hthrow.1, rfl⟩

theorem lookup_saveToStorage_other (h : Host) (st : Store) (k k' : String) (v : JVal)
    (hne : k' ≠ k) :
    Store.lookup (Utils.saveToStorage h st k v) k' = Store.lookup st k' := by
  unfold Utils.saveToStorage Host.setItem
  by_cases hthrow : (h.storageDenied || h.quotaExceeded st k (h.stringify v)) = true
  · simp [hthrow]
  · simp [hthrow, lookup_insert_other _ _ _ _ hne]

theorem loadFromStorage_of_lookup (h : Host) (st : Store) (k : String) (V d : JVal)
    (hdenied : h.storageDenied = false) (hser : h.Serialisable V)
    (hlookup : Store.lookup st k = some (h.stringify V)) :
    Utils.loadFromStorage h st k d = V := by
  simp [Utils.loadFromStorage, Host.getItem, hdenied, hlookup, hser.1, hser.2]

/-- C8: after a successful `Utils.saveToStorage(k, V)` of a JSON-serialisable value `V`,
`Utils.loadFromStorage(k, d)` returns `V`, whatever the default `d`. -/
theorem load_after_save (h : Host) (st : Store) (k : String) (V d : JVal)
    (hser : h.Serialisable V) (hok : h.setItem st k (h.stringify V) ≠ none) :
    Utils.loadFromStorage h (Utils.saveToStorage h st k V) k d = V := by
  obtain ⟨hdenied, hset⟩ := setItem_ne_none hok
  apply loadFromStorage_of_lookup h _ k V d hdenied hser
  simp [Utils.saveToStorage, hset, lookup_insert_same]

theorem load_after_save_witness :
    plainHost.Serialisable (.arr []) ∧
    plainHost.setItem [("todos", "[1]")] "todos" (plainHost.stringify (.arr [])) ≠ none ∧
    Utils.loadFromStorage plainHost
      (Utils.saveToStorage plainHost [("todos", "[1]")] "todos" (.arr [])) "todos" .null
      = .arr [] :=
  ⟨by decide, by decide,
    load_after_save plainHost [("todos", "[1]")] "todos" (.arr []) .null (by decide)
      (by decide)⟩

/-- C9: `Utils.loadFromStorage(k, d)` returns `d` when the storage read fails, when
nothing is stored under `k`, and when the stored text is not valid JSON; the failures of
the browser end in `d`, none reaches the caller. -/
theorem load_fails_soft (h : Host) (st : Store) (k : String) (d : JVal)
    (hcase : h.storageDenied = true ∨ Store.lookup st k = none ∨
      ∃ text, Store.lookup st k = some text ∧ h.parse text = none) :
    Utils.loadFromStorage h st k d = d := by
  rcases hcase with hdenied | hnone | ⟨text, hsome, hparse⟩
  · simp [Utils.loadFromStorage, Host.getItem, hdenied]
  · cases hd : h.storageDenied <;> simp [Utils.loadFromStorage, Host.getItem, hd, hnone]
  · cases hd : h.storageDenied <;>
      simp [Utils.loadFromStorage, Host.getItem, hd, hsome, hparse]

theorem load_fails_soft_witness :
    deniedHost.storageDenied = true ∧
    Utils.loadFromStorage deniedHost [("todos", "[]")] "todos" .null = .null ∧
    Store.lookup [("todos", "[]")] "notes" = none ∧
    Utils.loadFromStorage plainHost [("todos", "[]")] "notes" (.arr []) = .arr [] ∧
    Store.lookup [("todos", "[1,")] "todos" = some "[1," ∧
    plainHost.parse "[1," = none ∧
    Utils.loadFromStorage plainHost [("todos", "[1,")] "todos" (.arr []) = .arr [] :=
  ⟨by decide,
    load_fails_soft deniedHost [("todos", "[]")] "todos" .null (Or.inl (by decide)),
    by decide,
    load_fails_soft plainHost [("todos", "[]")] "notes" (.arr []) (Or.inr (Or.inl (by decide))),
    by decide, by decide,
    load_fails_soft plainHost [("todos", "[1,")] "todos" (.arr [])
      (Or.inr (Or.inr ⟨"[1,", by decide, by decide⟩))⟩

theorem saveEntries_append (h : Host) (st : Store) (pre post : List (String × JVal)) :
    AppState.saveEntries h st (pre ++ post)
      = AppState.saveEntries h (AppState.saveEntries h st pre) post := by
  induction pre generalizing st with
  | nil => rfl
  | cons e rest ih =>
    obtain ⟨k0, v0⟩ := e
    exact ih _

theorem lookup_saveEntries_other (h : Host) (st : Store) (entries : List (String × JVal))
    (k : String) (hk : ∀ e ∈ entries, e.1 ≠ k) :
    Store.lookup (AppState.saveEntries h st entries) k = Store.lookup st k := by
  induction entries generalizing st with
  | nil => rfl
  | cons e rest ih =>
    obtain ⟨k0, v0⟩ := e
    have hne : k ≠ k0 := fun e => hk (k0, v0) (List.mem_cons_self _ _) e.symm
    have hrest := fun st' => ih st' (fun e he => hk e (List.mem_cons_of_mem _ he))
    simp only [AppState.saveEntries, hrest]
    by_cases hsave : k0 = "save"
    · simp [hsave]
    · simp [hsave, lookup_saveToStorage_other h st k0 k v0 hne]

/-- C10: `AppState.save` leaves `AppState` as it is and handles every property `k` other
than `save` on its own: when the write of `k` goes through, the store ends with the JSON
text of `AppState[k]` under `k`; when it fails nothing is raised, `k` keeps what it had
and the properties after `k` are written as if `k` had not been there. -/
theorem AppState_save_best_effort (h : Host) (w : World) (pre post : List (String × JVal))
    (k : String) (v : JVal) (happ : w.app = pre ++ (k, v) :: post) (hk : k ≠ "save")
    (hpost : ∀ e ∈ post, e.1 ≠ k) :
    (AppState.save h w).app = w.app ∧
    (h.setItem (AppState.saveEntries h w.store pre) k (h.stringify v) ≠ none →
      Store.lookup (AppState.save h w).store k = some (h.stringify v)) ∧
    (h.setItem (AppState.saveEntries h w.store pre) k (h.stringify v) = none →
      (AppState.save h w).store
          = AppState.saveEntries h (AppState.saveEntries h w.store pre) post ∧
        Store.lookup (AppState.save h w).store k
          = Store.lookup (AppState.saveEntries h w.store pre) k) := by
  have hstore : (AppState.save h w).store
      = AppState.saveEntries h (Utils.saveToStorage h (AppState.saveEntries h w.store pre) k v)
          post := by
    simp [AppState.save, happ, saveEntries_append, AppState.saveEntries, hk]
  refine ⟨rfl, ?_, ?_⟩
  · intro hok
    rw [hstore, lookup_saveEntries_other h _ post k hpost]
    simp [Utils.saveToStorage, (setItem_ne_none hok).2, lookup_insert_same]
  · intro hfail
    have hswallow : Utils.saveToStorage h (AppState.saveEntries h w.store pre) k v
        = AppState.saveEntries h w.store pre := by
      simp [Utils.saveToStorage, hfail]
    rw [hstore, hswallow]
    exact ⟨rfl, lookup_saveEntries_other h _ post k hpost⟩

theorem AppState_save_best_effort_witness :
    demoWorld.app
      = [("expenses", .arr [.obj [("id", .str "e1"), ("name", .str "Coffee")]]),
          ("todos", ofCollection demoTodos)]
        ++ ("notes", .arr [.obj [("id", .str "n1"), ("title", .str "Ideas")]]) :: [] ∧
    pickyHost.setItem [] "todos" (pickyHost.stringify (ofCollection demoTodos)) = none ∧
    Store.lookup (AppState.save pickyHost demoWorld).store "todos" = none ∧
    (AppState.save pickyHost demoWorld).app = demoWorld.app ∧
    Store.lookup (AppState.save pickyHost demoWorld).store "notes"
      = some (pickyHost.stringify (.arr [.obj [("id", .str "n1"), ("title", .str "Ideas")]])) :=
  ⟨by decide, by decide, by decide,
    (AppState_save_best_effort pickyHost demoWorld
      [("expenses", .arr [.obj [("id", .str "e1"), ("name", .str "Coffee")]]),
        ("todos", ofCollection demoTodos)] [] "notes"
      (.arr [.obj [("id", .str "n1"), ("title", .str "Ideas")]]) (by decide) (by decide)
      (by decide)).1,
    (AppState_save_best_effort pickyHost demoWorld
      [("expenses", .arr [.obj [("id", .str "e1"), ("name", .str "Coffee")]]),
        ("todos", ofCollection demoTodos)] [] "notes"
      (.arr [.obj [("id", .str "n1"), ("title", .str "Ideas")]]) (by decide) (by decide)
      (by decide)).2.1 (by decide)⟩

end DailyHub

/-! ## Mutation, persistence, rendering and notification -/

namespace DailyHub

theorem keys_setProp (app : AppState) (key : String) (v : JVal)
    (hold : ∃ old, getProp app key = some old) :
    (setProp app key v).map Prod.fst = app.map Prod.fst := by
  induction app with
  | nil => simp [getProp] at hold
  | cons e rest ih =>
    obtain ⟨k0, v0⟩ := e
    by_cases hk : k0 = key
    · simp [setProp, hk]
    · simp only [getProp, hk, if_false] at hold
      simp [setProp, hk, ih hold]

theorem lookup_saveEntries_accepted (h : Host) (key : String) (app : AppState) (st : Store)
    (v : JVal) (hkeys : (app.map Prod.fst).Nodup) (hget : getProp app key = some v)
    (hacc : AppState.writeAccepted h st app key = true) :
    h.storageDenied = false ∧
      Store.lookup (AppState.saveEntries h st app) key = some (h.stringify v) := by
  induction app generalizing st with
  | nil => simp [getProp] at hget
  | cons e rest ih =>
    obtain ⟨k0, v0⟩ := e
    rw [List.map_cons, List.nodup_cons] at hkeys
    by_cases hk : k0 = key
    · subst hk
      simp only [getProp, if_true, Option.some.injEq] at hget
      subst hget
      simp only [AppState.writeAccepted, if_true, Bool.and_eq_true, decide_eq_true_eq] at hacc
      obtain ⟨hsave, hsome⟩ := hacc
      have hok : h.setItem st k0 (h.stringify v0) ≠ none := by
        intro hnone
        simp [hnone] at hsome
      have hrest : ∀ e ∈ rest, e.1 ≠ k0 := by
        intro e he heq
        exact hkeys.1 (List.mem_map.mpr ⟨e, he, heq⟩)
      refine ⟨(setItem_ne_none hok).1, ?_⟩
      simp only [AppState.saveEntries, lookup_saveEntries_other h _ rest k0 hrest]
      simp [hsave, Utils.saveToStorage, (setItem_ne_none hok).2, lookup_insert_same]
    · simp only [getProp, hk, if_false] at hget
      simp only [AppState.writeAccepted, hk, if_false] at hacc
      simp only [AppState.saveEntries]
      exact ih _ hkeys.2 hget hacc

theorem persisted_of_commit (h : Host) (key : String) (w w' : World) (ys : List JVal)
    (hold : ∃ old, getProp w.app key = some old) (hkeys : (w.app.map Prod.fst).Nodup)
    (happ : w'.app = setProp w.app key (.arr ys))
    (hstore : w'.store = AppState.saveEntries h w.store (setProp w.app key (.arr ys)))
    (hacc : AppState.writeAccepted h w.store w'.app key = true) :
    Persisted h key w' := by
  rw [happ] at hacc
  have hsaved := lookup_saveEntries_accepted h key (setProp w.app key (.arr ys)) w.store
    (.arr ys) (by rw [keys_setProp _ _ _ hold]; exact hkeys) (getProp_setProp_same _ _ _) hacc
  refine ⟨ys, ?_, ?_, ?_⟩
  · rw [happ]
    exact items_setProp _ _ _
  · rw [hstore]
    exact hsaved.2
  · intro hser
    exact loadFromStorage_of_lookup h _ key _ _ hsaved.1 hser (hstore ▸ hsaved.2)

/-- C7, a write that fails: with the storage full, `add` saves, renders and emits in
that order and the task is in `AppState`, yet nothing is stored and a reload reads the
empty list. -/
theorem add_on_full_storage :
    ∃ w', BaseManager.add fullHost "todos" "c" "2024-01-03T09:00:00.000Z"
        [("text", .str "Ship")] demoWorld = some w' ∧
      w'.log = [Effect.save, Effect.render "todos", Effect.emit "dataChanged"] ∧
      BaseManager.items w'.app "todos"
        = some [.obj taskA, .obj taskB,
            .obj [("text", .str "Ship"), ("id", .str "c"),
              ("createdAt", .str "2024-01-03T09:00:00.000Z")]] ∧
      w'.store = [] ∧
      AppState.reload fullHost w'.store "todos" = .arr [] := by
  refine ⟨_, rfl, by decide, by decide, by decide, by decide⟩

/-- C7 (amended): every operation of a manager that changes its collection (`add`,
`update` of a present id, a confirmed `delete`, `toggleTodo` of a present id, an accepted
`addNote`) saves `AppState`, then renders, then emits `dataChanged`, in that order and
on every path, whether the browser accepts the writes or not; when the browser accepts
the write that this save makes under the manager's key, the store then holds the JSON
text of the collection as it is after the change, and for a JSON-serialisable collection
a reload returns the collection held in memory.  The property names of `AppState` are
distinct there, as the keys of an object are. -/
theorem mutation_is_one_ordered_unit (h : Host) (stateKey : String) (L : Collection)
    (w : World) (hitems : BaseManager.items w.app stateKey = some (L.map .obj)) :
    (∀ newId now C, ∃ w', BaseManager.add h stateKey newId now C w = some w' ∧
      w'.log = w.log ++ [.save, .render stateKey, .emit "dataChanged"] ∧
      ((w.app.map Prod.fst).Nodup →
        AppState.writeAccepted h w.store w'.app stateKey = true → Persisted h stateKey w')) ∧
    (∀ id updates, (∃ r ∈ L, getProp r "id" = some (.str id)) →
      ∃ w', BaseManager.update h stateKey id updates w = some w' ∧
        w'.log = w.log ++ [.save, .render stateKey, .emit "dataChanged"] ∧
        ((w.app.map Prod.fst).Nodup →
          AppState.writeAccepted h w.store w'.app stateKey = true →
          Persisted h stateKey w')) ∧
    (∀ id, ∃ w', BaseManager.delete h stateKey true id w = some w' ∧
      w'.log = w.log ++ [.save, .render stateKey, .emit "dataChanged"] ∧
      ((w.app.map Prod.fst).Nodup →
        AppState.writeAccepted h w.store w'.app stateKey = true → Persisted h stateKey w')) ∧
    (stateKey = "todos" → ∀ id, (∃ r ∈ L, getProp r "id" = some (.str id)) →
      ∃ w', TodoTracker.toggleTodo h id w = some w' ∧
        w'.log = w.log ++ [.save, .render "todos", .emit "dataChanged"] ∧
        ((w.app.map Prod.fst).Nodup →
          AppState.writeAccepted h w.store w'.app "todos" = true →
          Persisted h "todos" w')) ∧
    (stateKey = "notes" → ∀ newId now title content, ¬(title = "" ∧ content = "") →
      ∃ w', NotesManager.addNote h newId now title content w = some w' ∧
        w'.log = w.log ++ [.save, .toast "Note saved successfully!" "success",
          .render "notes", .emit "dataChanged"] ∧
        ((w.app.map Prod.fst).Nodup →
          AppState.writeAccepted h w.store w'.app "notes" = true →
          Persisted h "notes" w')) := by
  have hold : ∃ old, getProp w.app stateKey = some old := ⟨_, items_eq_some hitems⟩
  have hfound : ∀ (f : Record → Record) (id : String),
      (∃ r ∈ L, getProp r "id" = some (.str id)) →
      ∃ ys, mutateFound f (L.map .obj) id = some (some ys) := by
    intro f id hpresent
    rcases split_at_first_id L id with habs | ⟨pre, R, post, hsplit, hpre, hR⟩
    · obtain ⟨r, hr, hrid⟩ := hpresent
      exact absurd hrid (habs r hr)
    · exact ⟨_, hsplit ▸ mutateFound_first f pre post R id hpre hR⟩
  refine ⟨?_, ?_, ?_, ?_, ?_⟩
  · intro newId now C
    refine ⟨_, by simp only [BaseManager.add, hitems]; rfl, ?_, ?_⟩
    · simp [EventBus.emit, BaseManager.render, AppState.save]
    · intro hkeys hacc
      exact persisted_of_commit h stateKey w _ _ hold hkeys rfl rfl hacc
  · intro id updates hpresent
    obtain ⟨ys, hys⟩ := hfound (fun r => objectAssign r updates) id hpresent
    refine ⟨_, by simp only [BaseManager.update, hitems, Option.bind, hys]; rfl, ?_, ?_⟩
    · simp [EventBus.emit, BaseManager.render, AppState.save]
    · intro hkeys hacc
      exact persisted_of_commit h stateKey w _ ys hold hkeys rfl rfl hacc
  · intro id
    refine ⟨_, by simp only [BaseManager.delete, hitems, Option.bind, filterOutId_records]; rfl,
      ?_, ?_⟩
    · simp [EventBus.emit, BaseManager.render, AppState.save]
    · intro hkeys hacc
      exact persisted_of_commit h stateKey w _ _ hold hkeys rfl rfl hacc
  · intro htodos id hpresent
    subst htodos
    obtain ⟨ys, hys⟩ := hfound
      (fun todo => setProp todo "completed" (.bool (!truthy (getProp todo "completed")))) id
      hpresent
    refine ⟨_, by simp only [TodoTracker.toggleTodo, hitems, Option.bind, hys]; rfl, ?_, ?_⟩
    · simp [EventBus.emit, BaseManager.render, AppState.save]
    · intro hkeys hacc
      exact persisted_of_commit h "todos" w _ ys hold hkeys rfl rfl hacc
  · intro hnotes newId now title content haccepted
    subst hnotes
    refine ⟨_, by simp only [NotesManager.addNote, haccepted, hitems, if_false]; rfl, ?_, ?_⟩
    · simp [EventBus.emit, BaseManager.render, AppState.save, Utils.showToast]
    · intro hkeys hacc
      exact persisted_of_commit h "notes" w _ _ hold hkeys rfl rfl hacc

theorem mutation_is_one_ordered_unit_witness :
    BaseManager.items demoWorld.app "notes"
      = some ([[("id", JVal.str "n1"), ("title", JVal.str "Ideas")]].map .obj) ∧
    (∃ w', BaseManager.delete fullHost "notes" true "n1" demoWorld = some w' ∧
      w'.log = demoWorld.log ++ [.save, .render "notes", .emit "dataChanged"]) ∧
    (∃ w', BaseManager.delete pickyHost "notes" true "n1" demoWorld = some w' ∧
      w'.log = demoWorld.log ++ [.save, .render "notes", .emit "dataChanged"] ∧
      Store.lookup w'.store "todos" = none ∧
      Persisted pickyHost "notes" w') := by
  refine ⟨by decide, ?_, ?_⟩
  · obtain ⟨w', hrun, hlog, _⟩ :=
      (mutation_is_one_ordered_unit fullHost "notes"
        [[("id", JVal.str "n1"), ("title", JVal.str "Ideas")]] demoWorld (by decide)).2.2.1 "n1"
    exact ⟨w', hrun, hlog⟩
  · obtain ⟨w', hrun, hlog, hpersisted⟩ :=
      (mutation_is_one_ordered_unit pickyHost "notes"
        [[("id", JVal.str "n1"), ("title", JVal.str "Ideas")]] demoWorld (by decide)).2.2.1 "n1"
    have hw' : w' = (⟨[("expenses", .arr [.obj [("id", .str "e1"), ("name", .str "Coffee")]]),
          ("todos", ofCollection demoTodos), ("notes", .arr [])],
        [("expenses", "null"), ("notes", "[]")],
        [.save, .render "notes", .emit "dataChanged"]⟩ : World) :=
      Option.some.inj (hrun.symm.trans (by decide))
    subst hw'
    exact ⟨_, hrun, hlog, by decide, hpersisted (by decide) (by decide)⟩

end DailyHub

/-! ## Keys of the store and their owners -/

namespace DailyHub

/-- C11, the key `'goals'` is written by `GoalsTracker.save` and by `AppState.save`: on a
fresh page `GoalsTracker.addGoal` stores the goal `goalRun`; `TodoTracker` then adds a
task, and `AppState.save` puts the goals of page load, the empty list, back under
`'goals'`. -/
theorem AppState_save_rewrites_goals :
    GoalsTracker.init plainHost freshWorld.store = .arr [] ∧
    getProp freshWorld.app "goals" = some (.arr []) ∧
    (GoalsTracker.addGoal plainHost "g1" "Mon Jan 01 2024" "Run" [] freshWorld.store).1
      = [goalRun] ∧
    Store.lookup goalStore "goals" = some (plainHost.stringify (.arr [goalRun])) ∧
    ∃ w', BaseManager.add plainHost "todos" "t1" "2024-01-01T09:00:00.000Z"
        [("text", .str "Write spec"), ("completed", .bool false)]
        { freshWorld with store := goalStore } = some w' ∧
      Store.lookup w'.store "goals" = some (plainHost.stringify (.arr [])) ∧
      Store.lookup w'.store "goals" ≠ Store.lookup goalStore "goals" := by
  refine ⟨by decide, by decide, by decide, by decide, _, rfl, by decide, by decide⟩

end DailyHub

/-! ## EventBus -/

namespace DailyHub

theorem callbacks_of_plain {σ : Type} (listeners : Listeners σ) (event : String)
    (hevent : event ∉ objectPrototypeKeys) :
    EventBus.callbacks listeners event
      = some ((EventBus.callbacks listeners event).getD []) := by
  induction listeners with
  | nil => simp [EventBus.callbacks, hevent]
  | cons entry rest ih =>
    obtain ⟨e0, cbs⟩ := entry
    by_cases h0 : e0 = event
    · simp [EventBus.callbacks, h0]
    · simpa [EventBus.callbacks, h0] using ih

theorem callbacks_on {σ : Type} (listeners : Listeners σ) (e : String)
    (callback : Handler σ) (he : e ∉ objectPrototypeKeys) :
    ∃ ls, EventBus.on listeners e callback = some ls ∧
      ∀ event, (EventBus.callbacks ls event).getD []
        = if e = event then (EventBus.callbacks listeners event).getD [] ++ [callback]
          else (EventBus.callbacks listeners event).getD [] := by
  induction listeners with
  | nil =>
    refine ⟨[(e, [callback])], by simp [EventBus.on, he], ?_⟩
    intro event
    by_cases hev : e = event
    · subst hev
      simp [EventBus.callbacks, he]
    · simp [EventBus.callbacks, hev]
  | cons entry rest ih =>
    obtain ⟨e0, cbs⟩ := entry
    obtain ⟨ls, hls, hcbs⟩ := ih
    by_cases h0 : e0 = e
    · subst h0
      refine ⟨(e0, cbs ++ [callback]) :: rest, by simp [EventBus.on], ?_⟩
      intro event
      by_cases hev : e0 = event <;> simp [EventBus.callbacks, hev]
    · refine ⟨(e0, cbs) :: ls, by simp [EventBus.on, h0, hls], ?_⟩
      intro event
      by_cases h1 : e0 = event
      · subst h1
        have hne : ¬ e = e0 := fun h => h0 h.symm
        simp [EventBus.callbacks, hne]
      · simpa [EventBus.callbacks, h1] using hcbs event

theorem callbacks_foldl_on {σ : Type} (subs : List (String × Handler σ))
    (hsubs : ∀ sub ∈ subs, sub.1 ∉ objectPrototypeKeys) (listeners : Listeners σ) :
    ∃ ls, subs.foldl (fun acc sub => acc.bind (fun l => EventBus.on l sub.1 sub.2))
        (some listeners) = some ls ∧
      ∀ event, (EventBus.callbacks ls event).getD []
        = (EventBus.callbacks listeners event).getD []
          ++ (subs.filter (fun sub => decide (sub.1 = event))).map Prod.snd := by
  induction subs generalizing listeners with
  | nil => exact ⟨listeners, rfl, by simp⟩
  | cons sub rest ih =>
    obtain ⟨l1, hl1, hc1⟩ :=
      callbacks_on listeners sub.1 sub.2 (hsubs sub (List.mem_cons_self _ _))
    obtain ⟨ls, hls, hcs⟩ := ih (fun x hx => hsubs x (List.mem_cons_of_mem _ hx)) l1
    refine ⟨ls, by simp [List.foldl_cons, hl1, hls], ?_⟩
    intro event
    rw [hcs, hc1]
    by_cases hev : sub.1 = event <;> simp [hev]

theorem callbacks_subscribeAll {σ : Type} (subs : List (String × Handler σ))
    (hsubs : ∀ sub ∈ subs, sub.1 ∉ objectPrototypeKeys) (event : String)
    (hevent : event ∉ objectPrototypeKeys) :
    ∃ ls, EventBus.subscribeAll subs = some ls ∧
      EventBus.callbacks ls event
        = some ((subs.filter (fun sub => decide (sub.1 = event))).map Prod.snd) := by
  obtain ⟨ls, hls, hcs⟩ := callbacks_foldl_on subs hsubs []
  refine ⟨ls, hls, ?_⟩
  rw [callbacks_of_plain ls event hevent, hcs]
  simp [EventBus.callbacks, hevent]

theorem forEach_noting (names : List String) (data : Option JVal) (calls : Calls) :
    EventBus.forEach (names.map noting) data calls
      = .returned (calls ++ names.map (fun n => (n, data))) := by
  induction names generalizing calls with
  | nil => simp [EventBus.forEach]
  | cons n rest ih =>
    have hn : noting n data calls = .returned (calls ++ [(n, data)]) := rfl
    simp only [List.map_cons, EventBus.forEach, hn, ih]
    simp

/-- C12, names that a plain object inherits: on a fresh `EventBus`, `emit('toString')`
has no subscriber and yet throws, and `on('constructor', callback)` throws instead of
subscribing. -/
theorem EventBus_inherited_names_throw :
    EventBus.emitTo ([] : Listeners Calls) "toString" none [] = .threw [] ∧
    EventBus.on ([] : Listeners Calls) "constructor" (noting "first") = none ∧
    EventBus.subscribeAll [("dataChanged", noting "first"), ("constructor", noting "second")]
      = none := by
  refine ⟨by decide, rfl, rfl⟩

/-- C12 (amended): for event names that are not names of members of `Object.prototype`,
after `on(e1, h1), …, on(en, hn)` the callbacks of an event are exactly the handlers
subscribed under its name, once per subscription and in subscription order, and
`emit(event, data)` runs through them in that order with `data`; an event without
subscribers invokes nothing and returns.  With subscribers that note their calls, the
calls made by `emit` are those of the subscribers of the event, in order, each with the
payload. -/
theorem EventBus_dispatch_order {σ : Type} (subs : List (String × Handler σ))
    (names : List (String × String)) (event : String) (data : Option JVal) (s : σ)
    (calls : Calls) (hsubs : ∀ sub ∈ subs, sub.1 ∉ objectPrototypeKeys)
    (hnames : ∀ n ∈ names, n.1 ∉ objectPrototypeKeys)
    (hevent : event ∉ objectPrototypeKeys) :
    (∃ ls, EventBus.subscribeAll subs = some ls ∧
      EventBus.callbacks ls event
        = some ((subs.filter (fun sub => decide (sub.1 = event))).map Prod.snd) ∧
      EventBus.emitTo ls event data s
        = EventBus.forEach ((subs.filter (fun sub => decide (sub.1 = event))).map Prod.snd)
            data s ∧
      ((∀ sub ∈ subs, sub.1 ≠ event) → EventBus.emitTo ls event data s = .returned s)) ∧
    (∃ ls, EventBus.subscribeAll (names.map (fun n => (n.1, noting n.2))) = some ls ∧
      EventBus.emitTo ls event data calls
        = .returned (calls
            ++ (names.filter (fun n => decide (n.1 = event))).map (fun n => (n.2, data)))) := by
  constructor
  · obtain ⟨ls, hls, hcb⟩ := callbacks_subscribeAll subs hsubs event hevent
    refine ⟨ls, hls, hcb, by simp only [EventBus.emitTo, hcb], ?_⟩
    intro hnone
    have hfilter : subs.filter (fun sub => decide (sub.1 = event)) = [] := by
      apply List.filter_eq_nil_iff.mpr
      intro sub hsub
      simpa using hnone sub hsub
    simp only [EventBus.emitTo, hcb, hfilter]
    rfl
  · obtain ⟨ls, hls, hcb⟩ := callbacks_subscribeAll (names.map (fun n => (n.1, noting n.2)))
      (by
        intro sub hsub
        obtain ⟨n, hn, rfl⟩ := List.mem_map.mp hsub
        exact hnames n hn) event hevent
    refine ⟨ls, hls, ?_⟩
    have hcalls : (List.filter (fun sub => decide (sub.1 = event))
        (names.map (fun n => (n.1, noting n.2)))).map Prod.snd
        = ((names.filter (fun n => decide (n.1 = event))).map Prod.snd).map noting := by
      simp [List.filter_map, Function.comp_def]
    simp only [EventBus.emitTo, hcb, hcalls, forEach_noting]
    simp

theorem EventBus_dispatch_order_witness :
    (∀ sub ∈ [("dataChanged", noting "first"), ("saved", noting "other"),
      ("dataChanged", noting "second")], sub.1 ∉ objectPrototypeKeys) ∧
    (∀ n ∈ [("dataChanged", "first"), ("saved", "other"), ("dataChanged", "second")],
      n.1 ∉ objectPrototypeKeys) ∧
    "dataChanged" ∉ objectPrototypeKeys ∧
    ∃ ls, EventBus.subscribeAll
        ([("dataChanged", "first"), ("saved", "other"), ("dataChanged", "second")].map
          (fun n => (n.1, noting n.2))) = some ls ∧
      EventBus.emitTo ls "dataChanged" (some (.str "p")) []
        = .returned [("first", some (.str "p")), ("second", some (.str "p"))] :=
  ⟨by decide, by decide, by decide,
    (EventBus_dispatch_order
      [("dataChanged", noting "first"), ("saved", noting "other"),
        ("dataChanged", noting "second")]
      [("dataChanged", "first"), ("saved", "other"), ("dataChanged", "second")]
      "dataChanged" (some (.str "p")) ([] : Calls) [] (by decide) (by decide) (by decide)).2⟩

/-- C13, a subscriber that throws: with `first` throwing and `second` subscribed after
it, `emit('dataChanged')` ends with the exception of `first` and `second` is not
called. -/
theorem EventBus_emit_stops_at_throw :
    (EventBus.subscribeAll
        [("dataChanged", failing "first"), ("dataChanged", noting "second")]).map
        (fun listeners => EventBus.emitTo listeners "dataChanged" none [])
      = some (.threw [("first", none)]) := by
  decide

/-- C13 (amended): when a subscriber throws during `emit`, the subscribers before it have
run, `emit` ends with that exception, and no subscriber after it is called: the outcome
is the same whatever is subscribed after it. -/
theorem EventBus_emit_no_isolation {σ : Type} (before after : List (Handler σ))
    (thrower : Handler σ) (data : Option JVal) (s s1 s2 : σ)
    (hbefore : EventBus.forEach before data s = .returned s1)
    (hthrow : thrower data s1 = .threw s2) :
    EventBus.forEach (before ++ thrower :: after) data s = .threw s2 ∧
    EventBus.forEach (before ++ thrower :: after) data s
      = EventBus.forEach (before ++ [thrower]) data s := by
  have hrun : ∀ (after : List (Handler σ)),
      EventBus.forEach (before ++ thrower :: after) data s = .threw s2 := by
    intro after
    induction before generalizing s with
    | nil => simp [EventBus.forEach] at hbefore ⊢; subst hbefore; simp [hthrow]
    | cons cb rest ih =>
      simp only [List.cons_append, EventBus.forEach] at hbefore ⊢
      cases hcb : cb data s with
      | returned s' =>
        rw [hcb] at hbefore
        exact ih s' hbefore
      | threw s' =>
        rw [hcb] at hbefore
        cases hbefore
  exact ⟨hrun after, (hrun after).trans (hrun []).symm⟩

theorem EventBus_emit_no_isolation_witness :
    EventBus.forEach [noting "zero"] none [] = .returned [("zero", none)] ∧
    failing "first" none [("zero", none)] = .threw [("zero", none), ("first", none)] ∧
    EventBus.forEach ([noting "zero"] ++ failing "first" :: [noting "second"]) none []
      = .threw [("zero", none), ("first", none)] ∧
    EventBus.forEach ([noting "zero"] ++ failing "first" :: [noting "second"]) none []
      = EventBus.forEach ([noting "zero"] ++ [failing "first"]) none [] :=
  ⟨by decide, by decide,
    EventBus_emit_no_isolation [noting "zero"] [noting "second"] (failing "first") none []
      [("zero", none)] [("zero", none), ("first", none)] (by decide) (by decide)⟩

end DailyHub

/-! ## Rendering and filters -/

namespace DailyHub

theorem setupFilterButtons_kind (filterAttr value : String) (m : Manager) :
    (Utils.setupFilterButtons filterAttr value m).kind = m.kind := by
  unfold Utils.setupFilterButtons
  split <;> rfl

theorem reachable_currentFilter (m : Manager) (hreach : Manager.Reachable m) :
    m.kind ≠ .todos → m.currentFilter = "all" := by
  induction hreach with
  | new kind => intro _; rfl
  | click m filterAttr value _ hattr ih =>
    intro hkind
    rw [setupFilterButtons_kind] at hkind
    have hstatus : filterAttr = "data-status" := by
      cases hk : m.kind <;> simp_all [ManagerKind.filterAttr]
    subst hstatus
    simpa [Utils.setupFilterButtons] using ih hkind

theorem renderItems_todos (sorted : Collection → Collection) (m : Manager)
    (items : Collection) (hkind : m.kind = .todos) :
    BaseManager.renderItems sorted m true items
      = (TodoTracker.filterItems m.currentFilter items, items) := by
  by_cases hall : m.currentFilter = "all"
  · simp [BaseManager.renderItems, hall, TodoTracker.filterItems]
  · simp [BaseManager.renderItems, hall, Manager.filterItems, hkind]

theorem renderItems_of_all (sorted : Collection → Collection) (m : Manager)
    (container : Bool) (items : Collection) (hall : m.currentFilter = "all") :
    BaseManager.renderItems sorted m container items
      = (if container then items else [], items) := by
  cases container <;> simp [BaseManager.renderItems, hall]

/-- C14, the status filter of `ProjectManager`: a click on the button `'Completed'` sets
`currentStatusFilter` and leaves `currentFilter` at `'all'`; `filterItems` would keep the
completed project only, but `render` does not call it and hands both projects to
`renderItem`. -/
theorem ProjectManager_status_filter_not_applied :
    Utils.setupFilterButtons "data-status" "Completed" (Manager.new .projects)
      = { kind := .projects, currentFilter := "all", currentStatusFilter := "Completed" } ∧
    (ProjectManager.filterItems (fun items => items) "Completed" demoProjects).1
      = [projectDone] ∧
    (BaseManager.renderItems (fun items => items)
        (Utils.setupFilterButtons "data-status" "Completed" (Manager.new .projects)) true
        demoProjects).1
      = [projectPlanned, projectDone] := by
  refine ⟨by decide, by decide, by decide⟩

/-- C15: in every state of a manager the script can reach, `render()` leaves the
collection as it is, records and order, and a second `render()` hands the same sequence of
items to `renderItem` as the first. -/
theorem render_idempotent (sorted : Collection → Collection) (m : Manager)
    (container : Bool) (items : Collection) (hreach : Manager.Reachable m) :
    (BaseManager.renderItems sorted m container items).2 = items ∧
    (BaseManager.renderItems sorted m container
        (BaseManager.renderItems sorted m container items).2).1
      = (BaseManager.renderItems sorted m container items).1 := by
  have hsame : (BaseManager.renderItems sorted m container items).2 = items := by
    by_cases hkind : m.kind = .todos
    · cases container
      · simp [BaseManager.renderItems]
      · rw [renderItems_todos sorted m items hkind]
    · rw [renderItems_of_all sorted m container items (reachable_currentFilter m hreach hkind)]
  exact ⟨hsame, by rw [hsame]⟩

theorem render_idempotent_witness :
    Manager.Reachable (Utils.setupFilterButtons "data-filter" "active" (Manager.new .todos)) ∧
    (BaseManager.renderItems (fun items => items)
        (Utils.setupFilterButtons "data-filter" "active" (Manager.new .todos)) true
        demoTodos).1 = [taskA] ∧
    (BaseManager.renderItems (fun items => items)
        (Utils.setupFilterButtons "data-filter" "active" (Manager.new .todos)) true
        demoTodos).2 = demoTodos ∧
    (BaseManager.renderItems (fun items => items)
        (Utils.setupFilterButtons "data-filter" "active" (Manager.new .todos)) true
        (BaseManager.renderItems (fun items => items)
          (Utils.setupFilterButtons "data-filter" "active" (Manager.new .todos)) true
          demoTodos).2).1
      = (BaseManager.renderItems (fun items => items)
          (Utils.setupFilterButtons "data-filter" "active" (Manager.new .todos)) true
          demoTodos).1 :=
  ⟨Manager.Reachable.click _ _ _ (Manager.Reachable.new .todos) rfl, by decide,
    (render_idempotent (fun items => items)
      (Utils.setupFilterButtons "data-filter" "active" (Manager.new .todos)) true demoTodos
      (Manager.Reachable.click _ _ _ (Manager.Reachable.new .todos) rfl)).1,
    (render_idempotent (fun items => items)
      (Utils.setupFilterButtons "data-filter" "active" (Manager.new .todos)) true demoTodos
      (Manager.Reachable.click _ _ _ (Manager.Reachable.new .todos) rfl)).2⟩

end DailyHub

/-! ## The arithmetic of doubles -/

namespace DailyHub

theorem roundHalfEven_sub_le (y : ℚ) : |(roundHalfEven y : ℚ) - y| ≤ 1 / 2 := by
  have h1 := Int.floor_le y
  have h2 := Int.lt_floor_add_one y
  unfold roundHalfEven
  rw [abs_le]
  split_ifs <;> constructor <;> push_cast <;> linarith

theorem roundHalfEven_nonneg (y : ℚ) (hy : 0 ≤ y) : 0 ≤ roundHalfEven y := by
  have h0 : 0 ≤ ⌊y⌋ := Int.floor_nonneg.mpr hy
  unfold roundHalfEven
  split_ifs <;> omega

theorem roundHalfEven_eq (y : ℚ) (n : ℤ) (hlo : (n : ℚ) - 1 / 2 < y) (hhi : y < n + 1 / 2) :
    roundHalfEven y = n := by
  rcases le_or_lt (n : ℚ) y with hn | hn
  · have hfloor : ⌊y⌋ = n := by
      rw [Int.floor_eq_iff]
      constructor <;> linarith
    unfold roundHalfEven
    rw [hfloor, if_pos (by linarith)]
  · have hfloor : ⌊y⌋ = n - 1 := by
      rw [Int.floor_eq_iff]
      push_cast
      constructor <;> linarith
    unfold roundHalfEven
    rw [hfloor, if_neg (by push_cast; linarith), if_pos (by push_cast; linarith)]
    omega

theorem ulp_pos (x : ℚ) : 0 < ulp x := by
  unfold ulp
  positivity

theorem binary64_sub_le (x : ℚ) : |binary64 x - x| ≤ ulp x / 2 := by
  have hu := ulp_pos x
  have hr := roundHalfEven_sub_le (x / ulp x)
  have hx : binary64 x - x = ((roundHalfEven (x / ulp x) : ℚ) - x / ulp x) * ulp x := by
    unfold binary64
    field_simp
  rw [hx, abs_mul, abs_of_pos hu]
  calc |(roundHalfEven (x / ulp x) : ℚ) - x / ulp x| * ulp x ≤ 1 / 2 * ulp x :=
        mul_le_mul_of_nonneg_right hr hu.le
    _ = ulp x / 2 := by ring

theorem binary64_nonneg (x : ℚ) (hx : 0 ≤ x) : 0 ≤ binary64 x := by
  unfold binary64
  have hu := ulp_pos x
  have hr := roundHalfEven_nonneg (x / ulp x) (div_nonneg hx hu.le)
  have h2 : (0 : ℚ) ≤ (roundHalfEven (x / ulp x) : ℚ) := by exact_mod_cast hr
  positivity

theorem zpow_log_le_abs (x : ℚ) (hx : x ≠ 0) : (2 : ℚ) ^ Int.log 2 |x| ≤ |x| := by
  have hlog := @Int.zpow_log_le_self ℚ _ _ 2 |x| (by norm_num) (abs_pos.mpr hx)
  simpa using hlog

theorem log_eq_of_bounds (r : ℚ) (e : ℤ) (hlo : (2 : ℚ) ^ e ≤ r)
    (hhi : r < (2 : ℚ) ^ (e + 1)) : Int.log 2 r = e := by
  have hr : 0 < r := lt_of_lt_of_le (by positivity) hlo
  have h1 : e ≤ Int.log 2 r :=
    (Int.zpow_le_iff_le_log (by norm_num) hr).mp (by simpa using hlo)
  have h2 : Int.log 2 r < e + 1 :=
    (Int.lt_zpow_iff_log_lt (by norm_num) hr).mp (by simpa using hhi)
  omega

theorem binary64_zero : binary64 0 = 0 := by
  unfold binary64 roundHalfEven
  simp

theorem half_ulp_of_normal (e : ℤ) :
    (2 : ℚ) ^ (e - 52) / 2 = 2 ^ e * 2 ^ (-53 : ℤ) := by
  rw [show e - 52 = e + (-53) + 1 by ring, zpow_add_one₀ (by norm_num),
    zpow_add₀ (by norm_num)]
  ring

/-- The rounding error of a double: relative `2 ^ (-53)`, and `2 ^ (-1075)` where the
doubles are subnormal. -/
theorem binary64_error (x : ℚ) :
    |binary64 x - x| ≤ |x| * 2 ^ (-53 : ℤ) + 2 ^ (-1075 : ℤ) := by
  rcases eq_or_ne x 0 with rfl | hx
  · rw [binary64_zero]
    simp only [sub_self, abs_zero, zero_mul, zero_add]
    positivity
  · have hlog := zpow_log_le_abs x hx
    refine (binary64_sub_le x).trans ?_
    unfold ulp
    rcases le_total (Int.log 2 |x|) (-1022) with hsub | hnorm
    · rw [max_eq_right hsub]
      have hhalf : (2 : ℚ) ^ ((-1022 : ℤ) - 52) / 2 = 2 ^ (-1075 : ℤ) := by
        rw [show (-1075 : ℤ) = (-1022 - 52) - 1 by norm_num, zpow_sub_one₀ (by norm_num)]
        rfl
      rw [hhalf]
      have hnonneg : 0 ≤ |x| * 2 ^ (-53 : ℤ) := by positivity
      linarith
    · rw [max_eq_left hnorm, half_ulp_of_normal]
      have h2 : (2 : ℚ) ^ Int.log 2 |x| * 2 ^ (-53 : ℤ) ≤ |x| * 2 ^ (-53 : ℤ) :=
        mul_le_mul_of_nonneg_right hlog (by positivity)
      have hnonneg : (0 : ℚ) ≤ 2 ^ (-1075 : ℤ) := by positivity
      linarith

/-- The rounding error of a double in the normal range. -/
theorem binary64_error_normal (x : ℚ) (hx : (2 : ℚ) ^ (-1022 : ℤ) ≤ |x|) :
    |binary64 x - x| ≤ |x| * 2 ^ (-53 : ℤ) := by
  have hpos : 0 < |x| := lt_of_lt_of_le (by positivity) hx
  have hlog := zpow_log_le_abs x (abs_pos.mp hpos)
  have hnorm : (-1022 : ℤ) ≤ Int.log 2 |x| :=
    (Int.zpow_le_iff_le_log (by norm_num) hpos).mp (by simpa using hx)
  refine (binary64_sub_le x).trans ?_
  unfold ulp
  rw [max_eq_left hnorm, half_ulp_of_normal]
  exact mul_le_mul_of_nonneg_right hlog (by positivity)

/-- How a double is computed: in the binade `e` the result is the multiple `n` of
`2 ^ (e - 52)` that lies within half a unit of `x`. -/
theorem binary64_eq (x : ℚ) (e n : ℤ) (he : -1022 ≤ e) (hlo : (2 : ℚ) ^ e ≤ |x|)
    (hhi : |x| < (2 : ℚ) ^ (e + 1)) (h1 : (n : ℚ) - 1 / 2 < x / 2 ^ (e - 52))
    (h2 : x / 2 ^ (e - 52) < n + 1 / 2) : binary64 x = n * 2 ^ (e - 52) := by
  have hu : ulp x = 2 ^ (e - 52) := by
    unfold ulp
    rw [log_eq_of_bounds |x| e hlo hhi, max_eq_left he]
  unfold binary64
  rw [hu, roundHalfEven_eq _ n h1 h2]

theorem binary64_one : binary64 1 = 1 := by
  rw [binary64_eq 1 0 4503599627370496 (by norm_num) (by norm_num) (by norm_num)
    (by norm_num) (by norm_num)]
  norm_num

theorem binary64_hundred : binary64 100 = 100 := by
  rw [binary64_eq 100 6 7036874417766400 (by norm_num) (by norm_num) (by norm_num)
    (by norm_num) (by norm_num)]
  norm_num

end DailyHub

/-! ## Task statistics -/

namespace DailyHub

theorem mathRound_bounds (x : ℚ) (lo hi : ℤ) (hlo : (lo : ℚ) ≤ x) (hhi : x ≤ (hi : ℚ)) :
    lo ≤ mathRound x ∧ mathRound x ≤ hi := by
  unfold mathRound
  constructor
  · apply Int.le_floor.mpr
    linarith
  · have hlt : ⌊x + 1 / 2⌋ < hi + 1 := by
      apply Int.floor_lt.mpr
      push_cast
      linarith
    omega

theorem mathRound_intCast (n : ℤ) : mathRound (n : ℚ) = n := by
  have hb := mathRound_bounds (n : ℚ) n n le_rfl le_rfl
  omega

theorem rate_error (c t : ℕ) (ht : 0 < t) (hc : c ≤ t) :
    |binary64 (binary64 ((c : ℚ) / (t : ℚ)) * 100) - 100 * (c : ℚ) / (t : ℚ)|
      ≤ 2 ^ (-44 : ℤ) := by
  have htq : (0 : ℚ) < (t : ℚ) := by exact_mod_cast ht
  have hx0 : (0 : ℚ) ≤ (c : ℚ) / (t : ℚ) := div_nonneg (Nat.cast_nonneg _) htq.le
  have hx1 : (c : ℚ) / (t : ℚ) ≤ 1 := (div_le_one htq).mpr (by exact_mod_cast hc)
  have hq0 := binary64_nonneg _ hx0
  have he1 := binary64_error ((c : ℚ) / (t : ℚ))
  have he2 := binary64_error (binary64 ((c : ℚ) / (t : ℚ)) * 100)
  rw [abs_of_nonneg hx0] at he1
  rw [abs_of_nonneg (by positivity : (0 : ℚ) ≤ binary64 ((c : ℚ) / (t : ℚ)) * 100)] at he2
  have hsmall : (2 : ℚ) ^ (-1075 : ℤ) ≤ 2 ^ (-53 : ℤ) :=
    zpow_le_zpow_right₀ (by norm_num) (by norm_num)
  have hu : (2 : ℚ) ^ (-53 : ℤ) = 1 / 9007199254740992 := by norm_num
  have hv : (2 : ℚ) ^ (-44 : ℤ) = 1 / 17592186044416 := by norm_num
  rw [hu] at he1 he2 hsmall
  rw [hv]
  rw [abs_le] at he1 he2 ⊢
  have hxeq : 100 * (c : ℚ) / (t : ℚ) = 100 * ((c : ℚ) / (t : ℚ)) := by ring
  rw [hxeq]
  constructor <;> nlinarith [he1.1, he1.2, he2.1, he2.2]

theorem mathRound_of_near (c t : ℕ) (ht : 0 < t) (hlen : t < 2 ^ 32) (p : ℚ)
    (hp : |p - 100 * (c : ℚ) / (t : ℚ)| ≤ 2 ^ (-44 : ℤ)) :
    mathRound p = mathRound (100 * (c : ℚ) / (t : ℚ)) ∨
      (mathRound p = mathRound (100 * (c : ℚ) / (t : ℚ)) - 1 ∧
        (mathRound (100 * (c : ℚ) / (t : ℚ)) : ℚ) = 100 * (c : ℚ) / (t : ℚ) + 1 / 2) := by
  have htq : (0 : ℚ) < (t : ℚ) := by exact_mod_cast ht
  have htop : (t : ℚ) < 4294967296 := by exact_mod_cast hlen
  have hv : (2 : ℚ) ^ (-44 : ℤ) = 1 / 17592186044416 := by norm_num
  rw [hv, abs_le] at hp
  obtain ⟨hp1, hp2⟩ := hp
  unfold mathRound
  have hfl := Int.floor_le (100 * (c : ℚ) / (t : ℚ) + 1 / 2)
  have hfu := Int.lt_floor_add_one (100 * (c : ℚ) / (t : ℚ) + 1 / 2)
  generalize hm : ⌊100 * (c : ℚ) / (t : ℚ) + 1 / 2⌋ = m at hfl hfu ⊢
  have hN : ((200 * (c : ℤ) + (t : ℤ) - 2 * (t : ℤ) * m : ℤ) : ℚ)
      = 2 * (t : ℚ) * (100 * (c : ℚ) / (t : ℚ) + 1 / 2 - m) := by
    push_cast
    field_simp
    ring
  have hN0 : 0 ≤ 200 * (c : ℤ) + (t : ℤ) - 2 * (t : ℤ) * m := by
    have hq : (0 : ℚ) ≤ ((200 * (c : ℤ) + (t : ℤ) - 2 * (t : ℤ) * m : ℤ) : ℚ) := by
      rw [hN]
      have hd : (0 : ℚ) ≤ 100 * (c : ℚ) / (t : ℚ) + 1 / 2 - m := by linarith
      positivity
    exact_mod_cast hq
  have hN1 : 200 * (c : ℤ) + (t : ℤ) - 2 * (t : ℤ) * m < 2 * (t : ℤ) := by
    have hq : ((200 * (c : ℤ) + (t : ℤ) - 2 * (t : ℤ) * m : ℤ) : ℚ) < ((2 * (t : ℤ) : ℤ) : ℚ) := by
      rw [hN]
      push_cast
      have hd : 100 * (c : ℚ) / (t : ℚ) + 1 / 2 - m < 1 := by linarith
      nlinarith
    exact_mod_cast hq
  rcases eq_or_lt_of_le hN0 with hzero | hposN
  · have htie : 100 * (c : ℚ) / (t : ℚ) + 1 / 2 - m = 0 := by
      have hq : 2 * (t : ℚ) * (100 * (c : ℚ) / (t : ℚ) + 1 / 2 - m) = 0 := by
        rw [← hN, ← hzero]
        norm_num
      rcases mul_eq_zero.mp hq with h2t | hd
      · exact absurd h2t (by positivity)
      · exact hd
    rcases le_or_lt (m : ℚ) (p + 1 / 2) with hge | hlt
    · left
      rw [Int.floor_eq_iff]
      constructor <;> linarith
    · right
      refine ⟨?_, by linarith⟩
      rw [Int.floor_eq_iff]
      push_cast
      constructor <;> linarith
  · left
    have hone : (1 : ℚ) ≤ 2 * (t : ℚ) * (100 * (c : ℚ) / (t : ℚ) + 1 / 2 - m) := by
      rw [← hN]
      exact_mod_cast hposN
    have hone' : (1 : ℚ) ≤ 2 * (t : ℚ) * (1 - (100 * (c : ℚ) / (t : ℚ) + 1 / 2 - m)) := by
      have hq : ((200 * (c : ℤ) + (t : ℤ) - 2 * (t : ℤ) * m : ℤ) : ℚ) + 1
          ≤ ((2 * (t : ℤ) : ℤ) : ℚ) := by exact_mod_cast hN1
      rw [hN] at hq
      push_cast at hq
      linarith
    have hd0 : (0 : ℚ) ≤ 100 * (c : ℚ) / (t : ℚ) + 1 / 2 - m := by linarith
    have hd1 : (0 : ℚ) ≤ 1 - (100 * (c : ℚ) / (t : ℚ) + 1 / 2 - m) := by linarith
    have hlow : (1 : ℚ) / 8589934592 ≤ 100 * (c : ℚ) / (t : ℚ) + 1 / 2 - m := by
      nlinarith
    have hhigh : (1 : ℚ) / 8589934592 ≤ 1 - (100 * (c : ℚ) / (t : ℚ) + 1 / 2 - m) := by
      nlinarith
    rw [Int.floor_eq_iff]
    constructor <;> linarith

theorem rate_of_nonempty (h : Host) (todos : Collection) (hfl : h.fl = binary64)
    (hne : todos ≠ []) :
    (Analytics.updateTaskStats h todos).completionRate
      = mathRound (binary64 (binary64
          (((todos.filter (fun t => truthy (getProp t "completed"))).length : ℚ)
            / (todos.length : ℚ)) * 100)) := by
  have hpos : 0 < todos.length := List.length_pos.mpr hne
  simp [Analytics.updateTaskStats, hpos, hfl]

/-- C16, 23 of 40 tasks completed: in the arithmetic of doubles `(23 / 40) * 100` is
`57.49999999999999`, so `Analytics.updateTaskStats` reports 57, where
`round(100 · 23 / 40)` is 58. -/
theorem task_rate_of_23_in_40 :
    (Analytics.updateTaskStats doubleHost
      (List.replicate 23 taskB ++ List.replicate 17 taskA)).totalTasks = 40 ∧
    (Analytics.updateTaskStats doubleHost
      (List.replicate 23 taskB ++ List.replicate 17 taskA)).completedTasks = 23 ∧
    (Analytics.updateTaskStats doubleHost
      (List.replicate 23 taskB ++ List.replicate 17 taskA)).completionRate = 57 ∧
    mathRound (100 * 23 / 40) = 58 := by
  have hlen : (List.replicate 23 taskB ++ List.replicate 17 taskA).length = 40 := by decide
  have hdone : ((List.replicate 23 taskB ++ List.replicate 17 taskA).filter
      (fun t => truthy (getProp t "completed"))).length = 23 := by decide
  refine ⟨hlen, hdone, ?_, ?_⟩
  · rw [rate_of_nonempty doubleHost _ rfl (by decide), hlen, hdone]
    have hq : binary64 (((23 : ℕ) : ℚ) / ((40 : ℕ) : ℚ))
        = 2589569785738035 / 4503599627370496 := by
      rw [binary64_eq _ (-1) 5179139571476070 (by norm_num) (by norm_num [abs_of_pos])
        (by norm_num [abs_of_pos]) (by norm_num) (by norm_num)]
      norm_num
    have hp : binary64 ((2589569785738035 : ℚ) / 4503599627370496 * 100)
        = 8092405580431359 / 140737488355328 := by
      rw [binary64_eq _ 5 8092405580431359 (by norm_num) (by norm_num [abs_of_pos])
        (by norm_num [abs_of_pos]) (by norm_num) (by norm_num)]
      norm_num
    rw [hq, hp]
    unfold mathRound
    rw [Int.floor_eq_iff]
    constructor <;> norm_num
  · unfold mathRound
    rw [Int.floor_eq_iff]
    constructor <;> norm_num

/-- C16 (amended): `Analytics.updateTaskStats` reports 0 for an empty task list; for a
non-empty one it reports `Math.round((completed / total) * 100)` as the doubles compute
it, which is `round(100 · completed / total)` unless `100 · completed / total` lies
exactly halfway between two whole numbers, where it is that or one less.  The rate is 0
when no task is completed, 100 when every task of a non-empty list is completed, and
always an integer within 0..100. -/
theorem task_completion_rate (h : Host) (todos : Collection) (hfl : h.fl = binary64) :
    (todos = [] → (Analytics.updateTaskStats h todos).completionRate = 0) ∧
    (todos ≠ [] → todos.length < 2 ^ 32 →
      (Analytics.updateTaskStats h todos).completionRate
          = mathRound (100 * ((todos.filter (fun t => truthy (getProp t "completed"))).length : ℚ)
              / (todos.length : ℚ)) ∨
        ((Analytics.updateTaskStats h todos).completionRate
            = mathRound (100
                * ((todos.filter (fun t => truthy (getProp t "completed"))).length : ℚ)
                / (todos.length : ℚ)) - 1 ∧
          (mathRound (100 * ((todos.filter (fun t => truthy (getProp t "completed"))).length : ℚ)
              / (todos.length : ℚ)) : ℚ)
            = 100 * ((todos.filter (fun t => truthy (getProp t "completed"))).length : ℚ)
                / (todos.length : ℚ) + 1 / 2)) ∧
    ((∀ t ∈ todos, truthy (getProp t "completed") = false) →
      (Analytics.updateTaskStats h todos).completionRate = 0) ∧
    (todos ≠ [] → (∀ t ∈ todos, truthy (getProp t "completed") = true) →
      (Analytics.updateTaskStats h todos).completionRate = 100) ∧
    0 ≤ (Analytics.updateTaskStats h todos).completionRate ∧
    (Analytics.updateTaskStats h todos).completionRate ≤ 100 := by
  have hround0 : mathRound 0 = 0 := by simpa using mathRound_intCast 0
  have hround100 : mathRound 100 = 100 := by simpa using mathRound_intCast 100
  have hpos : todos ≠ [] → 0 < todos.length := fun hne => List.length_pos.mpr hne
  have hle : (todos.filter (fun t => truthy (getProp t "completed"))).length ≤ todos.length :=
    List.length_filter_le _ todos
  have hempty : todos = [] → (Analytics.updateTaskStats h todos).completionRate = 0 := by
    intro hnil
    simp [Analytics.updateTaskStats, hnil]
  refine ⟨hempty, ?_, ?_, ?_, ?_⟩
  · intro hne hlen
    rw [rate_of_nonempty h todos hfl hne]
    exact mathRound_of_near _ _ (hpos hne) hlen _ (rate_error _ _ (hpos hne) hle)
  · intro hnone
    by_cases hne : todos = []
    · exact hempty hne
    · have hfilter : todos.filter (fun t => truthy (getProp t "completed")) = [] := by
        apply List.filter_eq_nil_iff.mpr
        intro t ht
        simp [hnone t ht]
      rw [rate_of_nonempty h todos hfl hne, hfilter]
      simp [binary64_zero, hround0]
  · intro hne hall
    have hfilter : todos.filter (fun t => truthy (getProp t "completed")) = todos := by
      apply List.filter_eq_self.mpr
      intro t ht
      exact hall t ht
    have hlen : (todos.length : ℚ) ≠ 0 := by
      exact_mod_cast (hpos hne).ne'
    rw [rate_of_nonempty h todos hfl hne, hfilter, div_self hlen, binary64_one, one_mul,
      binary64_hundred, hround100]
  · by_cases hne : todos = []
    · rw [hempty hne]
      exact ⟨le_rfl, by norm_num⟩
    · have hlen : (0 : ℚ) < (todos.length : ℚ) := by exact_mod_cast hpos hne
      have hq0 : (0 : ℚ) ≤ ((todos.filter (fun t => truthy (getProp t "completed"))).length : ℚ)
          / (todos.length : ℚ) := div_nonneg (Nat.cast_nonneg _) hlen.le
      have hq1 : ((todos.filter (fun t => truthy (getProp t "completed"))).length : ℚ)
          / (todos.length : ℚ) ≤ 1 := (div_le_one hlen).mpr (by exact_mod_cast hle)
      have hp0 := binary64_nonneg _
        (mul_nonneg (binary64_nonneg _ hq0) (by norm_num : (0 : ℚ) ≤ 100))
      have herr := rate_error _ _ (hpos hne) hle
      have hv : (2 : ℚ) ^ (-44 : ℤ) = 1 / 17592186044416 := by norm_num
      rw [hv, abs_le] at herr
      have hxeq : 100 * ((todos.filter (fun t => truthy (getProp t "completed"))).length : ℚ)
          / (todos.length : ℚ)
          = 100 * (((todos.filter (fun t => truthy (getProp t "completed"))).length : ℚ)
              / (todos.length : ℚ)) := by ring
      rw [hxeq] at herr
      rw [rate_of_nonempty h todos hfl hne]
      unfold mathRound
      constructor
      · exact Int.floor_nonneg.mpr (by linarith)
      · have hlt : ⌊binary64 (binary64
            (((todos.filter (fun t => truthy (getProp t "completed"))).length : ℚ)
              / (todos.length : ℚ)) * 100) + 1 / 2⌋ < 100 + 1 := by
          apply Int.floor_lt.mpr
          push_cast
          linarith [herr.2]
        omega

theorem task_completion_rate_witness :
    doubleHost.fl = binary64 ∧
    (Analytics.updateTaskStats doubleHost [taskA]).completionRate = 0 ∧
    (Analytics.updateTaskStats doubleHost
      [setProp taskA "completed" (.bool (!truthy (getProp taskA "completed")))]).completionRate
      = 100 ∧
    0 ≤ (Analytics.updateTaskStats doubleHost [taskB, taskA, taskA]).completionRate ∧
    (Analytics.updateTaskStats doubleHost [taskB, taskA, taskA]).completionRate ≤ 100 :=
  ⟨rfl,
    (task_completion_rate doubleHost [taskA] rfl).2.2.1 (by decide),
    (task_completion_rate doubleHost
      [setProp taskA "completed" (.bool (!truthy (getProp taskA "completed")))]
      rfl).2.2.2.1 (by decide) (by decide),
    (task_completion_rate doubleHost [taskB, taskA, taskA] rfl).2.2.2.2⟩

end DailyHub

/-! ## Expenses -/

namespace DailyHub

theorem arrayAt_setProp (app : AppState) (key : String) (xs : List JVal) :
    AppState.arrayAt (setProp app key (.arr xs)) key = some xs := by
  simp [AppState.arrayAt, getProp_setProp_same]

theorem addExpense_accepted (h : Host) (newId now name category : String) (a : ℚ)
    (xs : List JVal) (w : World) (hname : name ≠ "") (ha : 0 < a)
    (hitems : AppState.arrayAt w.app "expenses" = some xs) :
    ExpenseTracker.addExpense h newId now name (some a) category w
      = some (EventBus.emit "dataChanged" (BaseManager.render "expenses" (AppState.save h
          { w with app := (setProp w.app "expenses" (.arr (xs ++ [.obj
            [("id", .str newId), ("name", .str name),
              ("amount", ExpenseTracker.roundedAmount h a),
              ("category", .str category), ("date", .str now)]]))) }))) := by
  have hnot : ¬(name = "" ∨ a ≤ 0) := by
    intro hrej
    rcases hrej with hn | hle
    · exact hname hn
    · exact absurd ha (not_lt.mpr hle)
  simp only [ExpenseTracker.addExpense, hnot, if_false, hitems]

theorem one_le_doubleLimit : (1 : ℚ) ≤ doubleLimit := by
  unfold doubleLimit
  exact one_le_pow₀ (by norm_num)

theorem number_of_lt (h : Host) (x : ℚ) (hx : |h.fl x| < doubleLimit) :
    h.number x = .num (h.fl x) := by
  unfold Host.number
  rw [if_neg (not_le.mpr hx)]

theorem number_of_ge (h : Host) (x : ℚ) (hx : doubleLimit ≤ h.fl x) :
    h.number x = .inf false := by
  have hpos : 0 < h.fl x := lt_of_lt_of_le (by linarith [one_le_doubleLimit]) hx
  unfold Host.number
  rw [if_pos (by rw [abs_of_pos hpos]; exact hx)]
  simp [not_lt.mpr hpos.le]

theorem sumFrom_append (h : Host) (xs : List JVal) (e a sum : JVal)
    (he : amountOf e = some a) :
    ExpenseTracker.sumFrom h sum (xs ++ [e])
      = (ExpenseTracker.sumFrom h sum xs).map (fun total => h.plus total a) := by
  induction xs generalizing sum with
  | nil => simp [ExpenseTracker.sumFrom, he]
  | cons x rest ih =>
    cases hx : amountOf x with
    | none => simp [ExpenseTracker.sumFrom, hx]
    | some b => simp [ExpenseTracker.sumFrom, hx, ih]

theorem eta_eq : (2 : ℚ) ^ (-1075 : ℤ) = 2 ^ (-53 : ℤ) * 2 ^ (-1022 : ℤ) := by
  rw [← zpow_add₀ (by norm_num)]
  norm_num

/-- One addition of doubles: from a sum `s` and an amount `a`, neither negative, the new
sum is at most `(1 + u)(s + a) + u B` and off by at most `u (s + a + B)`, with
`u = 2 ^ (-53)` and `B = 2 ^ (-1022)`. -/
theorem binary64_add_bounds (s a : ℚ) (hs : 0 ≤ s) (ha : 0 ≤ a) :
    0 ≤ binary64 (s + a) ∧
    binary64 (s + a)
      ≤ (1 + 2 ^ (-53 : ℤ)) * (s + a) + 2 ^ (-53 : ℤ) * 2 ^ (-1022 : ℤ) ∧
    |binary64 (s + a) - (s + a)| ≤ 2 ^ (-53 : ℤ) * (s + a + 2 ^ (-1022 : ℤ)) := by
  have hsum : 0 ≤ s + a := add_nonneg hs ha
  have herr := binary64_error (s + a)
  rw [abs_of_nonneg hsum, eta_eq] at herr
  have hu : (0 : ℚ) < 2 ^ (-53 : ℤ) := by positivity
  have hB : (0 : ℚ) < 2 ^ (-1022 : ℤ) := by positivity
  refine ⟨binary64_nonneg _ hsum, ?_, ?_⟩
  · have hle := (abs_le.mp herr).2
    linarith
  · calc |binary64 (s + a) - (s + a)|
        ≤ (s + a) * 2 ^ (-53 : ℤ) + 2 ^ (-53 : ℤ) * 2 ^ (-1022 : ℤ) := herr
      _ = 2 ^ (-53 : ℤ) * (s + a + 2 ^ (-1022 : ℤ)) := by ring

/-- The sum of non-negative amounts in the arithmetic of doubles, added from the left:
unless it overflows it is a number within the accumulated rounding error of the exact
sum. -/
theorem sumFrom_bound (h : Host) (hfl : h.fl = binary64) (amounts : List ℚ) :
    ∀ (es : List JVal) (s : ℚ),
      es.map amountOf = amounts.map (fun x => some (JVal.num x)) →
      (∀ x ∈ amounts, 0 ≤ x) → 0 ≤ s →
      (1 + 2 ^ (-53 : ℤ)) ^ amounts.length * (s + amounts.sum + 2 ^ (-1022 : ℤ)) < doubleLimit →
      ∃ t, ExpenseTracker.sumFrom h (.num s) es = some (.num t) ∧ 0 ≤ t ∧
        |t - (s + amounts.sum)|
          ≤ ((1 + 2 ^ (-53 : ℤ)) ^ amounts.length - 1)
            * (s + amounts.sum + 2 ^ (-1022 : ℤ)) := by
  induction amounts with
  | nil =>
    intro es s hes _ hs _
    have hnil : es = [] := by simpa using hes
    subst hnil
    exact ⟨s, rfl, hs, by simp⟩
  | cons a rest ih =>
    intro es s hes hnonneg hs hroom
    cases es with
    | nil => simp at hes
    | cons e more =>
      simp only [List.map_cons, List.cons.injEq] at hes
      obtain ⟨he, hmore⟩ := hes
      have ha : 0 ≤ a := hnonneg a (List.mem_cons_self _ _)
      have hrest : ∀ x ∈ rest, 0 ≤ x := fun x hx => hnonneg x (List.mem_cons_of_mem _ hx)
      have hsumrest : 0 ≤ rest.sum := List.sum_nonneg hrest
      obtain ⟨hs1, hup, herr⟩ := binary64_add_bounds s a hs ha
      have hu : (0 : ℚ) < 2 ^ (-53 : ℤ) := by positivity
      have hB : (0 : ℚ) < 2 ^ (-1022 : ℤ) := by positivity
      have hG : (1 : ℚ) ≤ (1 + 2 ^ (-53 : ℤ)) ^ rest.length :=
        one_le_pow₀ (by linarith)
      rw [List.length_cons, List.sum_cons, pow_succ (1 + (2 : ℚ) ^ (-53 : ℤ)) rest.length]
        at hroom ⊢
      have hstep : binary64 (s + a) + rest.sum + 2 ^ (-1022 : ℤ)
          ≤ (1 + 2 ^ (-53 : ℤ)) * (s + (a + rest.sum) + 2 ^ (-1022 : ℤ)) := by
        have hprod : (0 : ℚ) ≤ 2 ^ (-53 : ℤ) * rest.sum := mul_nonneg hu.le hsumrest
        linarith
      have hroom1 : (1 + 2 ^ (-53 : ℤ)) ^ rest.length
          * (binary64 (s + a) + rest.sum + 2 ^ (-1022 : ℤ)) < doubleLimit := by
        calc (1 + 2 ^ (-53 : ℤ)) ^ rest.length
              * (binary64 (s + a) + rest.sum + 2 ^ (-1022 : ℤ))
            ≤ (1 + 2 ^ (-53 : ℤ)) ^ rest.length
              * ((1 + 2 ^ (-53 : ℤ)) * (s + (a + rest.sum) + 2 ^ (-1022 : ℤ))) :=
              mul_le_mul_of_nonneg_left hstep (by linarith)
          _ = (1 + 2 ^ (-53 : ℤ)) ^ rest.length * (1 + 2 ^ (-53 : ℤ))
              * (s + (a + rest.sum) + 2 ^ (-1022 : ℤ)) := by ring
          _ < doubleLimit := hroom
      have hfinite : |h.fl (s + a)| < doubleLimit := by
        rw [hfl, abs_of_nonneg hs1]
        have hbig : binary64 (s + a)
            ≤ (1 + 2 ^ (-53 : ℤ)) ^ rest.length
              * (binary64 (s + a) + rest.sum + 2 ^ (-1022 : ℤ)) := by
          have h1 : binary64 (s + a) ≤ binary64 (s + a) + rest.sum + 2 ^ (-1022 : ℤ) := by
            linarith
          have h2 : 0 ≤ binary64 (s + a) + rest.sum + 2 ^ (-1022 : ℤ) := by linarith
          nlinarith
        linarith
      obtain ⟨t, ht, ht0, hterr⟩ := ih more (binary64 (s + a)) hmore hrest hs1 hroom1
      refine ⟨t, ?_, ht0, ?_⟩
      · simp only [ExpenseTracker.sumFrom, he, Host.plus, number_of_lt h _ hfinite, hfl]
        exact ht
      · have htri : |t - (s + (a + rest.sum))|
            ≤ |t - (binary64 (s + a) + rest.sum)| + |binary64 (s + a) - (s + a)| := by
          have heq : t - (s + (a + rest.sum))
              = (t - (binary64 (s + a) + rest.sum)) + (binary64 (s + a) - (s + a)) := by ring
          rw [heq]
          exact abs_add _ _
        have hfirst : ((1 + 2 ^ (-53 : ℤ)) ^ rest.length - 1)
              * (binary64 (s + a) + rest.sum + 2 ^ (-1022 : ℤ))
            ≤ ((1 + 2 ^ (-53 : ℤ)) ^ rest.length - 1)
              * ((1 + 2 ^ (-53 : ℤ)) * (s + (a + rest.sum) + 2 ^ (-1022 : ℤ))) :=
          mul_le_mul_of_nonneg_left hstep (by linarith)
        have hsecond : 2 ^ (-53 : ℤ) * (s + a + 2 ^ (-1022 : ℤ))
            ≤ 2 ^ (-53 : ℤ) * (s + (a + rest.sum) + 2 ^ (-1022 : ℤ)) :=
          mul_le_mul_of_nonneg_left (by linarith) hu.le
        calc |t - (s + (a + rest.sum))|
            ≤ ((1 + 2 ^ (-53 : ℤ)) ^ rest.length - 1)
                * ((1 + 2 ^ (-53 : ℤ)) * (s + (a + rest.sum) + 2 ^ (-1022 : ℤ)))
              + 2 ^ (-53 : ℤ) * (s + (a + rest.sum) + 2 ^ (-1022 : ℤ)) := by linarith
          _ = ((1 + 2 ^ (-53 : ℤ)) ^ rest.length * (1 + 2 ^ (-53 : ℤ)) - 1)
                * (s + (a + rest.sum) + 2 ^ (-1022 : ℤ)) := by ring

theorem roundedAmount_overflow (h : Host) (hfl : h.fl = binary64) (a : ℚ)
    (hp : doubleLimit ≤ binary64 (a * 100)) :
    ExpenseTracker.roundedAmount h a = .inf false := by
  have hnum : h.number (a * 100) = .inf false := number_of_ge h _ (by rw [hfl]; exact hp)
  unfold ExpenseTracker.roundedAmount
  rw [hnum]

/-- The amount stored for an accepted `a` whose product `a * 100` is a finite double: the
double nearest to a whole number of cents. -/
theorem roundedAmount_finite (h : Host) (hfl : h.fl = binary64) (a : ℚ) (ha : 0 < a)
    (hp : binary64 (a * 100) < doubleLimit) :
    ∃ cents : ℕ, (cents : ℤ) = mathRound (binary64 (a * 100)) ∧
      ExpenseTracker.roundedAmount h a = .num (binary64 ((cents : ℚ) / 100)) ∧
      |(cents : ℚ) - 100 * a| ≤ 1 / 2 + 100 * a * 2 ^ (-53 : ℤ) + 2 ^ (-1075 : ℤ) ∧
      |binary64 ((cents : ℚ) / 100) - (cents : ℚ) / 100|
        ≤ (cents : ℚ) / 100 * 2 ^ (-53 : ℤ) ∧
      0 ≤ binary64 ((cents : ℚ) / 100) ∧
      |binary64 ((cents : ℚ) / 100) - a| ≤ 1 / 200 + (a + 1) * 2 ^ (-51 : ℤ) := by
  have ha100 : (0 : ℚ) ≤ a * 100 := by linarith
  have hp0 : 0 ≤ binary64 (a * 100) := binary64_nonneg _ ha100
  have hk0 : 0 ≤ mathRound (binary64 (a * 100)) := by
    unfold mathRound
    exact Int.floor_nonneg.mpr (by linarith)
  have hfloor1 : (mathRound (binary64 (a * 100)) : ℚ) ≤ binary64 (a * 100) + 1 / 2 :=
    Int.floor_le (binary64 (a * 100) + 1 / 2)
  have hfloor2 : binary64 (a * 100) + 1 / 2 < (mathRound (binary64 (a * 100)) : ℚ) + 1 :=
    Int.lt_floor_add_one (binary64 (a * 100) + 1 / 2)
  have herr := binary64_error (a * 100)
  rw [abs_of_nonneg ha100, abs_le] at herr
  obtain ⟨herr1, herr2⟩ := herr
  have hcast : ((mathRound (binary64 (a * 100))).toNat : ℤ) = mathRound (binary64 (a * 100)) :=
    Int.toNat_of_nonneg hk0
  have hcastq : (((mathRound (binary64 (a * 100))).toNat : ℕ) : ℚ)
      = (mathRound (binary64 (a * 100)) : ℚ) := by exact_mod_cast hcast
  have hfirst : h.number (a * 100) = .num (binary64 (a * 100)) := by
    have hlt : |h.fl (a * 100)| < doubleLimit := by
      rw [hfl, abs_of_nonneg hp0]
      exact hp
    rw [number_of_lt h _ hlt, hfl]
  have hstored : ExpenseTracker.roundedAmount h a
      = h.number ((mathRound (binary64 (a * 100)) : ℚ) / 100) := by
    unfold ExpenseTracker.roundedAmount
    rw [hfirst]
  refine ⟨(mathRound (binary64 (a * 100))).toNat, hcast, ?_⟩
  rw [hcastq, hstored]
  generalize mathRound (binary64 (a * 100)) = k at hk0 hfloor1 hfloor2
  generalize binary64 (a * 100) = p at hp hp0 hfloor1 hfloor2 herr1 herr2
  have hkq : (0 : ℚ) ≤ (k : ℚ) := by exact_mod_cast hk0
  have hk100 : (0 : ℚ) ≤ (k : ℚ) / 100 := div_nonneg hkq (by norm_num)
  have hs0 : 0 ≤ binary64 ((k : ℚ) / 100) := binary64_nonneg _ hk100
  have hsmall : (2 : ℚ) ^ (-1075 : ℤ) ≤ 2 ^ (-53 : ℤ) :=
    zpow_le_zpow_right₀ (by norm_num) (by norm_num)
  have heta0 : (0 : ℚ) < 2 ^ (-1075 : ℤ) := zpow_pos (by norm_num) _
  have hu0 : (0 : ℚ) < 2 ^ (-53 : ℤ) := zpow_pos (by norm_num) _
  have hu1 : (2 : ℚ) ^ (-53 : ℤ) ≤ 1 := by
    have h53 : (2 : ℚ) ^ (-53 : ℤ) ≤ 2 ^ (0 : ℤ) :=
      zpow_le_zpow_right₀ (by norm_num) (by norm_num)
    simpa using h53
  have hv : (2 : ℚ) ^ (-51 : ℤ) = 4 * 2 ^ (-53 : ℤ) := by
    rw [show (-51 : ℤ) = 2 + (-53) by norm_num, zpow_add₀ (by norm_num)]
    norm_num
  have herr3 : |binary64 ((k : ℚ) / 100) - (k : ℚ) / 100| ≤ (k : ℚ) / 100 * 2 ^ (-53 : ℤ) := by
    rcases eq_or_lt_of_le hk0 with hzero | hpos
    · rw [← hzero]
      simp [binary64_zero]
    · have hone : (1 : ℚ) ≤ (k : ℚ) := by exact_mod_cast hpos
      have hnormal : (2 : ℚ) ^ (-1022 : ℤ) ≤ |(k : ℚ) / 100| := by
        rw [abs_of_nonneg hk100]
        have hlow : (2 : ℚ) ^ (-1022 : ℤ) ≤ 2 ^ (-7 : ℤ) :=
          zpow_le_zpow_right₀ (by norm_num) (by norm_num)
        have h7 : (2 : ℚ) ^ (-7 : ℤ) = 1 / 128 := by norm_num
        rw [h7] at hlow
        linarith
      have hnorm := binary64_error_normal _ hnormal
      rwa [abs_of_nonneg hk100] at hnorm
  have hfinite : |h.fl ((k : ℚ) / 100)| < doubleLimit := by
    rw [hfl, abs_of_nonneg hs0]
    have hle := (abs_le.mp herr3).2
    have hku : (k : ℚ) / 100 * 2 ^ (-53 : ℤ) ≤ (k : ℚ) / 100 :=
      mul_le_of_le_one_right hk100 hu1
    have hone := one_le_doubleLimit
    linarith
  rw [number_of_lt h _ hfinite, hfl, hv]
  generalize binary64 ((k : ℚ) / 100) = s at hs0 herr3 ⊢
  generalize (2 : ℚ) ^ (-53 : ℤ) = u at herr1 herr2 hsmall hu0 hu1 herr3 ⊢
  generalize (2 : ℚ) ^ (-1075 : ℤ) = η at herr1 herr2 hsmall heta0 ⊢
  have hau : 0 ≤ a * u := mul_nonneg ha.le hu0.le
  have hcents : |(k : ℚ) - 100 * a| ≤ 1 / 2 + 100 * a * u + η := by
    rw [abs_le]
    constructor <;> linarith
  refine ⟨rfl, hcents, herr3, hs0, ?_⟩
  rw [abs_le] at hcents herr3 ⊢
  have hkup : (k : ℚ) / 100 ≤ a + 1 / 200 + a * u + u / 100 := by linarith [hcents.2]
  have hprod : (k : ℚ) / 100 * u ≤ (a + 1 / 200 + a * u + u / 100) * u :=
    mul_le_mul_of_nonneg_right hkup hu0.le
  have hauu : a * u * u ≤ a * u := mul_le_of_le_one_right hau hu1
  have huu : u * u ≤ u := mul_le_of_le_one_right hu0.le hu1
  constructor <;> nlinarith [hcents.1, hcents.2, herr3.1, herr3.2]

/-- How the stored amount is computed: the product `p`, its whole number of cents `k`
and the quotient `s`, each a finite double. -/
theorem roundedAmount_eq (h : Host) (hfl : h.fl = binary64) (a p s : ℚ) (k : ℤ)
    (hp : binary64 (a * 100) = p) (hplt : |p| < doubleLimit) (hk : mathRound p = k)
    (hs : binary64 ((k : ℚ) / 100) = s) (hslt : |s| < doubleLimit) :
    ExpenseTracker.roundedAmount h a = .num s := by
  unfold ExpenseTracker.roundedAmount
  rw [number_of_lt h _ (by rw [hfl, hp]; exact hplt), hfl, hp]
  simp only []
  rw [hk, number_of_lt h _ (by rw [hfl, hs]; exact hslt), hfl, hs]

theorem half_le_binary64 (x : ℚ) (hx : 1 ≤ x) : x / 2 ≤ binary64 x := by
  have hx0 : (0 : ℚ) ≤ x := by linarith
  have hnormal : (2 : ℚ) ^ (-1022 : ℤ) ≤ |x| := by
    rw [abs_of_nonneg hx0]
    have hlow : (2 : ℚ) ^ (-1022 : ℤ) ≤ 2 ^ (0 : ℤ) :=
      zpow_le_zpow_right₀ (by norm_num) (by norm_num)
    rw [zpow_zero] at hlow
    linarith
  have herr := binary64_error_normal x hnormal
  have hu : (2 : ℚ) ^ (-53 : ℤ) ≤ 1 / 2 := by
    have h53 : (2 : ℚ) ^ (-53 : ℤ) ≤ 2 ^ (-1 : ℤ) :=
      zpow_le_zpow_right₀ (by norm_num) (by norm_num)
    have h1 : (2 : ℚ) ^ (-1 : ℤ) = 1 / 2 := by norm_num
    rwa [h1] at h53
  rw [abs_of_nonneg hx0, abs_le] at herr
  generalize (2 : ℚ) ^ (-53 : ℤ) = u at herr hu
  have hprod : x * u ≤ x * (1 / 2) := mul_le_mul_of_nonneg_left hu hx0
  linarith [herr.1]

theorem overflow_of_large (x : ℚ) (hx : 1 ≤ x) (hbig : doubleLimit ≤ 25 * x) :
    doubleLimit ≤ binary64 (binary64 x * 100) := by
  have ha := half_le_binary64 x hx
  have hb := half_le_binary64 (binary64 x * 100) (by linarith)
  linarith

/-- C17, amounts in doubles: the double of 0.015 is stored as the double of 0.02, which
is farther than 0.005 from it and no multiple of 0.01, and the double of 1e308 is
stored as `Infinity`. -/
theorem expense_rounding_in_doubles :
    (∃ w', ExpenseTracker.addExpense doubleHost "e3" "2024-01-03T09:00:00.000Z" "Stamp"
        (some (binary64 (15 / 1000))) "Post" ledgerWorld = some w' ∧
      AppState.arrayAt w'.app "expenses"
        = some (ledgerExpenses ++ [.obj [("id", .str "e3"), ("name", .str "Stamp"),
            ("amount", .num (5764607523034235 / 288230376151711744)),
            ("category", .str "Post"), ("date", .str "2024-01-03T09:00:00.000Z")]])) ∧
    binary64 (2 / 100) = 5764607523034235 / 288230376151711744 ∧
    1 / 200 < |(5764607523034235 / 288230376151711744 : ℚ) - binary64 (15 / 1000)| ∧
    (¬ ∃ cents : ℤ, (5764607523034235 / 288230376151711744 : ℚ) = (cents : ℚ) / 100) ∧
    ExpenseTracker.roundedAmount doubleHost (binary64 (10 ^ 308)) = .inf false := by
  have h15 : binary64 (15 / 1000) = 1080863910568919 / 72057594037927936 := by
    rw [binary64_eq _ (-7) 8646911284551352 (by norm_num) (by norm_num [abs_of_pos])
      (by norm_num [abs_of_pos]) (by norm_num) (by norm_num)]
    norm_num
  have hprod : binary64 ((1080863910568919 : ℚ) / 72057594037927936 * 100) = 3 / 2 := by
    rw [binary64_eq _ 0 6755399441055744 (by norm_num) (by norm_num [abs_of_pos])
      (by norm_num [abs_of_pos]) (by norm_num) (by norm_num)]
    norm_num
  have hround : mathRound (3 / 2) = 2 := by
    unfold mathRound
    rw [Int.floor_eq_iff]
    constructor <;> norm_num
  have h002 : binary64 (((2 : ℤ) : ℚ) / 100) = 5764607523034235 / 288230376151711744 := by
    rw [binary64_eq _ (-6) 5764607523034235 (by norm_num) (by norm_num [abs_of_pos])
      (by norm_num [abs_of_pos]) (by norm_num) (by norm_num)]
    norm_num
  have hlimit : ∀ x : ℚ, |x| ≤ 2 → |x| < doubleLimit := by
    intro x hx
    have hbig : (2 : ℚ) < doubleLimit := by
      unfold doubleLimit
      norm_num
    linarith
  have hstored : ExpenseTracker.roundedAmount doubleHost (binary64 (15 / 1000))
      = .num (5764607523034235 / 288230376151711744) := by
    apply roundedAmount_eq doubleHost rfl _ (3 / 2) _ 2 (by rw [h15, hprod])
      (hlimit _ (by norm_num [abs_of_pos])) hround h002
      (hlimit _ (by norm_num [abs_of_pos]))
  refine ⟨?_, by simpa using h002, ?_, ?_, ?_⟩
  · refine ⟨_, addExpense_accepted doubleHost _ _ _ _ _ ledgerExpenses ledgerWorld
      (by decide) (by rw [h15]; norm_num) rfl, ?_⟩
    simp only [EventBus.emit, BaseManager.render, AppState.save, arrayAt_setProp, hstored]
  · rw [h15]
    norm_num [abs_of_pos]
  · rintro ⟨cents, hcents⟩
    have hq : (cents : ℚ) * 288230376151711744 = 100 * 5764607523034235 := by
      field_simp at hcents
      linarith
    have hz : cents * 288230376151711744 = 100 * 5764607523034235 := by exact_mod_cast hq
    omega
  · apply roundedAmount_overflow doubleHost rfl
    apply overflow_of_large _ (one_le_pow₀ (by norm_num))
    unfold doubleLimit
    norm_num

/-- C17 (amended): for an accepted amount `a`, `ExpenseTracker.addExpense` appends one
expense whose amount is `Math.round(a * 100) / 100` as the doubles compute it.  When
`a * 100` is beyond the largest double the amount is `Infinity`; otherwise it is the
double nearest to a whole number of cents, the one nearest to the double `a * 100`: it
is not negative, within `2 ^ (-53)` relative of that number of cents, and within
`0.005 + (a + 1) · 2 ^ (-51)` of `a`.  The total of `updateTotal` after the addition is
the total before plus the stored amount, and the total of expenses with non-negative
amounts is their sum added from the left in doubles: unless that overflows, a number
within the rounding error of the additions of the exact sum. -/
theorem expense_rounded_to_cents (h : Host) (newId now name category : String) (a : ℚ)
    (xs : List JVal) (w : World) (hfl : h.fl = binary64) (hname : name ≠ "") (ha : 0 < a)
    (hitems : AppState.arrayAt w.app "expenses" = some xs) :
    ∃ (w' : World) (stored : JVal),
      ExpenseTracker.addExpense h newId now name (some a) category w = some w' ∧
      AppState.arrayAt w'.app "expenses"
        = some (xs ++ [.obj [("id", .str newId), ("name", .str name), ("amount", stored),
            ("category", .str category), ("date", .str now)]]) ∧
      stored = ExpenseTracker.roundedAmount h a ∧
      (doubleLimit ≤ binary64 (a * 100) → stored = .inf false) ∧
      (binary64 (a * 100) < doubleLimit →
        ∃ cents : ℕ, (cents : ℤ) = mathRound (binary64 (a * 100)) ∧
          stored = .num (binary64 ((cents : ℚ) / 100)) ∧
          |(cents : ℚ) - 100 * a| ≤ 1 / 2 + 100 * a * 2 ^ (-53 : ℤ) + 2 ^ (-1075 : ℤ) ∧
          |binary64 ((cents : ℚ) / 100) - (cents : ℚ) / 100|
            ≤ (cents : ℚ) / 100 * 2 ^ (-53 : ℤ) ∧
          0 ≤ binary64 ((cents : ℚ) / 100) ∧
          |binary64 ((cents : ℚ) / 100) - a| ≤ 1 / 200 + (a + 1) * 2 ^ (-51 : ℤ)) ∧
      (∀ total, ExpenseTracker.updateTotal h xs = some total →
        ExpenseTracker.updateTotal h (xs ++ [.obj [("id", .str newId), ("name", .str name), ("amount", stored),
            ("category", .str category), ("date", .str now)]])
          = some (h.plus total stored)) ∧
      (∀ (amounts : List ℚ) (es : List JVal),
        es.map amountOf = amounts.map (fun x => some (JVal.num x)) →
        (∀ x ∈ amounts, 0 ≤ x) →
        (1 + 2 ^ (-53 : ℤ)) ^ amounts.length * (amounts.sum + 2 ^ (-1022 : ℤ)) < doubleLimit →
        ∃ t, ExpenseTracker.updateTotal h es = some (.num t) ∧ 0 ≤ t ∧
          |t - amounts.sum|
            ≤ ((1 + 2 ^ (-53 : ℤ)) ^ amounts.length - 1)
              * (amounts.sum + 2 ^ (-1022 : ℤ))) := by
  have hkind : (∃ s, ExpenseTracker.roundedAmount h a = .num s) ∨
      ExpenseTracker.roundedAmount h a = .inf false := by
    rcases le_or_lt doubleLimit (binary64 (a * 100)) with hbig | hsmall
    · exact Or.inr (roundedAmount_overflow h hfl a hbig)
    · obtain ⟨cents, _, hnum, _⟩ := roundedAmount_finite h hfl a ha hsmall
      exact Or.inl ⟨_, hnum⟩
  refine ⟨_, ExpenseTracker.roundedAmount h a,
    addExpense_accepted h newId now name category a xs w hname ha hitems, ?_, rfl,
    roundedAmount_overflow h hfl a, roundedAmount_finite h hfl a ha, ?_, ?_⟩
  · simp [EventBus.emit, BaseManager.render, AppState.save, arrayAt_setProp]
  · intro total htotal
    have hamount : amountOf (.obj [("id", .str newId), ("name", .str name),
        ("amount", ExpenseTracker.roundedAmount h a), ("category", .str category),
        ("date", .str now)]) = some (ExpenseTracker.roundedAmount h a) := by
      rcases hkind with ⟨s, hs⟩ | hinf
      · rw [hs]
        simp [amountOf, getProp]
      · rw [hinf]
        simp [amountOf, getProp]
    simp only [ExpenseTracker.updateTotal] at htotal ⊢
    rw [sumFrom_append h xs _ _ _ hamount, htotal]
    rfl
  · intro amounts es hes hnonneg hroom
    obtain ⟨t, ht, ht0, hterr⟩ := sumFrom_bound h hfl amounts es 0 hes hnonneg le_rfl
      (by simpa using hroom)
    refine ⟨t, ht, ht0, ?_⟩
    simpa using hterr

theorem expense_rounded_to_cents_witness :
    doubleHost.fl = binary64 ∧ "Spice" ≠ "" ∧ 0 < binary64 (3456 / 1000) ∧
    AppState.arrayAt ledgerWorld.app "expenses" = some ledgerExpenses ∧
    binary64 (346 / 100) = 3895613677675479 / 1125899906842624 ∧
    ∃ (w' : World) (stored : JVal),
      ExpenseTracker.addExpense doubleHost "e3" "2024-01-03T09:00:00.000Z" "Spice"
        (some (binary64 (3456 / 1000))) "Food" ledgerWorld = some w' ∧
      stored = .num (3895613677675479 / 1125899906842624) ∧
      ExpenseTracker.updateTotal doubleHost ledgerExpenses = some (.num (15 / 4)) ∧
      ExpenseTracker.updateTotal doubleHost
          (ledgerExpenses ++ [.obj [("id", .str "e3"), ("name", .str "Spice"),
            ("amount", stored), ("category", .str "Food"),
            ("date", .str "2024-01-03T09:00:00.000Z")]])
        = some (.num (8117738328335319 / 1125899906842624)) := by
  have h3456 : binary64 (3456 / 1000) = 7782220156096217 / 2251799813685248 := by
    rw [binary64_eq _ 1 7782220156096217 (by norm_num) (by norm_num [abs_of_pos])
      (by norm_num [abs_of_pos]) (by norm_num) (by norm_num)]
    norm_num
  have hprod : binary64 ((7782220156096217 : ℚ) / 2251799813685248 * 100)
      = 3039929748475085 / 8796093022208 := by
    rw [binary64_eq _ 8 6079859496950170 (by norm_num) (by norm_num [abs_of_pos])
      (by norm_num [abs_of_pos]) (by norm_num) (by norm_num)]
    norm_num
  have hround : mathRound (3039929748475085 / 8796093022208) = 346 := by
    unfold mathRound
    rw [Int.floor_eq_iff]
    constructor <;> norm_num
  have h346 : binary64 (346 / 100) = 3895613677675479 / 1125899906842624 := by
    rw [binary64_eq _ 1 7791227355350958 (by norm_num) (by norm_num [abs_of_pos])
      (by norm_num [abs_of_pos]) (by norm_num) (by norm_num)]
    norm_num
  have h52 : binary64 (0 + 5 / 2) = 5 / 2 := by
    rw [binary64_eq _ 1 5629499534213120 (by norm_num) (by norm_num [abs_of_pos])
      (by norm_num [abs_of_pos]) (by norm_num) (by norm_num)]
    norm_num
  have h154 : binary64 (5 / 2 + 5 / 4) = 15 / 4 := by
    rw [binary64_eq _ 1 8444249301319680 (by norm_num) (by norm_num [abs_of_pos])
      (by norm_num [abs_of_pos]) (by norm_num) (by norm_num)]
    norm_num
  have h721 : binary64 (15 / 4 + 3895613677675479 / 1125899906842624)
      = 8117738328335319 / 1125899906842624 := by
    rw [binary64_eq _ 2 8117738328335319 (by norm_num) (by norm_num [abs_of_pos])
      (by norm_num [abs_of_pos]) (by norm_num) (by norm_num)]
    norm_num
  have hlimit : ∀ x : ℚ, |x| ≤ 1000 → |x| < doubleLimit := by
    intro x hx
    have hbig : (1000 : ℚ) < doubleLimit := by
      unfold doubleLimit
      norm_num
    linarith
  have hnumber : ∀ x v : ℚ, binary64 x = v → |v| ≤ 1000 → doubleHost.number x = .num v := by
    intro x v hx hv
    have hlt : |doubleHost.fl x| < doubleLimit := by
      rw [show doubleHost.fl = binary64 from rfl, hx]
      exact hlimit v hv
    rw [number_of_lt doubleHost x hlt, show doubleHost.fl = binary64 from rfl, hx]
  have hbefore : ExpenseTracker.updateTotal doubleHost ledgerExpenses = some (.num (15 / 4)) := by
    have hstep1 : doubleHost.plus (.num 0) (.num (5 / 2)) = .num (5 / 2) :=
      hnumber _ _ h52 (by norm_num [abs_of_pos])
    have hstep2 : doubleHost.plus (.num (5 / 2)) (.num (5 / 4)) = .num (15 / 4) :=
      hnumber _ _ h154 (by norm_num [abs_of_pos])
    show ExpenseTracker.sumFrom doubleHost
      (doubleHost.plus (doubleHost.plus (.num 0) (.num (5 / 2))) (.num (5 / 4))) []
      = some (.num (15 / 4))
    rw [hstep1, hstep2]
    rfl
  refine ⟨rfl, by decide, by rw [h3456]; norm_num, rfl, h346, ?_⟩
  obtain ⟨w', stored, hadd, _, _, _, hfin, htotal, _⟩ :=
    expense_rounded_to_cents doubleHost "e3" "2024-01-03T09:00:00.000Z" "Spice" "Food"
      (binary64 (3456 / 1000)) ledgerExpenses ledgerWorld rfl (by decide)
      (by rw [h3456]; norm_num) rfl
  obtain ⟨cents, hcents, hnum, _⟩ := hfin (by
    rw [h3456, hprod]
    have hlt := hlimit (3039929748475085 / 8796093022208) (by norm_num [abs_of_pos])
    rwa [abs_of_pos (by norm_num)] at hlt)
  rw [h3456, hprod, hround] at hcents
  have hc : cents = 346 := by exact_mod_cast hcents
  subst hc
  have hstored : stored = .num (3895613677675479 / 1125899906842624) := by
    rw [hnum]
    congr 1
  refine ⟨w', stored, hadd, hstored, hbefore, ?_⟩
  rw [htotal _ hbefore, hstored]
  show some (doubleHost.number (15 / 4 + 3895613677675479 / 1125899906842624)) = _
  rw [hnumber _ _ h721 (by norm_num [abs_of_pos])]

end DailyHub

/-! ## Validation of the inputs -/

namespace DailyHub

/-- C18: `ExpenseTracker.addExpense` rejects the input exactly when the trimmed name is
empty, the amount is missing or not a number, or the amount is at most 0.  A rejected input
leaves `AppState` and the store as they were and adds a toast and nothing else to the
effects; an accepted one appends exactly one expense, then saves, renders and emits
`dataChanged`. -/
theorem expense_validation (h : Host) (newId now name category : String)
    (amount : Option ℚ) (xs : List JVal) (w : World)
    (hitems : AppState.arrayAt w.app "expenses" = some xs) :
    ((name = "" ∨ amount = none ∨ ∃ a, amount = some a ∧ a ≤ 0) →
      ∃ w', ExpenseTracker.addExpense h newId now name amount category w = some w' ∧
        w'.app = w.app ∧ w'.store = w.store ∧
        w'.log = w.log ++ [.toast "Please enter valid expense details" "error"]) ∧
    (¬(name = "" ∨ amount = none ∨ ∃ a, amount = some a ∧ a ≤ 0) →
      ∃ w' e, ExpenseTracker.addExpense h newId now name amount category w = some w' ∧
        AppState.arrayAt w'.app "expenses" = some (xs ++ [e]) ∧
        (xs ++ [e]).length = xs.length + 1 ∧
        w'.log = w.log ++ [.save, .render "expenses", .emit "dataChanged"]) := by
  constructor
  · intro hrej
    refine ⟨Utils.showToast "Please enter valid expense details" "error" w, ?_, rfl, rfl, rfl⟩
    cases amount with
    | none => rfl
    | some a =>
      have hcond : name = "" ∨ a ≤ 0 := by
        rcases hrej with hn | hnone | ⟨b, hb, hle⟩
        · exact Or.inl hn
        · cases hnone
        · cases hb
          exact Or.inr hle
      simp only [ExpenseTracker.addExpense, hcond, if_true]
  · intro hacc
    cases amount with
    | none => exact absurd (Or.inr (Or.inl rfl)) hacc
    | some a =>
      have hname : name ≠ "" := fun hn => hacc (Or.inl hn)
      have ha : 0 < a := by
        by_contra hle
        exact hacc (Or.inr (Or.inr ⟨a, rfl, not_lt.mp hle⟩))
      refine ⟨_, .obj [("id", .str newId), ("name", .str name),
          ("amount", ExpenseTracker.roundedAmount h a), ("category", .str category),
          ("date", .str now)],
        addExpense_accepted h newId now name category a xs w hname ha hitems, ?_, by simp, ?_⟩
      · simp [EventBus.emit, BaseManager.render, AppState.save, arrayAt_setProp]
      · simp [EventBus.emit, BaseManager.render, AppState.save]

theorem expense_validation_witness :
    AppState.arrayAt demoWorld.app "expenses"
      = some [.obj [("id", .str "e1"), ("name", .str "Coffee")]] ∧
    (∃ w', ExpenseTracker.addExpense plainHost "e2" "2024-01-03T09:00:00.000Z" "Tea"
        (some 0) "Food" demoWorld = some w' ∧
      w'.app = demoWorld.app ∧ w'.store = demoWorld.store ∧
      w'.log = demoWorld.log ++ [.toast "Please enter valid expense details" "error"]) ∧
    ∃ w' e, ExpenseTracker.addExpense plainHost "e2" "2024-01-03T09:00:00.000Z" "Tea"
        (some 2) "Food" demoWorld = some w' ∧
      AppState.arrayAt w'.app "expenses"
        = some ([.obj [("id", .str "e1"), ("name", .str "Coffee")]] ++ [e]) ∧
      ([JVal.obj [("id", .str "e1"), ("name", .str "Coffee")]] ++ [e]).length
        = [JVal.obj [("id", .str "e1"), ("name", .str "Coffee")]].length + 1 ∧
      w'.log = demoWorld.log ++ [.save, .render "expenses", .emit "dataChanged"] :=
  ⟨by decide,
    (expense_validation plainHost "e2" "2024-01-03T09:00:00.000Z" "Tea" "Food" (some 0)
      [.obj [("id", .str "e1"), ("name", .str "Coffee")]] demoWorld (by decide)).1
      (Or.inr (Or.inr ⟨0, rfl, le_rfl⟩)),
    (expense_validation plainHost "e2" "2024-01-03T09:00:00.000Z" "Tea" "Food" (some 2)
      [.obj [("id", .str "e1"), ("name", .str "Coffee")]] demoWorld (by decide)).2
      (by
        rintro (hn | hnone | ⟨a, ha, hle⟩)
        · exact absurd hn (by decide)
        · cases hnone
        · cases ha
          norm_num at hle)⟩

/-- C19: `BookmarkManager.addBookmark` leaves `AppState` and the store as they were, with
an error toast as its only effect, whenever the trimmed title or URL is empty or the URL
does not parse; when both are non-empty and the URL parses it appends exactly one
bookmark with the given title, URL and category. -/
theorem bookmark_validation (h : Host) (urlParses : String → Bool)
    (newId now title url category : String) (L : Collection) (w : World)
    (hitems : BaseManager.items w.app "bookmarks" = some (L.map .obj)) :
    ((title = "" ∨ url = "" ∨ urlParses url = false) →
      ∃ w' message, BookmarkManager.addBookmark h urlParses newId now title url category w
          = some w' ∧
        w'.app = w.app ∧ w'.store = w.store ∧
        w'.log = w.log ++ [.toast message "error"]) ∧
    (title ≠ "" → url ≠ "" → urlParses url = true →
      ∃ w' R, BookmarkManager.addBookmark h urlParses newId now title url category w
          = some w' ∧
        BaseManager.items w'.app "bookmarks" = some ((L ++ [R]).map .obj) ∧
        (L ++ [R]).length = L.length + 1 ∧
        getProp R "title" = some (.str title) ∧
        getProp R "url" = some (.str url) ∧
        getProp R "category" = some (.str category) ∧
        w'.log = w.log ++ [.save, .render "bookmarks", .emit "dataChanged"]) := by
  constructor
  · intro hrej
    by_cases hempty : title = "" ∨ url = ""
    · exact ⟨Utils.showToast "Please enter both title and URL" "error" w,
        "Please enter both title and URL",
        by simp only [BookmarkManager.addBookmark, hempty, if_true], rfl, rfl, rfl⟩
    · have hparse : urlParses url = false := by
        rcases hrej with ht | hu | hp
        · exact absurd (Or.inl ht) hempty
        · exact absurd (Or.inr hu) hempty
        · exact hp
      exact ⟨Utils.showToast "Please enter a valid URL" "error" w, "Please enter a valid URL",
        by simp [BookmarkManager.addBookmark, hempty, hparse], rfl, rfl, rfl⟩
  · intro htitle hurl hparse
    have hempty : ¬(title = "" ∨ url = "") := by
      rintro (ht | hu)
      · exact htitle ht
      · exact hurl hu
    refine ⟨EventBus.emit "dataChanged" (BaseManager.render "bookmarks" (AppState.save h
        { w with app := (setProp w.app "bookmarks" (.arr (L.map .obj ++
          [.obj [("title", .str title), ("url", .str url), ("category", .str category),
            ("id", .str newId), ("createdAt", .str now)]]))) })),
      [("title", .str title), ("url", .str url), ("category", .str category),
        ("id", .str newId), ("createdAt", .str now)], ?_, ?_, by simp, ?_, ?_, ?_, ?_⟩
    · simp only [BookmarkManager.addBookmark, hempty, hparse, BaseManager.add, hitems]
      simp [setProp]
    · simp [EventBus.emit, BaseManager.render, AppState.save, items_setProp]
    · simp [getProp]
    · simp [getProp]
    · simp [getProp]
    · simp [EventBus.emit, BaseManager.render, AppState.save]

theorem bookmark_validation_witness :
    BaseManager.items freshWorld.app "bookmarks" = some (([] : Collection).map .obj) ∧
    (∃ w' message, BookmarkManager.addBookmark plainHost httpsOnly
        "b1" "2024-01-03T09:00:00.000Z" "Docs" "not-a-url" "Work" freshWorld = some w' ∧
      w'.app = freshWorld.app ∧ w'.store = freshWorld.store ∧
      w'.log = freshWorld.log ++ [.toast message "error"]) ∧
    ∃ w' R, BookmarkManager.addBookmark plainHost httpsOnly
        "b1" "2024-01-03T09:00:00.000Z" "Docs" "https://example.com" "Work" freshWorld
        = some w' ∧
      BaseManager.items w'.app "bookmarks" = some (([] ++ [R]).map .obj) ∧
      ([] ++ [R]).length = ([] : Collection).length + 1 ∧
      getProp R "title" = some (.str "Docs") ∧
      getProp R "url" = some (.str "https://example.com") ∧
      getProp R "category" = some (.str "Work") ∧
      w'.log = freshWorld.log ++ [.save, .render "bookmarks", .emit "dataChanged"] :=
  ⟨by decide,
    (bookmark_validation plainHost httpsOnly "b1"
      "2024-01-03T09:00:00.000Z" "Docs" "not-a-url" "Work" [] freshWorld (by decide)).1
      (Or.inr (Or.inr (by decide))),
    (bookmark_validation plainHost httpsOnly "b1"
      "2024-01-03T09:00:00.000Z" "Docs" "https://example.com" "Work" [] freshWorld
      (by decide)).2 (by decide) (by decide) (by decide)⟩

/-- C20: for a notes collection `L` and an input whose trimmed title or trimmed content is
not empty, `NotesManager.addNote` leaves the new note followed by `L`, unchanged and in
order; the title of the new note is the trimmed title, or `'Untitled Note'` when that is
empty.  When both are empty `AppState` and the store are as they were. -/
theorem addNote_newest_first (h : Host) (newId now title content : String)
    (L : Collection) (w : World)
    (hitems : BaseManager.items w.app "notes" = some (L.map .obj)) :
    (¬(title = "" ∧ content = "") →
      ∃ w' N, NotesManager.addNote h newId now title content w = some w' ∧
        BaseManager.items w'.app "notes" = some ((N :: L).map .obj) ∧
        getProp N "title" = some (.str (if title = "" then "Untitled Note" else title)) ∧
        getProp N "content" = some (.str content) ∧
        getProp N "id" = some (.str newId) ∧
        getProp N "createdAt" = some (.str now)) ∧
    (title = "" ∧ content = "" →
      ∃ w', NotesManager.addNote h newId now title content w = some w' ∧
        w'.app = w.app ∧ w'.store = w.store ∧
        BaseManager.items w'.app "notes" = some (L.map .obj)) := by
  constructor
  · intro haccepted
    refine ⟨_, [("id", .str newId),
        ("title", .str (if title = "" then "Untitled Note" else title)),
        ("content", .str content), ("createdAt", .str now)],
      by simp only [NotesManager.addNote, haccepted, hitems, if_false]; rfl, ?_, ?_, ?_, ?_, ?_⟩
    · simp [EventBus.emit, BaseManager.render, AppState.save, Utils.showToast, items_setProp]
    · simp [getProp]
    · simp [getProp]
    · simp [getProp]
    · simp [getProp]
  · intro hempty
    exact ⟨Utils.showToast "Please enter a title or content" "warning" w,
      by simp only [NotesManager.addNote, hempty, and_self, if_true], rfl, rfl, hitems⟩

theorem addNote_newest_first_witness :
    BaseManager.items demoWorld.app "notes"
      = some ([[("id", JVal.str "n1"), ("title", JVal.str "Ideas")]].map .obj) ∧
    ∃ w' N, NotesManager.addNote plainHost "n2" "2024-01-03T09:00:00.000Z" "" "Buy milk"
        demoWorld = some w' ∧
      BaseManager.items w'.app "notes"
        = some ((N :: [[("id", JVal.str "n1"), ("title", JVal.str "Ideas")]]).map .obj) ∧
      getProp N "title"
        = some (.str (if ("" : String) = "" then "Untitled Note" else "")) ∧
      getProp N "content" = some (.str "Buy milk") ∧
      getProp N "id" = some (.str "n2") ∧
      getProp N "createdAt" = some (.str "2024-01-03T09:00:00.000Z") :=
  ⟨by decide,
    (addNote_newest_first plainHost "n2" "2024-01-03T09:00:00.000Z" "" "Buy milk"
      [[("id", JVal.str "n1"), ("title", JVal.str "Ideas")]] demoWorld (by decide)).1
      (by decide)⟩

end DailyHub

/-! ## Escaping of markup -/

namespace DailyHub

theorem escapeChar_no_markup (c d : Char) (hd : d ∈ escapeChar c) :
    d ≠ '<' ∧ d ≠ '>' ∧ d ≠ '"' ∧ d ≠ '\'' := by
  unfold escapeChar at hd
  split_ifs at hd with h1 h2 h3 h4 h5
  · exact (by decide : ∀ e ∈ ['&', 'a', 'm', 'p', ';'],
      e ≠ '<' ∧ e ≠ '>' ∧ e ≠ '"' ∧ e ≠ '\'') d hd
  · exact (by decide : ∀ e ∈ ['&', 'l', 't', ';'],
      e ≠ '<' ∧ e ≠ '>' ∧ e ≠ '"' ∧ e ≠ '\'') d hd
  · exact (by decide : ∀ e ∈ ['&', 'g', 't', ';'],
      e ≠ '<' ∧ e ≠ '>' ∧ e ≠ '"' ∧ e ≠ '\'') d hd
  · exact (by decide : ∀ e ∈ ['&', 'q', 'u', 'o', 't', ';'],
      e ≠ '<' ∧ e ≠ '>' ∧ e ≠ '"' ∧ e ≠ '\'') d hd
  · exact (by decide : ∀ e ∈ ['&', '#', '0', '3', '9', ';'],
      e ≠ '<' ∧ e ≠ '>' ∧ e ≠ '"' ∧ e ≠ '\'') d hd
  · rw [List.mem_singleton] at hd
    subst hd
    exact ⟨h2, h3, h4, h5⟩

theorem escapeChar_of_plain (c : Char) (hamp : c ≠ '&') (hlt : c ≠ '<') (hgt : c ≠ '>')
    (hquot : c ≠ '"') (hapos : c ≠ '\'') : escapeChar c = [c] := by
  simp [escapeChar, hamp, hlt, hgt, hquot, hapos]

theorem escapeChar_append_inj (c d : Char) (x y : List Char)
    (heq : escapeChar c ++ x = escapeChar d ++ y) : c = d ∧ x = y := by
  unfold escapeChar at heq
  split_ifs at heq <;> simp_all
  all_goals (obtain ⟨hfirst, _⟩ := heq; subst hfirst; simp_all)

theorem escapeChar_ne_nil (c : Char) (x : List Char) : escapeChar c ++ x ≠ [] := by
  unfold escapeChar
  split_ifs <;> simp

theorem escapeChars_injective (a b : List Char) (heq : escapeChars a = escapeChars b) :
    a = b := by
  induction a generalizing b with
  | nil =>
    cases b with
    | nil => rfl
    | cons d ds => exact absurd heq.symm (escapeChar_ne_nil d _)
  | cons c cs ih =>
    cases b with
    | nil => exact absurd heq (escapeChar_ne_nil c _)
    | cons d ds =>
      obtain ⟨hc, hrest⟩ := escapeChar_append_inj c d _ _ heq
      rw [hc, ih ds hrest]

theorem ampersands_append_escapeChar (c : Char) (x : List Char) :
    ampersandsBeginEntities (escapeChar c ++ x) = ampersandsBeginEntities x := by
  unfold escapeChar
  split_ifs with h1 h2 h3 h4 h5
  · simp [ampersandsBeginEntities, entityTails, List.isPrefixOf]
  · simp [ampersandsBeginEntities, entityTails, List.isPrefixOf]
  · simp [ampersandsBeginEntities, entityTails, List.isPrefixOf]
  · simp [ampersandsBeginEntities, entityTails, List.isPrefixOf]
  · simp [ampersandsBeginEntities, entityTails, List.isPrefixOf]
  · simp [ampersandsBeginEntities, h1]

theorem ampersands_iff (l : List Char) :
    ampersandsBeginEntities l = true ↔
      ∀ before after, l = before ++ '&' :: after →
        ∃ tail ∈ entityTails, ∃ more, after = tail ++ more := by
  induction l with
  | nil =>
    constructor
    · intro _ before after hsplit
      cases before <;> simp at hsplit
    · intro _
      rfl
  | cons c rest ih =>
    constructor
    · intro hok before after hsplit
      simp only [ampersandsBeginEntities, Bool.and_eq_true, Bool.or_eq_true] at hok
      cases before with
      | nil =>
        simp only [List.nil_append, List.cons.injEq] at hsplit
        obtain ⟨hc, hrest⟩ := hsplit
        subst hc hrest
        rcases hok.1 with hne | hany
        · simp at hne
        · obtain ⟨tail, htail, hprefix⟩ := List.any_eq_true.mp hany
          obtain ⟨more, hmore⟩ := List.isPrefixOf_iff_prefix.mp hprefix
          exact ⟨tail, htail, more, hmore.symm⟩
      | cons b before' =>
        simp only [List.cons_append, List.cons.injEq] at hsplit
        exact (ih.mp hok.2) before' after hsplit.2
    · intro hall
      simp only [ampersandsBeginEntities, Bool.and_eq_true, Bool.or_eq_true]
      constructor
      · by_cases hc : c = '&'
        · right
          subst hc
          obtain ⟨tail, htail, more, hmore⟩ := hall [] rest rfl
          exact List.any_eq_true.mpr ⟨tail, htail, List.isPrefixOf_iff_prefix.mpr ⟨more, hmore.symm⟩⟩
        · left
          simpa using hc
      · apply ih.mpr
        intro before after hsplit
        exact hall (c :: before) after (by rw [hsplit]; rfl)

/-- C28: for every string, the output of `Utils.escapeHtml` contains none of the
characters `<`, `>`, `"` and `'`, every `&` of the output is followed by the rest of one
of the five entities `&amp;` `&lt;` `&gt;` `&quot;` `&#039;`, a string without the five
special characters is returned unchanged, and distinct inputs give distinct outputs. -/
theorem escapeHtml_neutralises (text : String) :
    (∀ c ∈ (Utils.escapeHtml text).data, c ≠ '<' ∧ c ≠ '>' ∧ c ≠ '"' ∧ c ≠ '\'') ∧
    (∀ before after, (Utils.escapeHtml text).data = before ++ '&' :: after →
      ∃ tail ∈ entityTails, ∃ more, after = tail ++ more) ∧
    ((∀ c ∈ text.data, c ≠ '&' ∧ c ≠ '<' ∧ c ≠ '>' ∧ c ≠ '"' ∧ c ≠ '\'') →
      Utils.escapeHtml text = text) ∧
    (∀ other, Utils.escapeHtml text = Utils.escapeHtml other → text = other) := by
  obtain ⟨chars⟩ := text
  refine ⟨?_, ?_, ?_, ?_⟩
  · show ∀ c ∈ escapeChars chars, _
    induction chars with
    | nil => simp [escapeChars]
    | cons c rest ih =>
      intro d hd
      rcases List.mem_append.mp hd with hd | hd
      · exact escapeChar_no_markup c d hd
      · exact ih d hd
  · apply (ampersands_iff _).mp
    show ampersandsBeginEntities (escapeChars chars) = true
    induction chars with
    | nil => rfl
    | cons c rest ih =>
      rw [escapeChars, ampersands_append_escapeChar]
      exact ih
  · intro hplain
    show String.mk (escapeChars chars) = String.mk chars
    congr 1
    induction chars with
    | nil => rfl
    | cons c rest ih =>
      obtain ⟨h1, h2, h3, h4, h5⟩ := hplain c (List.mem_cons_self _ _)
      rw [escapeChars, escapeChar_of_plain c h1 h2 h3 h4 h5,
        ih (fun d hd => hplain d (List.mem_cons_of_mem _ hd))]
      rfl
  · intro other heq
    obtain ⟨others⟩ := other
    have hdata : escapeChars chars = escapeChars others := congrArg String.data heq
    rw [escapeChars_injective chars others hdata]

end DailyHub

/-! ## Favorite quotes -/

namespace DailyHub

theorem someText_present (L : Collection) (text : String)
    (hpresent : ∃ r ∈ L, getProp r "text" = some (.str text)) :
    someText (L.map .obj) text = some true := by
  induction L with
  | nil => simp at hpresent
  | cons a rest ih =>
    by_cases ha : getProp a "text" = some (.str text)
    · simp [someText, ha]
    · have hrest : ∃ r ∈ rest, getProp r "text" = some (.str text) := by
        obtain ⟨r, hr, hrt⟩ := hpresent
        rcases List.mem_cons.mp hr with rfl | hr
        · exact absurd hrt ha
        · exact ⟨r, hr, hrt⟩
      simp [someText, ha, ih hrest]

theorem someText_absent (L : Collection) (text : String)
    (habsent : ∀ r ∈ L, getProp r "text" ≠ some (.str text)) :
    someText (L.map .obj) text = some false := by
  induction L with
  | nil => rfl
  | cons a rest ih =>
    have ha := habsent a (List.mem_cons_self _ _)
    simp [someText, ha, ih (fun r hr => habsent r (List.mem_cons_of_mem _ hr))]

/-- C21: on favorite quotes whose texts are pairwise distinct, favoriting a quote whose
text is present leaves `AppState` and the store as they were; favoriting an absent one
appends exactly one record with that text, and the texts are still pairwise distinct;
`removeFromFavorites` keeps the records with another id, in order, and the texts are still
pairwise distinct; without a current quote `addToFavorites` does nothing. -/
theorem favorites_deduplicated (h : Host) (newId quoteId : String) (quote : Quote)
    (L : Collection) (w : World)
    (hitems : AppState.arrayAt w.app "favoriteQuotes" = some (L.map .obj))
    (hdistinct : L.Pairwise (fun a b => getProp a "text" ≠ getProp b "text")) :
    ((∃ r ∈ L, getProp r "text" = some (.str quote.text)) →
      ∃ w', QuotesManager.addToFavorites h newId (some quote) w = some w' ∧
        w'.app = w.app ∧ w'.store = w.store ∧
        AppState.arrayAt w'.app "favoriteQuotes" = some (L.map .obj)) ∧
    ((∀ r ∈ L, getProp r "text" ≠ some (.str quote.text)) →
      ∃ (w' : World) (R : Record),
        QuotesManager.addToFavorites h newId (some quote) w = some w' ∧
        AppState.arrayAt w'.app "favoriteQuotes" = some ((L ++ [R]).map .obj) ∧
        (L ++ [R]).length = L.length + 1 ∧
        getProp R "text" = some (.str quote.text) ∧
        getProp R "author" = some (.str quote.author) ∧
        (L ++ [R]).Pairwise (fun a b => getProp a "text" ≠ getProp b "text")) ∧
    (∃ (w' : World) (L' : Collection),
      QuotesManager.removeFromFavorites h quoteId w = some w' ∧
      AppState.arrayAt w'.app "favoriteQuotes" = some (L'.map .obj) ∧
      L' = L.filter (fun r => decide (getProp r "id" ≠ some (.str quoteId))) ∧
      L'.Pairwise (fun a b => getProp a "text" ≠ getProp b "text")) ∧
    QuotesManager.addToFavorites h newId none w = some w := by
  refine ⟨?_, ?_, ?_, rfl⟩
  · intro hpresent
    refine ⟨Utils.showToast "Already in favorites!" "warning" w, ?_, rfl, rfl, hitems⟩
    simp only [QuotesManager.addToFavorites, hitems, someText_present L quote.text hpresent]
  · intro habsent
    refine ⟨BaseManager.render "favoriteQuotes" (Utils.showToast "Added to favorites!" "success"
        (AppState.save h { w with app := (setProp w.app "favoriteQuotes" (.arr (L.map .obj ++
          [.obj [("id", .str newId), ("text", .str quote.text),
            ("author", .str quote.author)]]))) })),
      [("id", .str newId), ("text", .str quote.text), ("author", .str quote.author)],
      ?_, ?_, by simp, by simp [getProp], by simp [getProp], ?_⟩
    · simp only [QuotesManager.addToFavorites, hitems, someText_absent L quote.text habsent]
    · simp [BaseManager.render, Utils.showToast, AppState.save, arrayAt_setProp]
    · rw [List.pairwise_append]
      refine ⟨hdistinct, List.pairwise_singleton _ _, ?_⟩
      intro a ha b hb
      rw [List.mem_singleton] at hb
      subst hb
      simpa [getProp] using habsent a ha
  · refine ⟨BaseManager.render "favoriteQuotes" (AppState.save h
        { w with app := (setProp w.app "favoriteQuotes"
          (.arr ((L.filter (fun r => decide (getProp r "id" ≠ some (.str quoteId)))).map .obj))) }),
      L.filter (fun r => decide (getProp r "id" ≠ some (.str quoteId))), ?_, ?_, rfl,
      hdistinct.sublist (List.filter_sublist L)⟩
    · simp only [QuotesManager.removeFromFavorites, hitems, Option.bind, filterOutId_records]
    · simp [BaseManager.render, AppState.save, arrayAt_setProp]

theorem favorites_deduplicated_witness :
    AppState.arrayAt quotesWorld.app "favoriteQuotes" = some (demoFavorites.map .obj) ∧
    demoFavorites.Pairwise (fun a b => getProp a "text" ≠ getProp b "text") ∧
    (∃ r ∈ demoFavorites, getProp r "text" = some (.str "Begin.")) ∧
    ∃ w', QuotesManager.addToFavorites plainHost "q3"
        (some { text := "Begin.", author := "Tony Robbins" }) quotesWorld = some w' ∧
      w'.app = quotesWorld.app ∧ w'.store = quotesWorld.store ∧
      AppState.arrayAt w'.app "favoriteQuotes" = some (demoFavorites.map .obj) :=
  ⟨by decide, by decide, by decide,
    (favorites_deduplicated plainHost "q3" "q1" { text := "Begin.", author := "Tony Robbins" }
      demoFavorites quotesWorld (by decide) (by decide)).1 (by decide)⟩

end DailyHub

/-! ## Water intake -/

namespace DailyHub

/-- C22, a write that fails: with the storage full, `WaterTracker.init` on the state of the
day before resets the state it keeps, but the store still holds the text of the day
before, and that is what the next load reads. -/
theorem water_reset_on_full_storage :
    ∃ state' st', WaterTracker.init fullDiaryHost "Mon Jan 01 2024"
        [("waterIntake", waterYesterdayText)] = some (state', st') ∧
      state' = [("cups", .num 0), ("dailyGoal", .num 8), ("lastReset", .str "Mon Jan 01 2024")] ∧
      st' = [("waterIntake", waterYesterdayText)] ∧
      Utils.loadFromStorage fullDiaryHost st' "waterIntake" .null = .obj waterYesterday := by
  refine ⟨_, _, by decide, rfl, rfl, by decide⟩

/-- C22 (amended): for a loaded water state whose `lastReset` is not today's date string,
`WaterTracker.init` leaves a state with `cups` 0 and `lastReset` today, `dailyGoal` and
every other property unchanged, and when the browser accepts the write that state is what
is stored under `'waterIntake'`; when `lastReset` is today, `init` leaves the state and
the store as they were. -/
theorem water_resets_on_new_day (h : Host) (today : String) (st : Store) (state : Record)
    (hloaded : Utils.loadFromStorage h st "waterIntake"
      (.obj [("cups", .num 0), ("dailyGoal", .num 8), ("lastReset", .str today)])
      = .obj state) :
    (getProp state "lastReset" ≠ some (.str today) →
      ∃ state' st', WaterTracker.init h today st = some (state', st') ∧
        getProp state' "cups" = some (.num 0) ∧
        getProp state' "lastReset" = some (.str today) ∧
        getProp state' "dailyGoal" = getProp state "dailyGoal" ∧
        (∀ k, k ≠ "cups" → k ≠ "lastReset" → getProp state' k = getProp state k) ∧
        (h.setItem st "waterIntake" (h.stringify (.obj state')) ≠ none →
          Store.lookup st' "waterIntake" = some (h.stringify (.obj state')))) ∧
    (getProp state "lastReset" = some (.str today) →
      WaterTracker.init h today st = some (state, st)) := by
  constructor
  · intro hold
    refine ⟨setProp (setProp state "cups" (.num 0)) "lastReset" (.str today),
      WaterTracker.save h (setProp (setProp state "cups" (.num 0)) "lastReset" (.str today)) st,
      ?_, ?_, ?_, ?_, ?_, ?_⟩
    · simp only [WaterTracker.init, hloaded, hold, ne_eq, not_false_eq_true, if_true]
    · rw [getProp_setProp_other _ _ _ _ (by decide), getProp_setProp_same]
    · exact getProp_setProp_same _ _ _
    · rw [getProp_setProp_other _ _ _ _ (by decide), getProp_setProp_other _ _ _ _ (by decide)]
    · intro k hcups hreset
      rw [getProp_setProp_other _ _ _ _ hreset, getProp_setProp_other _ _ _ _ hcups]
    · intro hok
      simp [WaterTracker.save, Utils.saveToStorage, (setItem_ne_none hok).2, lookup_insert_same]
  · intro hsame
    simp only [WaterTracker.init, hloaded, hsame, ne_eq, not_true_eq_false, if_false]

theorem water_resets_on_new_day_witness :
    Utils.loadFromStorage diaryHost [("waterIntake", waterYesterdayText)] "waterIntake"
      (.obj [("cups", .num 0), ("dailyGoal", .num 8), ("lastReset", .str "Mon Jan 01 2024")])
      = .obj waterYesterday ∧
    getProp waterYesterday "lastReset" ≠ some (.str "Mon Jan 01 2024") ∧
    ∃ state' st', WaterTracker.init diaryHost "Mon Jan 01 2024"
        [("waterIntake", waterYesterdayText)] = some (state', st') ∧
      getProp state' "cups" = some (.num 0) ∧
      getProp state' "lastReset" = some (.str "Mon Jan 01 2024") ∧
      getProp state' "dailyGoal" = getProp waterYesterday "dailyGoal" ∧
      (∀ k, k ≠ "cups" → k ≠ "lastReset" → getProp state' k = getProp waterYesterday k) ∧
      (diaryHost.setItem [("waterIntake", waterYesterdayText)] "waterIntake"
          (diaryHost.stringify (.obj state')) ≠ none →
        Store.lookup st' "waterIntake" = some (diaryHost.stringify (.obj state'))) :=
  ⟨by decide, by decide,
    (water_resets_on_new_day diaryHost "Mon Jan 01 2024" [("waterIntake", waterYesterdayText)]
      waterYesterday (by decide)).1 (by decide)⟩

end DailyHub

/-! ## Cups and the daily goal -/

namespace DailyHub

/-- C27: on a water state whose `cups` and `dailyGoal` are whole numbers, `addWater`
raises `cups` by exactly 1 when `cups < dailyGoal` (the increment being exact) and
changes nothing otherwise, `reset` sets `cups` to 0, neither changes `dailyGoal` or
`lastReset`, and both preserve `0 ≤ cups ≤ dailyGoal`. -/
theorem water_cups_within_goal (h : Host) (st : Store) (state : Record) (cups goal : ℤ)
    (hcups : getProp state "cups" = some (.num (cups : ℚ)))
    (hgoal : getProp state "dailyGoal" = some (.num (goal : ℚ)))
    (hexact : h.fl ((cups : ℚ) + 1) = (cups : ℚ) + 1) :
    (∃ state' st', WaterTracker.addWater h state st = some (state', st') ∧
      (cups < goal → getProp state' "cups" = some (.num ((cups + 1 : ℤ) : ℚ))) ∧
      (¬ cups < goal → state' = state ∧ st' = st) ∧
      getProp state' "dailyGoal" = getProp state "dailyGoal" ∧
      getProp state' "lastReset" = getProp state "lastReset" ∧
      (0 ≤ cups → cups ≤ goal →
        ∃ cups' : ℤ, getProp state' "cups" = some (.num (cups' : ℚ)) ∧
          0 ≤ cups' ∧ cups' ≤ goal)) ∧
    (getProp (WaterTracker.reset h state st).1 "cups" = some (.num 0) ∧
      getProp (WaterTracker.reset h state st).1 "dailyGoal" = getProp state "dailyGoal" ∧
      getProp (WaterTracker.reset h state st).1 "lastReset" = getProp state "lastReset" ∧
      (0 ≤ cups → cups ≤ goal →
        ∃ cups' : ℤ, getProp (WaterTracker.reset h state st).1 "cups"
            = some (.num (cups' : ℚ)) ∧ 0 ≤ cups' ∧ cups' ≤ goal)) := by
  constructor
  · by_cases hlt : cups < goal
    · have hltq : (cups : ℚ) < (goal : ℚ) := by exact_mod_cast hlt
      refine ⟨setProp state "cups" (.num (h.fl ((cups : ℚ) + 1))),
        WaterTracker.save h (setProp state "cups" (.num (h.fl ((cups : ℚ) + 1)))) st,
        ?_, ?_, ?_, ?_, ?_, ?_⟩
      · simp only [WaterTracker.addWater, hcups, hgoal, hltq, if_true]
      · intro _
        rw [getProp_setProp_same, hexact]
        push_cast
        rfl
      · intro hnot
        exact absurd hlt hnot
      · exact getProp_setProp_other _ _ _ _ (by decide)
      · exact getProp_setProp_other _ _ _ _ (by decide)
      · intro h0 _
        refine ⟨cups + 1, ?_, by omega, by omega⟩
        rw [getProp_setProp_same, hexact]
        push_cast
        rfl
    · have hltq : ¬ (cups : ℚ) < (goal : ℚ) := by exact_mod_cast hlt
      refine ⟨state, st, ?_, ?_, ?_, rfl, rfl, ?_⟩
      · simp only [WaterTracker.addWater, hcups, hgoal, hltq, if_false]
      · intro hlt'
        exact absurd hlt' hlt
      · intro _
        exact ⟨rfl, rfl⟩
      · intro h0 hle
        exact ⟨cups, hcups, h0, hle⟩
  · refine ⟨getProp_setProp_same _ _ _, getProp_setProp_other _ _ _ _ (by decide),
      getProp_setProp_other _ _ _ _ (by decide), ?_⟩
    intro h0 hle
    refine ⟨0, ?_, le_rfl, by omega⟩
    simp [WaterTracker.reset, getProp_setProp_same]

theorem water_cups_within_goal_witness :
    getProp [("cups", JVal.num 7), ("dailyGoal", .num 8), ("lastReset", .str "Mon Jan 01 2024")]
      "cups" = some (.num ((7 : ℤ) : ℚ)) ∧
    getProp [("cups", JVal.num 7), ("dailyGoal", .num 8), ("lastReset", .str "Mon Jan 01 2024")]
      "dailyGoal" = some (.num ((8 : ℤ) : ℚ)) ∧
    plainHost.fl (((7 : ℤ) : ℚ) + 1) = ((7 : ℤ) : ℚ) + 1 ∧
    ∃ state' st', WaterTracker.addWater plainHost
        [("cups", .num 7), ("dailyGoal", .num 8), ("lastReset", .str "Mon Jan 01 2024")] []
        = some (state', st') ∧
      getProp state' "cups" = some (.num (((7 : ℤ) + 1 : ℤ) : ℚ)) := by
  have hcups : getProp [("cups", JVal.num 7), ("dailyGoal", .num 8),
      ("lastReset", .str "Mon Jan 01 2024")] "cups" = some (.num ((7 : ℤ) : ℚ)) := by
    simp [getProp]
  have hgoal : getProp [("cups", JVal.num 7), ("dailyGoal", .num 8),
      ("lastReset", .str "Mon Jan 01 2024")] "dailyGoal" = some (.num ((8 : ℤ) : ℚ)) := by
    simp [getProp]
  obtain ⟨state', st', hadd, hplus, _⟩ :=
    (water_cups_within_goal plainHost []
      [("cups", .num 7), ("dailyGoal", .num 8), ("lastReset", .str "Mon Jan 01 2024")] 7 8
      hcups hgoal rfl).1
  exact ⟨hcups, hgoal, rfl, state', st', hadd, hplus (by norm_num)⟩

end DailyHub

/-! ## Reading progress and the forecast -/

namespace DailyHub

theorem clampedProgress_of_number (p : ℤ) :
    ∃ q : ℤ, ReadingList.clampedProgress (some p) = .num (q : ℚ) ∧ 0 ≤ q ∧ q ≤ 100 :=
  ⟨min 100 (max 0 p), rfl, by omega, by omega⟩

/-- C26, an input that is no number: the progress field cleared, `parseInt('')` is `NaN`,
and `updateProgress` stores `NaN` as the progress of the book. -/
theorem reading_progress_not_a_number :
    ∃ books' st', ReadingList.updateProgress plainHost "b1" none [.obj demoBook] []
        = some (books', st') ∧
      books' = [.obj [("id", .str "b1"), ("title", .str "Dune"),
        ("author", .str "Frank Herbert"), ("progress", .nan)]] ∧
      ¬ ∃ q : ℤ, getProp [("id", JVal.str "b1"), ("title", .str "Dune"),
        ("author", .str "Frank Herbert"), ("progress", .nan)] "progress"
          = some (.num (q : ℚ)) := by
  refine ⟨_, _, rfl, by decide, ?_⟩
  rintro ⟨q, hq⟩
  simp [getProp] at hq

theorem forecastIndices_in_bounds (daily : Daily) (hlong : 6 ≤ daily.time.length) :
    ∀ i ∈ WeatherManager.forecastIndices daily, i < daily.time.length := by
  intro i hi
  simp only [WeatherManager.forecastIndices, List.mem_map, List.mem_range] at hi
  obtain ⟨j, hj, rfl⟩ := hi
  omega

/-- C25, a forecast of three days: the loop runs with `i` = 1, 2, 3, the entries at index
3 are missing from all four arrays, and `renderForecast` throws on `maxTemp.toFixed`. -/
theorem forecast_reads_past_the_end :
    threeDays.time.length = 3 ∧ threeDays.weathercode.length = 3 ∧
    threeDays.temperature_2m_max.length = 3 ∧ threeDays.temperature_2m_min.length = 3 ∧
    WeatherManager.forecastIndices threeDays = [1, 2, 3] ∧
    WeatherManager.readDay threeDays 3
      = { time := none, code := none, maxTemp := none, minTemp := none } ∧
    WeatherManager.renderForecast threeDays = none := by
  refine ⟨rfl, rfl, rfl, rfl, by decide, by decide, by decide⟩

end DailyHub

/-! ## Pomodoro timer -/

namespace DailyHub

theorem clearInterval_single (handle : Nat) : clearInterval (some handle) [handle] = [] := by
  simp [clearInterval]

theorem clearInterval_nil (handle : Option Nat) : clearInterval handle [] = [] := by
  cases handle <;> simp [clearInterval]

theorem oneLive_reset (work : ℚ) (p : Pomodoro) (hinv : PomodoroTimer.OneLiveInterval p) :
    (PomodoroTimer.reset work p).live = [] ∧ (PomodoroTimer.reset work p).isRunning = false := by
  refine ⟨?_, rfl⟩
  cases hrun : p.isRunning with
  | true =>
    obtain ⟨handle, hlive, htimer⟩ := hinv.1 hrun
    simp [PomodoroTimer.reset, hlive, htimer, clearInterval_single]
  | false =>
    simp [PomodoroTimer.reset, hinv.2 hrun, clearInterval_nil]

theorem oneLive_of_stopped (p : Pomodoro) (hlive : p.live = []) (hrun : p.isRunning = false) :
    PomodoroTimer.OneLiveInterval p :=
  ⟨fun h => absurd (hrun.symm.trans h) (by decide), fun _ => hlive⟩

theorem pause_of_stopped (p : Pomodoro) (hstopped : p.isRunning = false) :
    PomodoroTimer.pause p = p := by
  simp [PomodoroTimer.pause, hstopped]

theorem oneLive_pause (p : Pomodoro) (hinv : PomodoroTimer.OneLiveInterval p) :
    (PomodoroTimer.pause p).live = [] ∧ (PomodoroTimer.pause p).isRunning = false := by
  cases hrun : p.isRunning with
  | true =>
    obtain ⟨handle, hlive, htimer⟩ := hinv.1 hrun
    simp [PomodoroTimer.pause, hrun, hlive, htimer, clearInterval_single]
  | false =>
    simp [PomodoroTimer.pause, hrun, hinv.2 hrun]

theorem oneLive_start (work : ℚ) (p : Pomodoro) (hinv : PomodoroTimer.OneLiveInterval p) :
    PomodoroTimer.OneLiveInterval (PomodoroTimer.start work p) := by
  cases hrun : p.isRunning with
  | true => simpa [PomodoroTimer.start, hrun] using hinv
  | false =>
    have hlive := hinv.2 hrun
    by_cases hzero : p.remainingSeconds = 0
    · have hreset := oneLive_reset work p hinv
      refine ⟨fun _ => ⟨(PomodoroTimer.reset work p).nextHandle, ?_, ?_⟩, fun hfalse => ?_⟩
      · simp [PomodoroTimer.start, hrun, hzero, hreset.1]
      · simp [PomodoroTimer.start, hrun, hzero]
      · simp [PomodoroTimer.start, hrun, hzero] at hfalse
    · refine ⟨fun _ => ⟨p.nextHandle, ?_, ?_⟩, fun hfalse => ?_⟩
      · simp [PomodoroTimer.start, hrun, hzero, hlive]
      · simp [PomodoroTimer.start, hrun, hzero]
      · simp [PomodoroTimer.start, hrun, hzero] at hfalse

theorem oneLive_congr (p q : Pomodoro) (hinv : PomodoroTimer.OneLiveInterval p)
    (hrun : q.isRunning = p.isRunning) (hlive : q.live = p.live)
    (htimer : q.timerInterval = p.timerInterval) : PomodoroTimer.OneLiveInterval q := by
  unfold PomodoroTimer.OneLiveInterval
  rw [hrun, hlive, htimer]
  exact hinv

theorem oneLive_switchSession (h : Host) (work brk : ℚ) (p p' : Pomodoro) (w w' : World)
    (hinv : PomodoroTimer.OneLiveInterval p)
    (hstep : PomodoroTimer.switchSession h work brk p w = some (p', w')) :
    PomodoroTimer.OneLiveInterval p' := by
  have hstart : ∀ p1 : Pomodoro, p1.isRunning = p.isRunning → p1.live = p.live →
      p1.timerInterval = p.timerInterval →
      PomodoroTimer.OneLiveInterval (PomodoroTimer.start work p1) :=
    fun p1 h1 h2 h3 => oneLive_start work p1 (oneLive_congr p p1 hinv h1 h2 h3)
  unfold PomodoroTimer.switchSession at hstep
  simp only at hstep
  split at hstep
  · split at hstep
    · simp only [Option.some.injEq, Prod.mk.injEq] at hstep
      rw [← hstep.1]
      exact hstart _ rfl rfl rfl
    · cases hstep
  · simp only [Option.some.injEq, Prod.mk.injEq] at hstep
    rw [← hstep.1]
    exact hstart _ rfl rfl rfl

theorem oneLive_tick (h : Host) (work brk : ℚ) (handle : Nat) (p p' : Pomodoro)
    (w w' : World) (hinv : PomodoroTimer.OneLiveInterval p)
    (hstep : PomodoroTimer.tick h work brk handle p w = some (p', w')) :
    PomodoroTimer.OneLiveInterval p' := by
  unfold PomodoroTimer.tick at hstep
  simp only at hstep
  split at hstep
  · split at hstep
    · split at hstep
      · exact oneLive_switchSession h work brk _ p' w w'
          (oneLive_congr p _ hinv rfl rfl rfl) hstep
      · simp only [Option.some.injEq, Prod.mk.injEq] at hstep
        rw [← hstep.1]
        exact oneLive_congr p _ hinv rfl rfl rfl
    · simp only [Option.some.injEq, Prod.mk.injEq] at hstep
      rw [← hstep.1]
      exact hinv
  · simp only [Option.some.injEq, Prod.mk.injEq] at hstep
    rw [← hstep.1]
    exact hinv

theorem reachable_oneLive (h : Host) (s : Pomodoro × World)
    (hreach : PomodoroTimer.Reachable h s) : PomodoroTimer.OneLiveInterval s.1 := by
  induction hreach with
  | initial w => exact oneLive_of_stopped _ rfl rfl
  | step work brk op s s' _ hstep ih =>
    obtain ⟨p', w'⟩ := s'
    cases op with
    | start =>
      simp only [PomodoroTimer.step, Option.some.injEq, Prod.mk.injEq] at hstep
      rw [← hstep.1]
      exact oneLive_start work s.1 ih
    | pause =>
      simp only [PomodoroTimer.step, Option.some.injEq, Prod.mk.injEq] at hstep
      rw [← hstep.1]
      exact oneLive_of_stopped _ (oneLive_pause s.1 ih).1 (oneLive_pause s.1 ih).2
    | reset =>
      simp only [PomodoroTimer.step, Option.some.injEq, Prod.mk.injEq] at hstep
      rw [← hstep.1]
      exact oneLive_of_stopped _ (oneLive_reset work s.1 ih).1 (oneLive_reset work s.1 ih).2
    | tick handle => exact oneLive_tick h work brk handle s.1 p' s.2 w' ih hstep
    | switchSession => exact oneLive_switchSession h work brk s.1 p' s.2 w' ih hstep

/-- C24: in every state reachable through `start`, `pause`, `reset`, ticks and
`switchSession`, at most one interval is live, and one is live only while `isRunning` is
true; after `pause()` and after `reset()` none is live; while the timer is stopped the
tick of any interval changes nothing; `pause()` on a stopped timer changes nothing, and
`pause` followed by `pause` equals `pause`. -/
theorem pomodoro_stop_is_deterministic (h : Host) (s : Pomodoro × World)
    (hreach : PomodoroTimer.Reachable h s) :
    (s.1.isRunning = true → ∃ handle, s.1.live = [handle] ∧ s.1.timerInterval = some handle) ∧
    (s.1.isRunning = false → s.1.live = []) ∧
    ((PomodoroTimer.pause s.1).live = [] ∧ (PomodoroTimer.pause s.1).isRunning = false) ∧
    (∀ work, (PomodoroTimer.reset work s.1).live = [] ∧
      (PomodoroTimer.reset work s.1).isRunning = false) ∧
    (s.1.isRunning = false → ∀ work brk handle,
      PomodoroTimer.tick h work brk handle s.1 s.2 = some s) ∧
    (s.1.isRunning = false → PomodoroTimer.pause s.1 = s.1) ∧
    PomodoroTimer.pause (PomodoroTimer.pause s.1) = PomodoroTimer.pause s.1 := by
  have hinv := reachable_oneLive h s hreach
  refine ⟨hinv.1, hinv.2, oneLive_pause s.1 hinv, fun work => oneLive_reset work s.1 hinv,
    ?_, ?_, ?_⟩
  · intro hstopped work brk handle
    simp [PomodoroTimer.tick, hinv.2 hstopped]
  · exact pause_of_stopped s.1
  · exact pause_of_stopped _ (oneLive_pause s.1 hinv).2

theorem pomodoro_stop_is_deterministic_witness :
    PomodoroTimer.Reachable plainHost
      (PomodoroTimer.start 1500 (PomodoroTimer.reset 1500 PomodoroTimer.initial), focusWorld) ∧
    (PomodoroTimer.start 1500 (PomodoroTimer.reset 1500 PomodoroTimer.initial)).live = [1] ∧
    (PomodoroTimer.pause
      (PomodoroTimer.start 1500 (PomodoroTimer.reset 1500 PomodoroTimer.initial))).live = [] :=
  ⟨PomodoroTimer.Reachable.step 1500 300 .start _ _
      (PomodoroTimer.Reachable.step 1500 300 .reset _ _
        (PomodoroTimer.Reachable.initial focusWorld) rfl) rfl,
    by decide,
    (pomodoro_stop_is_deterministic plainHost
      (PomodoroTimer.start 1500 (PomodoroTimer.reset 1500 PomodoroTimer.initial), focusWorld)
      (PomodoroTimer.Reachable.step 1500 300 .start _ _
        (PomodoroTimer.Reachable.step 1500 300 .reset _ _
          (PomodoroTimer.Reachable.initial focusWorld) rfl) rfl)).2.2.1.1⟩

end DailyHub

/-! ## The focus-session count -/

namespace DailyHub

theorem switchSession_of_work (h : Host) (work brk : ℚ) (p : Pomodoro) (w : World) (n : ℚ)
    (hcount : getProp w.app "focusSessionsCompleted" = some (.num n))
    (hwork : p.isWorkSession = true) :
    ∃ p' w', PomodoroTimer.switchSession h work brk p w = some (p', w') ∧
      getProp w'.app "focusSessionsCompleted" = some (.num (h.fl (n + 1))) := by
  refine ⟨_, _, by simp only [PomodoroTimer.switchSession, hwork, hcount]; rfl, ?_⟩
  simp [EventBus.emit, Utils.showToast, AppState.save, getProp_setProp_same]

theorem switchSession_of_break (h : Host) (work brk : ℚ) (p : Pomodoro) (w : World)
    (hbreak : p.isWorkSession = false) :
    ∃ p', PomodoroTimer.switchSession h work brk p w = some (p', w) := by
  exact ⟨_, by simp only [PomodoroTimer.switchSession, hbreak]; rfl⟩

/-- C23: no operation of the timer (`start`, `pause`, `reset`, a tick, `switchSession`)
lowers `AppState.focusSessionsCompleted`; the count becomes `count + 1` when the operation
ends a work session, that is when `switchSession` leaves a work session or a tick brings
the countdown of a work session to 0, and stays as it is otherwise, in particular on the
switch from break to work. -/
theorem focus_count_monotone (h : Host) (work brk : ℚ) (op : PomodoroOp) (p : Pomodoro)
    (w : World) (n : ℚ)
    (hcount : getProp w.app "focusSessionsCompleted" = some (.num n))
    (hmono : Monotone h.fl) (hfix : h.fl n = n) :
    ∃ p' w' n', PomodoroTimer.step h work brk op p w = some (p', w') ∧
      getProp w'.app "focusSessionsCompleted" = some (.num n') ∧
      n ≤ n' ∧
      (PomodoroTimer.endsWorkSession h op p → n' = h.fl (n + 1)) ∧
      (¬ PomodoroTimer.endsWorkSession h op p → n' = n) ∧
      (h.fl (n + 1) = n + 1 → (n' = n + 1 ↔ PomodoroTimer.endsWorkSession h op p)) := by
  have hup : n ≤ h.fl (n + 1) := by
    have := hmono (show n ≤ n + 1 by linarith)
    rwa [hfix] at this
  have hsame : ∀ (p' : Pomodoro), PomodoroTimer.step h work brk op p w = some (p', w) →
      ¬ PomodoroTimer.endsWorkSession h op p →
      ∃ p' w' n', PomodoroTimer.step h work brk op p w = some (p', w') ∧
        getProp w'.app "focusSessionsCompleted" = some (.num n') ∧ n ≤ n' ∧
        (PomodoroTimer.endsWorkSession h op p → n' = h.fl (n + 1)) ∧
        (¬ PomodoroTimer.endsWorkSession h op p → n' = n) ∧
        (h.fl (n + 1) = n + 1 → (n' = n + 1 ↔ PomodoroTimer.endsWorkSession h op p)) := by
    intro p' hstep hnot
    refine ⟨p', w, n, hstep, hcount, le_rfl, fun hends => absurd hends hnot, fun _ => rfl,
      fun _ => ⟨fun hn => ?_, fun hends => absurd hends hnot⟩⟩
    linarith
  have hends : ∀ (p' : Pomodoro) (w' : World),
      PomodoroTimer.step h work brk op p w = some (p', w') →
      getProp w'.app "focusSessionsCompleted" = some (.num (h.fl (n + 1))) →
      PomodoroTimer.endsWorkSession h op p →
      ∃ p' w' n', PomodoroTimer.step h work brk op p w = some (p', w') ∧
        getProp w'.app "focusSessionsCompleted" = some (.num n') ∧ n ≤ n' ∧
        (PomodoroTimer.endsWorkSession h op p → n' = h.fl (n + 1)) ∧
        (¬ PomodoroTimer.endsWorkSession h op p → n' = n) ∧
        (h.fl (n + 1) = n + 1 → (n' = n + 1 ↔ PomodoroTimer.endsWorkSession h op p)) := by
    intro p' w' hstep hcount' hyes
    exact ⟨p', w', h.fl (n + 1), hstep, hcount', hup, fun _ => rfl,
      fun hnot => absurd hyes hnot, fun hexact => ⟨fun _ => hyes, fun _ => hexact⟩⟩
  cases op with
  | start => exact hsame _ rfl (fun hfalse => hfalse)
  | pause => exact hsame _ rfl (fun hfalse => hfalse)
  | reset => exact hsame _ rfl (fun hfalse => hfalse)
  | switchSession =>
    cases hwork : p.isWorkSession with
    | true =>
      obtain ⟨p', w', hstep, hcount'⟩ := switchSession_of_work h work brk p w n hcount hwork
      exact hends p' w' hstep hcount' hwork
    | false =>
      obtain ⟨p', hstep⟩ := switchSession_of_break h work brk p w hwork
      exact hsame p' hstep (by simp [PomodoroTimer.endsWorkSession, hwork])
  | tick handle =>
    by_cases hlive : handle ∈ p.live
    · by_cases hpos : p.remainingSeconds > 0
      · by_cases hzero : h.fl (p.remainingSeconds - 1) = 0
        · cases hwork : p.isWorkSession with
          | true =>
            obtain ⟨p', w', hstep, hcount'⟩ := switchSession_of_work h work brk
              { p with remainingSeconds := h.fl (p.remainingSeconds - 1) } w n hcount hwork
            exact hends p' w'
              (by simpa [PomodoroTimer.step, PomodoroTimer.tick, hlive, hpos, hzero] using hstep)
              hcount' ⟨hlive, hpos, hzero, hwork⟩
          | false =>
            obtain ⟨p', hstep⟩ := switchSession_of_break h work brk
              { p with remainingSeconds := h.fl (p.remainingSeconds - 1) } w hwork
            exact hsame p'
              (by simpa [PomodoroTimer.step, PomodoroTimer.tick, hlive, hpos, hzero] using hstep)
              (by simp [PomodoroTimer.endsWorkSession, hwork])
        · exact hsame { p with remainingSeconds := h.fl (p.remainingSeconds - 1) }
            (by simp [PomodoroTimer.step, PomodoroTimer.tick, hlive, hpos, hzero])
            (by simp [PomodoroTimer.endsWorkSession, hzero])
      · exact hsame p (by simp [PomodoroTimer.step, PomodoroTimer.tick, hlive, hpos])
          (by simp [PomodoroTimer.endsWorkSession, hpos])
    · exact hsame p (by simp [PomodoroTimer.step, PomodoroTimer.tick, hlive])
        (by simp [PomodoroTimer.endsWorkSession, hlive])

theorem focus_count_monotone_witness :
    getProp focusWorld.app "focusSessionsCompleted" = some (.num 2) ∧
    Monotone plainHost.fl ∧ plainHost.fl 2 = 2 ∧
    PomodoroTimer.endsWorkSession plainHost (.tick 1)
      { PomodoroTimer.start 1500 (PomodoroTimer.reset 1500 PomodoroTimer.initial) with
        remainingSeconds := 1 } ∧
    ∃ p' w' n', PomodoroTimer.step plainHost 1500 300 (.tick 1)
        { PomodoroTimer.start 1500 (PomodoroTimer.reset 1500 PomodoroTimer.initial) with
          remainingSeconds := 1 } focusWorld = some (p', w') ∧
      getProp w'.app "focusSessionsCompleted" = some (.num n') ∧ n' = 2 + 1 := by
  have hends : PomodoroTimer.endsWorkSession plainHost (.tick 1)
      { PomodoroTimer.start 1500 (PomodoroTimer.reset 1500 PomodoroTimer.initial) with
        remainingSeconds := 1 } := by
    refine ⟨by decide, by norm_num, ?_, rfl⟩
    show ((1 : ℚ) - 1) = 0
    norm_num
  obtain ⟨p', w', n', hstep, hcount', _, _, _, hiff⟩ :=
    focus_count_monotone plainHost 1500 300 (.tick 1)
      { PomodoroTimer.start 1500 (PomodoroTimer.reset 1500 PomodoroTimer.initial) with
        remainingSeconds := 1 } focusWorld 2 (by decide) (fun _ _ hab => hab) rfl
  exact ⟨by decide, fun _ _ hab => hab, rfl, hends, p', w', n', hstep, hcount',
    (hiff rfl).mpr hends⟩

end DailyHub
